import Mathlib

/-!
# DS-SP spelling practice: the typing session of `js/script.js`

A shallow embedding of the keystroke handler, the metrics computation and the
error log of `js/script.js`, together with the parts of `js/ui.js` they drive.

* JavaScript strings are sequences of UTF-16 code units, so `key.length` and
  `word[i]` mean what they mean in the source.
* JavaScript numbers are IEEE-754 doubles.  The counters and timestamps are
  integers below `2 ^ 53` and are kept as naturals; every division and
  multiplication of `calculateAndUpdateStats` goes through `F64`, which rounds
  to 53 significant bits, ties to even.
* `Date.now()` is an input: every handler receives the clock reading as an
  argument (one reading per dispatched event).
* `localStorage['spellingErrors']` is kept in parsed form (`ErrorMap`).
-/

namespace SpellingPractice

/-! ## JavaScript strings -/

/-- A JavaScript string, as its sequence of UTF-16 code units. -/
abbrev JSString := List Nat

/-- The UTF-16 code units of a string literal of the source. -/
def utf16 (s : String) : JSString :=
  s.toList.flatMap fun c =>
    if c.toNat < 65536 then [c.toNat]
    else [55296 + (c.toNat - 65536) / 1024, 56320 + (c.toNat - 65536) % 1024]

/-- The key value of the space bar, `' '`. -/
def keySpace : JSString := utf16 " "

/-- The key value `'Backspace'`. -/
def keyBackspace : JSString := utf16 "Backspace"

/-! ## IEEE-754 doubles -/

/-- A finite double, the number `m * 2 ^ e`.  The representation is not
normalised: operations read the value and produce a rounded value. -/
structure F64 where
  m : Int
  e : Int
deriving DecidableEq, Repr

/-- Number of binary digits of `n`, with `fuel` bounding the recursion. -/
def bitLengthAux : Nat → Nat → Nat
  | 0, _ => 0
  | fuel + 1, n => if n = 0 then 0 else bitLengthAux fuel (n / 2) + 1

/-- Number of binary digits of `n` (`0` for `0`). -/
def bitLength (n : Nat) : Nat := bitLengthAux n n

/-- The integer nearest to `n / d`, a tie going to the even neighbour. -/
def roundTiesEven (n d : Nat) : Nat :=
  let q := n / d
  let r := n % d
  if 2 * r < d then q else if d < 2 * r then q + 1 else if q % 2 = 0 then q else q + 1

/-- The double nearest to the positive rational `n / d` (round to nearest, ties
to even): the binary exponent `e0` of `n / d` is found from the bit lengths, the
quotient is scaled to a 53-bit significand and rounded.  Below `2 ^ (-1022)` the
spacing stays `2 ^ (-1074)` (gradual underflow); overflow to `Infinity` is out of
reach of the computations below and is not represented. -/
def roundQuotient (n d : Nat) : F64 :=
  let k : Int := (bitLength n : Int) - (bitLength d : Int)
  let atLeast : Bool := decide (d * 2 ^ k.toNat ≤ n * 2 ^ (-k).toNat)
  let e0 : Int := if atLeast then k else k - 1
  let s : Int := max (e0 - 52) (-1074)
  ⟨roundTiesEven (n * 2 ^ (-s).toNat) (d * 2 ^ s.toNat), s⟩

namespace F64

/-- The double nearest to `± n / d`. -/
def ofQuotient (negative : Bool) (n d : Nat) : F64 :=
  if n = 0 then ⟨0, 0⟩
  else
    let r := roundQuotient n d
    if negative then ⟨-r.m, r.e⟩ else r

/-- The double nearest to `z * 2 ^ e`; a significand below `2 ^ 53` is exact. -/
def ofDyadic (z e : Int) : F64 :=
  if z.natAbs < 2 ^ 53 then ⟨z, e⟩
  else ofQuotient (decide (z < 0)) (z.natAbs * 2 ^ e.toNat) (2 ^ (-e).toNat)

/-- The double holding a natural number (exact below `2 ^ 53`). -/
def ofNat (n : Nat) : F64 := ofDyadic n 0

/-- JavaScript `a + b`. -/
def add (a b : F64) : F64 :=
  let e := min a.e b.e
  ofDyadic (a.m * 2 ^ (a.e - e).toNat + b.m * 2 ^ (b.e - e).toNat) e

/-- JavaScript `a - b`. -/
def sub (a b : F64) : F64 :=
  let e := min a.e b.e
  ofDyadic (a.m * 2 ^ (a.e - e).toNat - b.m * 2 ^ (b.e - e).toNat) e

/-- JavaScript `a * b`. -/
def mul (a b : F64) : F64 := ofDyadic (a.m * b.m) (a.e + b.e)

/-- JavaScript `a / b` for a non-zero divisor (every division of the source
has a constant or a guarded positive divisor). -/
def div (a b : F64) : F64 :=
  let k := a.e - b.e
  ofQuotient (xor (decide (a.m < 0)) (decide (b.m < 0)))
    (a.m.natAbs * 2 ^ k.toNat) (b.m.natAbs * 2 ^ (-k).toNat)

/-- JavaScript `a % b` for a non-zero `b`: the remainder of the truncating
division, with the sign of `a`; it is exact. -/
def rem (a b : F64) : F64 :=
  let e := min a.e b.e
  ⟨Int.tmod (a.m * 2 ^ (a.e - e).toNat) (b.m * 2 ^ (b.e - e).toNat), e⟩

/-- The integer `Math.floor(a)`. -/
def floor (a : F64) : Int := (a.m * 2 ^ a.e.toNat) / 2 ^ (-a.e).toNat

/-- The integer `Math.round(a)`, that is `floor(a + 1/2)` computed exactly. -/
def round (a : F64) : Int :=
  (2 * (a.m * 2 ^ a.e.toNat) + 2 ^ (-a.e).toNat) / (2 * 2 ^ (-a.e).toNat)

/-- The test `a > 0`. -/
def isPositive (a : F64) : Bool := decide (0 < a.m)

/-- The exact rational value of a double. -/
def toRat (a : F64) : ℚ := (a.m : ℚ) * (2 : ℚ) ^ a.e

end F64

/-! ## Metrics (`calculateAndUpdateStats`, script.js 215-240) -/

/-- The test `!startTime`: `null` and `0` are both falsy. -/
def startTimeUnset : Option Nat → Bool
  | none => true
  | some t => decide (t = 0)

/-- The constant `timeElapsedSeconds = (now - startTime) / 1000`. -/
def timeElapsedSeconds (startTime now : Nat) : F64 :=
  F64.div (F64.sub (F64.ofNat now) (F64.ofNat startTime)) (F64.ofNat 1000)

/-- The constant `timeElapsedMinutes = timeElapsedSeconds / 60`. -/
def timeElapsedMinutes (startTime now : Nat) : F64 :=
  F64.div (timeElapsedSeconds startTime now) (F64.ofNat 60)

/-- The constant `grossWpm` of script.js line 227. -/
def grossWpm (correctChars incorrectChars startTime now : Nat) : Int :=
  if (timeElapsedMinutes startTime now).isPositive then
    F64.round (F64.div
      (F64.div (F64.add (F64.ofNat correctChars) (F64.ofNat incorrectChars)) (F64.ofNat 5))
      (timeElapsedMinutes startTime now))
  else 0

/-- The constant `accuracy` of script.js lines 231-232. -/
def accuracy (correctChars incorrectChars : Nat) : Int :=
  let totalCharsAttempted := F64.add (F64.ofNat correctChars) (F64.ofNat incorrectChars)
  if totalCharsAttempted.isPositive then
    F64.round (F64.mul (F64.div (F64.ofNat correctChars) totalCharsAttempted) (F64.ofNat 100))
  else 100

/-- The method `padStart(2, '0')` on the decimal text of a number. -/
def padStart2 (s : String) : String :=
  String.mk (List.replicate (2 - s.length) '0') ++ s

/-- The constant `formattedTime` of script.js lines 235-237. -/
def formattedTime (startTime now : Nat) : String :=
  let minutes := F64.floor (F64.div (timeElapsedSeconds startTime now) (F64.ofNat 60))
  let seconds := padStart2 (toString
    (F64.floor (F64.rem (timeElapsedSeconds startTime now) (F64.ofNat 60))))
  toString minutes ++ ":" ++ seconds

/-- The argument object of `ui.updateStats`; `none` is a property left out. -/
structure StatsArg where
  time : Option String
  wpm : Option Int
  accuracy : Option Int
deriving DecidableEq, Repr

/-- The object `calculateAndUpdateStats` hands to `ui.updateStats`: nothing
while `startTime` is falsy, the three computed values afterwards. -/
def statsSnapshot (startTime : Option Nat) (correctChars incorrectChars now : Nat) : StatsArg :=
  if startTimeUnset startTime then ⟨none, none, none⟩
  else
    ⟨some (formattedTime (startTime.getD 0) now),
     some (grossWpm correctChars incorrectChars (startTime.getD 0) now),
     some (accuracy correctChars incorrectChars)⟩

/-! ## Error log (`recordError`, script.js 245-262) -/

/-- One element of a `details` array.  An `expected` of `undefined` (a key typed
past the end of the word) is dropped by `JSON.stringify`: `none`. -/
structure ErrorDetail where
  expected : Option JSString
  typed : JSString
  position : Nat
  timestamp : Nat
deriving DecidableEq, Repr

/-- The value stored for one word. -/
structure ErrorEntry where
  count : Nat
  details : List ErrorDetail
deriving DecidableEq, Repr

/-- The object parsed from `localStorage['spellingErrors']` (or from `'{}'`
when the item is absent): its own properties, keyed by word. -/
abbrev ErrorMap := JSString → Option ErrorEntry

/-- The error map parsed from `'{}'`. -/
def emptyErrors : ErrorMap := fun _ => none

/-- The property names a parsed object inherits from `Object.prototype`.  For
such a name `errors[word]` is a built-in function (or the prototype object)
even when the stored object has no entry of its own. -/
def objectPrototypeKeys : List JSString :=
  ["constructor", "__defineGetter__", "__defineSetter__", "hasOwnProperty",
   "__lookupGetter__", "__lookupSetter__", "isPrototypeOf", "propertyIsEnumerable",
   "toString", "valueOf", "__proto__", "toLocaleString"].map utf16

/-- The statements `count++`, `details.push(...)` and the `shift()` that keeps
the last five details. -/
def ErrorEntry.record (entry : ErrorEntry) (detail : ErrorDetail) : ErrorEntry :=
  let details := entry.details ++ [detail]
  { count := entry.count + 1
    details := if 5 < details.length then details.tail else details }

/-- The function `recordError`, as the new content of the store.  With no own
entry and an inherited name, `!errors[word]` is false, `errors[word].details`
is `undefined` and the `push` throws inside the `try`: nothing is written. -/
def recordError (errors : ErrorMap) (word : JSString) (expected : Option JSString)
    (typed : JSString) (position time : Nat) : ErrorMap :=
  match errors word with
  | some entry => Function.update errors word (some (entry.record ⟨expected, typed, position, time⟩))
  | none =>
    if word ∈ objectPrototypeKeys then errors
    else Function.update errors word
      (some (ErrorEntry.record ⟨0, []⟩ ⟨expected, typed, position, time⟩))

/-! ## The page (`js/ui.js`) -/

/-- The status classes of a letter span. -/
inductive LetterStatus where
  | default
  | correct
  | incorrect
deriving DecidableEq, Repr

/-- The part of the document the session writes to. -/
structure UI where
  /-- Words whose letter spans are in the word display area. -/
  displayed : List JSString
  /-- Status class of the letter span at a word and letter index. -/
  letterStatus : Nat → Nat → LetterStatus
  /-- Position of the span carrying the class `current`. -/
  caret : Option (Nat × Nat)
  timerStat : String
  wpmStat : String
  accuracyStat : String
  feedbackText : String
  feedbackClass : String
  keyboardInputDisabled : Bool
  restartButtonDisabled : Bool

namespace UI

/-- Whether the selector of `updateLetterStatus` and `updateCaretPosition`
finds a letter span. -/
def hasLetter (ui : UI) (wordIndex letterIndex : Nat) : Bool :=
  match ui.displayed[wordIndex]? with
  | some w => decide (letterIndex < w.length)
  | none => false

/-- The function `updateLetterStatus` of ui.js. -/
def updateLetterStatus (ui : UI) (wordIndex letterIndex : Nat) (status : LetterStatus) : UI :=
  if ui.hasLetter wordIndex letterIndex then
    { ui with letterStatus := fun w l =>
        if w = wordIndex ∧ l = letterIndex then status else ui.letterStatus w l }
  else ui

/-- The function `updateCaretPosition` of ui.js (its callers never pass
`isEndOfLine`). -/
def updateCaretPosition (ui : UI) (wordIndex letterIndex : Nat) : UI :=
  { ui with caret := if ui.hasLetter wordIndex letterIndex then some (wordIndex, letterIndex)
                     else none }

/-- The function `updateStats` of ui.js, with its defaults `'0:00'`, `'--'`
and `'--'`. -/
def updateStats (ui : UI) (stats : StatsArg) : UI :=
  { ui with
    timerStat := stats.time.getD "0:00"
    wpmStat := (match stats.wpm with | some w => toString w | none => "--") ++ " WPM"
    accuracyStat := (match stats.accuracy with | some a => toString a | none => "--") ++ "% Acc" }

/-- The function `showFeedbackMessage` of ui.js. -/
def showFeedbackMessage (ui : UI) (message type : String) : UI :=
  { ui with feedbackText := message, feedbackClass := "feedback-area " ++ type }

/-- The function `displayWords` of ui.js. -/
def displayWords (ui : UI) (wordsArray : List JSString) : UI :=
  { ui with
    displayed := wordsArray
    letterStatus := fun _ _ => LetterStatus.default
    caret := none
    feedbackText := "" }

/-- The function `resetUI` of ui.js. -/
def resetUI (ui : UI) : UI :=
  let ui : UI := { ui with displayed := [], letterStatus := fun _ _ => LetterStatus.default,
                           caret := none }
  let ui := ui.updateStats ⟨none, none, none⟩
  let ui := ui.showFeedbackMessage "" "info"
  { ui with restartButtonDisabled := false }

end UI

/-! ## Session state (`js/script.js`) -/

/-- The module variables of script.js, the interval timers of the window, the
stored error map and the page. -/
structure State where
  words : List JSString
  currentWordIndex : Nat
  currentLetterIndex : Nat
  startTime : Option Nat
  timerInterval : Option Nat
  correctChars : Nat
  incorrectChars : Nat
  totalTypedEntries : Nat
  gameActive : Bool
  /-- Handles of the interval timers that are installed and not cleared. -/
  liveTimers : List Nat
  /-- Handle the next `setInterval` returns (handles are positive). -/
  nextTimerId : Nat
  /-- Parsed content of `localStorage['spellingErrors']`. -/
  spellingErrors : ErrorMap
  ui : UI

/-- How a handler run ends: normally, or with an uncaught `TypeError`. -/
inductive Completion where
  | normal
  | typeError
deriving DecidableEq, Repr

/-- A `keydown` event, with the reading `Date.now()` gives while it is handled. -/
structure KeyEvent where
  key : JSString
  ctrlKey : Bool
  metaKey : Bool
  time : Nat
deriving DecidableEq, Repr

/-- The function `calculateAndUpdateStats`. -/
def calculateAndUpdateStats (s : State) (now : Nat) : State :=
  { s with ui := s.ui.updateStats (statsSnapshot s.startTime s.correctChars s.incorrectChars now) }

/-- The function `stopTimer`. -/
def stopTimer (s : State) : State :=
  match s.timerInterval with
  | some id =>
    if id ≠ 0 then { s with liveTimers := s.liveTimers.filter (· ≠ id), timerInterval := none }
    else s
  | none => s

/-- The function `resetState`. -/
def resetState (s : State) : State :=
  let s := { s with words := [], currentWordIndex := 0, currentLetterIndex := 0, startTime := none }
  let s := stopTimer s
  { s with correctChars := 0, incorrectChars := 0, totalTypedEntries := 0, gameActive := false }

/-- The function `startGame`. -/
def startGame (s : State) (now : Nat) : State :=
  if s.gameActive then s
  else
    let s := { s with
      gameActive := true
      startTime := some now
      timerInterval := some s.nextTimerId
      liveTimers := s.nextTimerId :: s.liveTimers
      nextTimerId := s.nextTimerId + 1 }
    calculateAndUpdateStats s now

/-- The function `endGame`. -/
def endGame (s : State) (now : Nat) : State :=
  if !s.gameActive then s
  else
    let s := stopTimer s
    let s := { s with
      gameActive := false
      ui := { s.ui with keyboardInputDisabled := true, restartButtonDisabled := false } }
    let s := calculateAndUpdateStats s now
    { s with ui := s.ui.showFeedbackMessage "Test Complete! Press Restart." "info" }

/-- The function `moveToNextWord`. -/
def moveToNextWord (s : State) (now : Nat) : State :=
  if s.currentWordIndex < s.words.length - 1 then
    let s := { s with currentWordIndex := s.currentWordIndex + 1, currentLetterIndex := 0 }
    { s with ui := s.ui.updateCaretPosition s.currentWordIndex s.currentLetterIndex }
  else endGame s now

/-- The callback installed by `setInterval` in `startGame`, run for the timer
with handle `id`. -/
def timerTick (s : State) (id now : Nat) : State :=
  if id ∈ s.liveTimers then calculateAndUpdateStats s now else s

/-- Whether `handleKeyDown` goes past its first test (script.js line 80): the
key is a space, a Backspace, or one code unit typed without Ctrl or Meta. -/
def isHandledKey (event : KeyEvent) : Bool :=
  decide (event.key = keySpace) || decide (event.key = keyBackspace) ||
    (decide (event.key.length = 1) && !event.ctrlKey && !event.metaKey)

/-- Truthiness of `currentWord`: a defined, non-empty string. -/
def isTruthyWord : Option JSString → Bool
  | some w => !w.isEmpty
  | none => false

/-- The character branch of `handleKeyDown` (script.js lines 94-118); reading
`currentWord[currentLetterIndex]` of an undefined word throws. -/
def handleCharacter (s : State) (currentWord : Option JSString) (key : JSString) (now : Nat) :
    State × Completion :=
  let s := { s with totalTypedEntries := s.totalTypedEntries + 1 }
  match currentWord with
  | none => (s, Completion.typeError)
  | some w =>
    let expectedLetter : Option JSString := (w[s.currentLetterIndex]?).map fun u => [u]
    let s :=
      if some key = expectedLetter then
        { s with
          correctChars := s.correctChars + 1
          ui := s.ui.updateLetterStatus s.currentWordIndex s.currentLetterIndex
                  LetterStatus.correct }
      else
        { s with
          incorrectChars := s.incorrectChars + 1
          ui := s.ui.updateLetterStatus s.currentWordIndex s.currentLetterIndex
                  LetterStatus.incorrect
          spellingErrors :=
            recordError s.spellingErrors w expectedLetter key s.currentLetterIndex now }
    let s := { s with currentLetterIndex := s.currentLetterIndex + 1 }
    let s :=
      if w.length ≤ s.currentLetterIndex then
        { s with ui := s.ui.updateCaretPosition s.currentWordIndex (s.currentLetterIndex - 1) }
      else
        { s with ui := s.ui.updateCaretPosition s.currentWordIndex s.currentLetterIndex }
    (s, Completion.normal)

/-- The space and Backspace branches of `handleKeyDown` (script.js lines
120-143), for a key that is not a single non-space code unit. -/
def handleControl (s : State) (currentWord : Option JSString) (key : JSString) (now : Nat) :
    State :=
  if key = keySpace ∧ isTruthyWord currentWord then
    if (currentWord.getD []).length ≤ s.currentLetterIndex then moveToNextWord s now else s
  else if key = keyBackspace ∧ isTruthyWord currentWord then
    if 0 < s.currentLetterIndex then
      let s := { s with currentLetterIndex := s.currentLetterIndex - 1 }
      let s := { s with ui := s.ui.updateLetterStatus s.currentWordIndex s.currentLetterIndex
                                LetterStatus.default }
      { s with ui := s.ui.updateCaretPosition s.currentWordIndex s.currentLetterIndex }
    else s
  else s

/-- The end of `handleKeyDown` (script.js lines 145-153): the statistics are
recomputed unless the key is Backspace, and the game ends when the word index
is past the list. -/
def finishKey (s : State) (key : JSString) (now : Nat) : State :=
  let s := if key ≠ keyBackspace then calculateAndUpdateStats s now else s
  if s.words.length ≤ s.currentWordIndex then endGame s now else s

/-- The start of the timer on the first valid key press (script.js lines
86-89). -/
def startOnFirstKey (s : State) (event : KeyEvent) : State :=
  if !s.gameActive ∧ 0 < s.words.length ∧ event.key ≠ keyBackspace then startGame s event.time
  else s

/-- The function `handleKeyDown`. -/
def handleKeyDown (s : State) (event : KeyEvent) : State × Completion :=
  let key := event.key
  let currentWord := s.words[s.currentWordIndex]?
  if isHandledKey event then
    let s := startOnFirstKey s event
    if !s.gameActive ∧ key = keyBackspace then (s, Completion.normal)
    else if !s.gameActive then (s, Completion.normal)
    else if key.length = 1 ∧ key ≠ keySpace then
      let r := handleCharacter s currentWord key event.time
      if r.2 = Completion.normal then (finishKey r.1 key event.time, Completion.normal) else r
    else (finishKey (handleControl s currentWord key event.time) key event.time,
          Completion.normal)
  else (s, Completion.normal)

/-- The state after a sequence of `keydown` events; an event whose handler
throws leaves the state it had reached. -/
def run (s : State) (events : List KeyEvent) : State :=
  events.foldl (fun s event => (handleKeyDown s event).1) s

/-- A keystroke that counts as typed text: one code unit, not the space,
pressed without Ctrl or Meta. -/
def isCharacterKey (event : KeyEvent) : Bool :=
  decide (event.key.length = 1) && decide (event.key ≠ keySpace) &&
    !event.ctrlKey && !event.metaKey

/-- Whether the session is active when `handleKeyDown` dispatches the event,
that is after the timer start of lines 86-89 (the first key press of a session
is handled in the session it starts). -/
def activeAtDispatch (s : State) (event : KeyEvent) : Bool :=
  (startOnFirstKey s event).gameActive

/-- The number of character keystrokes of a run that were dispatched while the
session was active. -/
def countedKeystrokes (s : State) : List KeyEvent → Nat
  | [] => 0
  | event :: events =>
    (if isCharacterKey event && activeAtDispatch s event then 1 else 0) +
      countedKeystrokes (handleKeyDown s event).1 events

/-- The key values of a faultless run over a word list: the letters of each
word in turn, one space between consecutive words, nothing after the last
letter of the last word. -/
def perfectKeys : List JSString → List JSString
  | [] => []
  | [w] => w.map fun u => [u]
  | w :: w2 :: ws => (w.map fun u => [u]) ++ keySpace :: perfectKeys (w2 :: ws)

/-- The number of letters (code units) of a word list. -/
def totalLetters (ws : List JSString) : Nat := (ws.map List.length).sum

/-- The function `initializeApp` up to its `await`. -/
def initializeAppBegin (s : State) : State :=
  let s := resetState s
  let s := { s with ui := s.ui.resetUI }
  { s with ui := s.ui.showFeedbackMessage "Fetching words..." "info" }

/-- The function `initializeApp` from the point where `fetchWordsFromServer`
has settled: with the word array, or with the message of the error thrown. -/
def initializeAppResume (s : State) (fetched : Except String (List JSString)) : State :=
  match fetched with
  | Except.ok ws =>
    let s := { s with words := ws }
    if ws.length = 0 then
      { s with ui := s.ui.showFeedbackMessage "Error: Failed to load words." "error" }
    else
      let s := { s with ui := s.ui.displayWords ws }
      let s := { s with currentWordIndex := 0, currentLetterIndex := 0 }
      let s := { s with ui := s.ui.updateCaretPosition s.currentWordIndex s.currentLetterIndex }
      { s with ui := s.ui.showFeedbackMessage "" "info" }
  | Except.error message =>
    { s with ui := s.ui.showFeedbackMessage ("Error: " ++ message) "error" }

/-- A run of `initializeApp` with no event handled during the fetch. -/
def initializeApp (s : State) (fetched : Except String (List JSString)) : State :=
  initializeAppResume (initializeAppBegin s) fetched

/-- The page before any script has written to it. -/
def blankUI : UI :=
  { displayed := []
    letterStatus := fun _ _ => LetterStatus.default
    caret := none
    timerStat := ""
    wpmStat := ""
    accuracyStat := ""
    feedbackText := ""
    feedbackClass := ""
    keyboardInputDisabled := false
    restartButtonDisabled := false }

/-- The module state when script.js has been evaluated, over an empty
`localStorage`. -/
def moduleState : State :=
  { words := []
    currentWordIndex := 0
    currentLetterIndex := 0
    startTime := none
    timerInterval := none
    correctChars := 0
    incorrectChars := 0
    totalTypedEntries := 0
    gameActive := false
    liveTimers := []
    nextTimerId := 1
    spellingErrors := emptyErrors
    ui := blankUI }

/-- The session once `initializeApp` has loaded the words `ws`. -/
def loaded (ws : List JSString) : State := initializeApp moduleState (Except.ok ws)

/-- A key pressed without modifiers, handled at clock reading `time`. -/
def press (key : String) (time : Nat) : KeyEvent := ⟨utf16 key, false, false, time⟩

/-- A run of key presses in which every character key that is counted arrives
while the letter index is still inside the current word. -/
def typedWithinWords (s : State) : List KeyEvent → Bool
  | [] => true
  | event :: events =>
    (!(isCharacterKey event && activeAtDispatch s event) ||
        decide (s.currentLetterIndex < (s.words[s.currentWordIndex]?.getD []).length)) &&
      typedWithinWords (handleKeyDown s event).1 events

/-- The idle reset state of the session: no words, cursor at the origin,
counters at zero, no start time, not active, no timer stored or live. -/
def State.isIdleReset (s : State) : Bool :=
  decide (s.words = []) && decide (s.currentWordIndex = 0) &&
    decide (s.currentLetterIndex = 0) && decide (s.correctChars = 0) &&
    decide (s.incorrectChars = 0) && decide (s.totalTypedEntries = 0) &&
    decide (s.startTime = none) && !s.gameActive && decide (s.timerInterval = none) &&
    decide (s.liveTimers = [])

/-! ## The word fetch (`js/api.js`) -/

/-- What `fetch` and `response.json()` hand to `fetchWordsFromServer`. -/
inductive ServerReply where
  /-- Either promise rejects, with an error of this message. -/
  | rejected (message : String)
  /-- A response that is not `ok`; `detail` is `errorData.details ||
  errorData.error` when the body is JSON and one of them is truthy. -/
  | notOk (status : Nat) (detail : Option String)
  /-- An `ok` response whose JSON is falsy or has no array under `words`. -/
  | noWords
  /-- An `ok` response whose JSON has this array under `words` (get-word.js
  sends arrays of strings). -/
  | words (ws : List JSString)

/-- The function `fetchWordsFromServer` of api.js (lines 28-60): the array it
resolves with, or the message of the error it throws. -/
def fetchWordsFromServer : ServerReply → Except String (List JSString)
  | ServerReply.rejected message => Except.error ("Failed to fetch words: " ++ message)
  | ServerReply.notOk status detail =>
    Except.error ("Failed to fetch words: " ++
      detail.getD ("HTTP error! status: " ++ toString status))
  | ServerReply.noWords =>
    Except.error "Failed to fetch words: Invalid or empty words array received from API"
  | ServerReply.words ws =>
    if ws.length = 0 then
      Except.error "Failed to fetch words: Invalid or empty words array received from API"
    else Except.ok ws

/-- Whether a settled fetch makes `initializeApp` take its `catch` branch: an
error was thrown, or the array is empty. -/
def fetchFailed : Except String (List JSString) → Bool
  | Except.ok ws => decide (ws.length = 0)
  | Except.error _ => true

/-! ## The page as an event system -/

/-- The session and the number of `initializeApp` runs waiting at their
`await`. -/
structure Page where
  state : State
  pendingFetches : Nat

/-- What can run on the page: the three listeners registered at the end of
script.js, the interval callback, and the settling of a pending fetch. -/
inductive PageEvent where
  /-- A `keydown` on the input: `handleKeyDown`. -/
  | keydown (event : KeyEvent)
  /-- The interval callback of timer `id`, at clock reading `now`. -/
  | tick (id now : Nat)
  /-- `DOMContentLoaded` or a click on restart: `initializeApp` up to its
  `await`. -/
  | load
  /-- A pending fetch settles and its `initializeApp` run goes on. -/
  | fetchSettled (reply : ServerReply)

/-- Whether an event is a fetch that settles with a word list, that is a run
of `initializeApp` that loads words. -/
def PageEvent.settlesWithWords : PageEvent → Bool
  | PageEvent.fetchSettled reply => !fetchFailed (fetchWordsFromServer reply)
  | _ => false

/-- One event of the page. -/
def Page.step (p : Page) : PageEvent → Page
  | PageEvent.keydown event => { p with state := (handleKeyDown p.state event).1 }
  | PageEvent.tick id now => { p with state := timerTick p.state id now }
  | PageEvent.load => ⟨initializeAppBegin p.state, p.pendingFetches + 1⟩
  | PageEvent.fetchSettled reply =>
    if p.pendingFetches = 0 then p
    else ⟨initializeAppResume p.state (fetchWordsFromServer reply), p.pendingFetches - 1⟩

/-- The page after a sequence of events. -/
def Page.run (p : Page) (events : List PageEvent) : Page := events.foldl Page.step p

/-- The page when script.js has been evaluated, over a stored error map. -/
def pageStart (errors : ErrorMap) : Page :=
  ⟨{ moduleState with spellingErrors := errors }, 0⟩

/-- A call of one of the functions of script.js that touch the timer or the
active flag, made in any order. -/
inductive SessionCall where
  | resetState
  | handleKeyDown (event : KeyEvent)
  | startGame (now : Nat)
  | endGame (now : Nat)
  | timerTick (id now : Nat)
  | initializeAppBegin
  | initializeAppResume (fetched : Except String (List JSString))

/-- The state after one call. -/
def SessionCall.apply (s : State) : SessionCall → State
  | SessionCall.resetState => SpellingPractice.resetState s
  | SessionCall.handleKeyDown event => (SpellingPractice.handleKeyDown s event).1
  | SessionCall.startGame now => SpellingPractice.startGame s now
  | SessionCall.endGame now => SpellingPractice.endGame s now
  | SessionCall.timerTick id now => SpellingPractice.timerTick s id now
  | SessionCall.initializeAppBegin => SpellingPractice.initializeAppBegin s
  | SessionCall.initializeAppResume fetched => SpellingPractice.initializeAppResume s fetched

/-- The state after a sequence of calls. -/
def interleave (s : State) (calls : List SessionCall) : State :=
  calls.foldl SessionCall.apply s

/-! ## The time display -/

/-- A number below 100 written with exactly two decimal digits. -/
def twoDigits (n : Nat) : String := String.mk [Nat.digitChar (n / 10), Nat.digitChar (n % 10)]

/-! ## The word service (`api/get-word.js`) -/

/-- A value of `request.query`: one string, or an array of strings when the
parameter is repeated in the URL. -/
inductive QueryValue where
  | single (value : JSString)
  | multiple (values : List JSString)
deriving DecidableEq, Repr

namespace QueryValue

/-- Truthiness of a query value: only the empty string is falsy. -/
def isTruthy : QueryValue → Bool
  | single value => !value.isEmpty
  | multiple _ => true

/-- The string a query value converts to: an array is its elements joined by
commas. -/
def toJSString : QueryValue → JSString
  | single value => value
  | multiple values => List.intercalate (utf16 ",") values

end QueryValue

/-- The code units `parseInt` skips at the start of its input: white space
and line terminators. -/
def isStrWhiteSpaceChar (u : Nat) : Bool :=
  decide (u ∈ [9, 10, 11, 12, 13, 32, 160, 5760, 8232, 8233, 8239, 8287, 12288, 65279]) ||
    (decide (8192 ≤ u) && decide (u ≤ 8202))

/-- The code units `0` to `9`. -/
def isDecimalDigit (u : Nat) : Bool := decide (48 ≤ u) && decide (u ≤ 57)

/-- The number a run of decimal digits denotes. -/
def decimalValue (digits : JSString) : Nat :=
  digits.foldl (fun value u => 10 * value + (u - 48)) 0

/-- The call `parseInt(string, 10)`, with `none` for `NaN`: leading white space
is skipped, one sign is read, then the longest run of decimal digits; what
follows the digits is ignored.  The result is the mathematical integer; the
handler only compares it with 0 and 50 and keeps it when it is at most 50,
where the double `parseInt` returns is that integer. -/
def parseInt10 (input : JSString) : Option Int :=
  let s := input.dropWhile isStrWhiteSpaceChar
  let negative : Bool := decide (s.head? = some 45)
  let s := if s.head? = some 45 ∨ s.head? = some 43 then s.tail else s
  let z := s.takeWhile isDecimalDigit
  if z.isEmpty then none
  else if negative then some (-(decimalValue z : Int)) else some (decimalValue z : Int)

/-- What lines 58-102 of the handler leave in `words`, or what they throw:
the answer of the Mistral client and its parsing are inputs. -/
inductive Extraction where
  /-- The array of strings held by `words` at line 105. -/
  | words (ws : List JSString)
  /-- An error reaches the outer `catch`, with these `status` and `message`
  properties. -/
  | thrown (status : Option Nat) (message : Option String)

/-- The body sent with a response. -/
inductive ResponseBody where
  /-- No body (`end()`). -/
  | ended
  /-- The JSON object with `error` and, when defined, `details`. -/
  | failure (error : String) (details : Option String)
  /-- The JSON object with the array `words`. -/
  | words (ws : List JSString)
deriving DecidableEq, Repr

/-- A response of the handler. -/
structure Response where
  status : Nat
  body : ResponseBody
deriving DecidableEq, Repr

/-- The variable `wordCount` after lines 38-48 of the handler, with `none`
when the handler answers 400 there. -/
def wordCount (countParam : Option QueryValue) : Option Nat :=
  match countParam with
  | none => some 20
  | some value =>
    if value.isTruthy then
      match parseInt10 value.toJSString with
      | some parsedCount =>
        if 0 < parsedCount ∧ parsedCount ≤ 50 then some parsedCount.toNat else none
      | none => none
    else some 20

/-- The 400 answer of line 46. -/
def invalidCount : Response :=
  ⟨400, ResponseBody.failure "Invalid count parameter. Must be between 1 and 50." none⟩

/-- The function `handler` of get-word.js, for a request with this method and
this `count` in its query; `upstream` gives, for the word count asked of the
model, what the Mistral call and the parsing of its answer produce. -/
def handler (method : JSString) (countParam : Option QueryValue)
    (upstream : Nat → Extraction) : Response :=
  if method = utf16 "OPTIONS" then ⟨200, ResponseBody.ended⟩
  else if method ≠ utf16 "GET" then ⟨405, ResponseBody.failure "Method Not Allowed" none⟩
  else
    match wordCount countParam with
    | none => invalidCount
    | some count =>
      match upstream count with
      | Extraction.words ws => ⟨200, ResponseBody.words (ws.take count)⟩
      | Extraction.thrown status message =>
        ⟨if status.getD 0 = 0 then 500 else status.getD 0,
         ResponseBody.failure "Failed to fetch words from AI service." message⟩

/-- A `count` that is one plain decimal integer: a non-empty run of the digits
`0` to `9` and nothing else (the text of `count=7` or `count=050`). -/
def isPlainInteger (value : JSString) : Bool :=
  !value.isEmpty && value.all isDecimalDigit

/-! ## Invariants of the session -/

/-- The timer discipline: handles are positive, and either the session is
active and the one live timer is the one stored in `timerInterval`, or the
session is not active, nothing is stored and no timer is live. -/
def TimersOk (s : State) : Prop :=
  s.nextTimerId ≠ 0 ∧
  ((s.gameActive = true ∧ ∃ id, id ≠ 0 ∧ s.timerInterval = some id ∧ s.liveTimers = [id]) ∨
   (s.gameActive = false ∧ s.timerInterval = none ∧ s.liveTimers = []))

/-- The current word is available: a non-empty word list has the word index
inside it, and an active session has a non-empty word list. -/
def WordAvailable (s : State) : Prop :=
  (s.words ≠ [] → s.currentWordIndex < s.words.length) ∧
  (s.gameActive = true → s.words ≠ [])

/-! ## Field lemmas for the helpers of `handleKeyDown` -/

@[simp] theorem calculateAndUpdateStats_words (s : State) (now : Nat) :
    (calculateAndUpdateStats s now).words = s.words := by
  rfl

@[simp] theorem calculateAndUpdateStats_currentWordIndex (s : State) (now : Nat) :
    (calculateAndUpdateStats s now).currentWordIndex = s.currentWordIndex := by
  rfl

@[simp] theorem calculateAndUpdateStats_currentLetterIndex (s : State) (now : Nat) :
    (calculateAndUpdateStats s now).currentLetterIndex = s.currentLetterIndex := by
  rfl

@[simp] theorem calculateAndUpdateStats_startTime (s : State) (now : Nat) :
    (calculateAndUpdateStats s now).startTime = s.startTime := by
  rfl

@[simp] theorem calculateAndUpdateStats_correctChars (s : State) (now : Nat) :
    (calculateAndUpdateStats s now).correctChars = s.correctChars := by
  rfl

@[simp] theorem calculateAndUpdateStats_incorrectChars (s : State) (now : Nat) :
    (calculateAndUpdateStats s now).incorrectChars = s.incorrectChars := by
  rfl

@[simp] theorem calculateAndUpdateStats_gameActive (s : State) (now : Nat) :
    (calculateAndUpdateStats s now).gameActive = s.gameActive := by
  rfl

@[simp] theorem calculateAndUpdateStats_spellingErrors (s : State) (now : Nat) :
    (calculateAndUpdateStats s now).spellingErrors = s.spellingErrors := by
  rfl

@[simp] theorem stopTimer_words (s : State) :
    (stopTimer s).words = s.words := by
  unfold stopTimer; split <;> [split; skip] <;> rfl

@[simp] theorem stopTimer_currentWordIndex (s : State) :
    (stopTimer s).currentWordIndex = s.currentWordIndex := by
  unfold stopTimer; split <;> [split; skip] <;> rfl

@[simp] theorem stopTimer_currentLetterIndex (s : State) :
    (stopTimer s).currentLetterIndex = s.currentLetterIndex := by
  unfold stopTimer; split <;> [split; skip] <;> rfl

@[simp] theorem stopTimer_startTime (s : State) :
    (stopTimer s).startTime = s.startTime := by
  unfold stopTimer; split <;> [split; skip] <;> rfl

@[simp] theorem stopTimer_correctChars (s : State) :
    (stopTimer s).correctChars = s.correctChars := by
  unfold stopTimer; split <;> [split; skip] <;> rfl

@[simp] theorem stopTimer_incorrectChars (s : State) :
    (stopTimer s).incorrectChars = s.incorrectChars := by
  unfold stopTimer; split <;> [split; skip] <;> rfl

@[simp] theorem stopTimer_gameActive (s : State) :
    (stopTimer s).gameActive = s.gameActive := by
  unfold stopTimer; split <;> [split; skip] <;> rfl

@[simp] theorem stopTimer_spellingErrors (s : State) :
    (stopTimer s).spellingErrors = s.spellingErrors := by
  unfold stopTimer; split <;> [split; skip] <;> rfl

@[simp] theorem stopTimer_ui (s : State) :
    (stopTimer s).ui = s.ui := by
  unfold stopTimer; split <;> [split; skip] <;> rfl

@[simp] theorem startGame_words (s : State) (now : Nat) :
    (startGame s now).words = s.words := by
  unfold startGame; split <;> rfl

@[simp] theorem startGame_currentWordIndex (s : State) (now : Nat) :
    (startGame s now).currentWordIndex = s.currentWordIndex := by
  unfold startGame; split <;> rfl

@[simp] theorem startGame_currentLetterIndex (s : State) (now : Nat) :
    (startGame s now).currentLetterIndex = s.currentLetterIndex := by
  unfold startGame; split <;> rfl

@[simp] theorem startGame_startTime (s : State) (now : Nat) :
    (startGame s now).startTime = if s.gameActive then s.startTime else some now := by
  unfold startGame; split <;> simp_all [calculateAndUpdateStats]

@[simp] theorem startGame_correctChars (s : State) (now : Nat) :
    (startGame s now).correctChars = s.correctChars := by
  unfold startGame; split <;> rfl

@[simp] theorem startGame_incorrectChars (s : State) (now : Nat) :
    (startGame s now).incorrectChars = s.incorrectChars := by
  unfold startGame; split <;> rfl

@[simp] theorem startGame_gameActive (s : State) (now : Nat) :
    (startGame s now).gameActive = true := by
  unfold startGame; split <;> simp_all [calculateAndUpdateStats]

@[simp] theorem startGame_spellingErrors (s : State) (now : Nat) :
    (startGame s now).spellingErrors = s.spellingErrors := by
  unfold startGame; split <;> rfl

@[simp] theorem endGame_words (s : State) (now : Nat) :
    (endGame s now).words = s.words := by
  unfold endGame; split <;> simp [calculateAndUpdateStats]

@[simp] theorem endGame_currentWordIndex (s : State) (now : Nat) :
    (endGame s now).currentWordIndex = s.currentWordIndex := by
  unfold endGame; split <;> simp [calculateAndUpdateStats]

@[simp] theorem endGame_currentLetterIndex (s : State) (now : Nat) :
    (endGame s now).currentLetterIndex = s.currentLetterIndex := by
  unfold endGame; split <;> simp [calculateAndUpdateStats]

@[simp] theorem endGame_startTime (s : State) (now : Nat) :
    (endGame s now).startTime = s.startTime := by
  unfold endGame; split <;> simp [calculateAndUpdateStats]

@[simp] theorem endGame_correctChars (s : State) (now : Nat) :
    (endGame s now).correctChars = s.correctChars := by
  unfold endGame; split <;> simp [calculateAndUpdateStats]

@[simp] theorem endGame_incorrectChars (s : State) (now : Nat) :
    (endGame s now).incorrectChars = s.incorrectChars := by
  unfold endGame; split <;> simp [calculateAndUpdateStats]

@[simp] theorem endGame_gameActive (s : State) (now : Nat) :
    (endGame s now).gameActive = false := by
  unfold endGame; split <;> simp_all [calculateAndUpdateStats]

@[simp] theorem endGame_spellingErrors (s : State) (now : Nat) :
    (endGame s now).spellingErrors = s.spellingErrors := by
  unfold endGame; split <;> simp [calculateAndUpdateStats]

@[simp] theorem moveToNextWord_words (s : State) (now : Nat) :
    (moveToNextWord s now).words = s.words := by
  unfold moveToNextWord; split <;> simp

@[simp] theorem moveToNextWord_startTime (s : State) (now : Nat) :
    (moveToNextWord s now).startTime = s.startTime := by
  unfold moveToNextWord; split <;> simp

@[simp] theorem moveToNextWord_correctChars (s : State) (now : Nat) :
    (moveToNextWord s now).correctChars = s.correctChars := by
  unfold moveToNextWord; split <;> simp

@[simp] theorem moveToNextWord_incorrectChars (s : State) (now : Nat) :
    (moveToNextWord s now).incorrectChars = s.incorrectChars := by
  unfold moveToNextWord; split <;> simp

@[simp] theorem moveToNextWord_spellingErrors (s : State) (now : Nat) :
    (moveToNextWord s now).spellingErrors = s.spellingErrors := by
  unfold moveToNextWord; split <;> simp

@[simp] theorem moveToNextWord_currentWordIndex (s : State) (now : Nat) :
    (moveToNextWord s now).currentWordIndex = if s.currentWordIndex < s.words.length - 1 then s.currentWordIndex + 1 else s.currentWordIndex := by
  unfold moveToNextWord; split <;> simp

@[simp] theorem moveToNextWord_currentLetterIndex (s : State) (now : Nat) :
    (moveToNextWord s now).currentLetterIndex = if s.currentWordIndex < s.words.length - 1 then 0 else s.currentLetterIndex := by
  unfold moveToNextWord; split <;> simp

@[simp] theorem moveToNextWord_gameActive (s : State) (now : Nat) :
    (moveToNextWord s now).gameActive = if s.currentWordIndex < s.words.length - 1 then s.gameActive else false := by
  unfold moveToNextWord; split <;> simp

@[simp] theorem handleControl_words (s : State) (currentWord : Option JSString) (key : JSString) (now : Nat) :
    (handleControl s currentWord key now).words = s.words := by
  unfold handleControl; split_ifs <;> simp

@[simp] theorem handleControl_startTime (s : State) (currentWord : Option JSString) (key : JSString) (now : Nat) :
    (handleControl s currentWord key now).startTime = s.startTime := by
  unfold handleControl; split_ifs <;> simp

@[simp] theorem handleControl_correctChars (s : State) (currentWord : Option JSString) (key : JSString) (now : Nat) :
    (handleControl s currentWord key now).correctChars = s.correctChars := by
  unfold handleControl; split_ifs <;> simp

@[simp] theorem handleControl_incorrectChars (s : State) (currentWord : Option JSString) (key : JSString) (now : Nat) :
    (handleControl s currentWord key now).incorrectChars = s.incorrectChars := by
  unfold handleControl; split_ifs <;> simp

@[simp] theorem handleControl_spellingErrors (s : State) (currentWord : Option JSString) (key : JSString) (now : Nat) :
    (handleControl s currentWord key now).spellingErrors = s.spellingErrors := by
  unfold handleControl; split_ifs <;> simp

@[simp] theorem finishKey_words (s : State) (key : JSString) (now : Nat) :
    (finishKey s key now).words = s.words := by
  simp only [finishKey]; split_ifs <;> simp

@[simp] theorem finishKey_startTime (s : State) (key : JSString) (now : Nat) :
    (finishKey s key now).startTime = s.startTime := by
  simp only [finishKey]; split_ifs <;> simp

@[simp] theorem finishKey_correctChars (s : State) (key : JSString) (now : Nat) :
    (finishKey s key now).correctChars = s.correctChars := by
  simp only [finishKey]; split_ifs <;> simp

@[simp] theorem finishKey_incorrectChars (s : State) (key : JSString) (now : Nat) :
    (finishKey s key now).incorrectChars = s.incorrectChars := by
  simp only [finishKey]; split_ifs <;> simp

@[simp] theorem finishKey_spellingErrors (s : State) (key : JSString) (now : Nat) :
    (finishKey s key now).spellingErrors = s.spellingErrors := by
  simp only [finishKey]; split_ifs <;> simp

@[simp] theorem finishKey_currentWordIndex (s : State) (key : JSString) (now : Nat) :
    (finishKey s key now).currentWordIndex = s.currentWordIndex := by
  simp only [finishKey]; split_ifs <;> simp

@[simp] theorem finishKey_currentLetterIndex (s : State) (key : JSString) (now : Nat) :
    (finishKey s key now).currentLetterIndex = s.currentLetterIndex := by
  simp only [finishKey]; split_ifs <;> simp

@[simp] theorem finishKey_gameActive (s : State) (key : JSString) (now : Nat) :
    (finishKey s key now).gameActive = if s.words.length ≤ s.currentWordIndex then false else s.gameActive := by
  simp only [finishKey]; split_ifs <;> simp_all

@[simp] theorem handleCharacter_words (s : State) (cw : Option JSString) (key : JSString) (now : Nat) :
    (handleCharacter s cw key now).1.words = s.words := by
  unfold handleCharacter
  cases cw with
  | none => rfl
  | some w => simp only []; split_ifs <;> rfl

@[simp] theorem handleCharacter_startTime (s : State) (cw : Option JSString) (key : JSString) (now : Nat) :
    (handleCharacter s cw key now).1.startTime = s.startTime := by
  unfold handleCharacter
  cases cw with
  | none => rfl
  | some w => simp only []; split_ifs <;> rfl

@[simp] theorem handleCharacter_gameActive (s : State) (cw : Option JSString) (key : JSString) (now : Nat) :
    (handleCharacter s cw key now).1.gameActive = s.gameActive := by
  unfold handleCharacter
  cases cw with
  | none => rfl
  | some w => simp only []; split_ifs <;> rfl

@[simp] theorem handleCharacter_currentWordIndex (s : State) (cw : Option JSString) (key : JSString) (now : Nat) :
    (handleCharacter s cw key now).1.currentWordIndex = s.currentWordIndex := by
  unfold handleCharacter
  cases cw with
  | none => rfl
  | some w => simp only []; split_ifs <;> rfl

theorem handleCharacter_some_completion (s : State) (w : JSString) (key : JSString) (now : Nat) :
    (handleCharacter s (some w) key now).2 = Completion.normal := by
  unfold handleCharacter; simp

theorem handleCharacter_some_counters (s : State) (w : JSString) (key : JSString) (now : Nat) :
    (handleCharacter s (some w) key now).1.correctChars + (handleCharacter s (some w) key now).1.incorrectChars
      = s.correctChars + s.incorrectChars + 1 := by
  unfold handleCharacter
  simp only []
  split_ifs <;> simp <;> omega

@[simp] theorem startOnFirstKey_words (s : State) (ev : KeyEvent) :
    (startOnFirstKey s ev).words = s.words := by
  unfold startOnFirstKey; split <;> simp

@[simp] theorem startOnFirstKey_currentWordIndex (s : State) (ev : KeyEvent) :
    (startOnFirstKey s ev).currentWordIndex = s.currentWordIndex := by
  unfold startOnFirstKey; split <;> simp

@[simp] theorem startOnFirstKey_currentLetterIndex (s : State) (ev : KeyEvent) :
    (startOnFirstKey s ev).currentLetterIndex = s.currentLetterIndex := by
  unfold startOnFirstKey; split <;> simp

@[simp] theorem startOnFirstKey_correctChars (s : State) (ev : KeyEvent) :
    (startOnFirstKey s ev).correctChars = s.correctChars := by
  unfold startOnFirstKey; split <;> simp

@[simp] theorem startOnFirstKey_incorrectChars (s : State) (ev : KeyEvent) :
    (startOnFirstKey s ev).incorrectChars = s.incorrectChars := by
  unfold startOnFirstKey; split <;> simp

@[simp] theorem startOnFirstKey_spellingErrors (s : State) (ev : KeyEvent) :
    (startOnFirstKey s ev).spellingErrors = s.spellingErrors := by
  unfold startOnFirstKey; split <;> simp

theorem startOnFirstKey_active (s : State) (ev : KeyEvent) (hw : s.words ≠ [])
    (hk : ev.key ≠ keyBackspace) : (startOnFirstKey s ev).gameActive = true := by
  unfold startOnFirstKey
  have : 0 < s.words.length := List.length_pos.mpr hw
  split
  · simp
  · simp_all

theorem startOnFirstKey_of_active (s : State) (ev : KeyEvent) (h : s.gameActive = true) :
    startOnFirstKey s ev = s := by
  unfold startOnFirstKey; simp [h]

theorem isCharacterKey_handled (ev : KeyEvent) (h : isCharacterKey ev = true) :
    isHandledKey ev = true ∧ ev.key.length = 1 ∧ ev.key ≠ keySpace ∧ ev.key ≠ keyBackspace := by
  simp only [isCharacterKey, Bool.and_eq_true, decide_eq_true_eq, Bool.not_eq_true'] at h
  obtain ⟨⟨⟨h1, h2⟩, h3⟩, h4⟩ := h
  refine ⟨?_, h1, h2, ?_⟩
  · simp [isHandledKey, h1, h3, h4]
  · intro hb; rw [hb] at h1; revert h1; decide

theorem handleKeyDown_words (s : State) (ev : KeyEvent) :
    (handleKeyDown s ev).1.words = s.words := by
  simp only [handleKeyDown]
  split_ifs <;> simp

theorem handleKeyDown_index_lt (s : State) (ev : KeyEvent)
    (h : s.currentWordIndex < s.words.length) :
    (handleKeyDown s ev).1.currentWordIndex < (handleKeyDown s ev).1.words.length := by
  rw [handleKeyDown_words]
  simp only [handleKeyDown]
  split_ifs <;> simp [h]
  simp only [handleControl]
  split_ifs <;> simp [h]
  split_ifs <;> omega

/-! ## C1: the counters count the character keystrokes -/

/-- Space, Backspace and ignored keys leave both counters as they are, in every state. -/
theorem handleKeyDown_counters_of_not_character (s : State) (ev : KeyEvent)
    (h : isCharacterKey ev = false) :
    (handleKeyDown s ev).1.correctChars = s.correctChars ∧
      (handleKeyDown s ev).1.incorrectChars = s.incorrectChars := by
  have hnot : ¬ (ev.key.length = 1 ∧ ev.key ≠ keySpace) ∨ isHandledKey ev = false := by
    by_cases h1 : ev.key.length = 1 ∧ ev.key ≠ keySpace
    · right
      have hb : ev.key ≠ keyBackspace := by
        intro hb; rw [hb] at h1; exact absurd h1.1 (by decide)
      simp only [isCharacterKey, h1.1, h1.2, decide_True, ne_eq, not_false_eq_true,
        Bool.and_self, Bool.true_and, Bool.and_eq_false_imp, Bool.not_eq_true',
        Bool.not_eq_false'] at h
      simp only [isHandledKey, h1.2, decide_False, hb, Bool.or_self, h1.1, decide_True,
        Bool.true_and, Bool.false_or, Bool.and_eq_false_imp, Bool.not_eq_true',
        Bool.not_eq_false']
      exact h
    · left; exact h1
  simp only [handleKeyDown]
  rcases hnot with h1 | h1
  · split_ifs <;> simp
  · simp [h1]

/-- A character keystroke in a session with a current word adds one to the sum of the
counters, and the session is active when the key is dispatched. -/
theorem handleKeyDown_counters_of_character (s : State) (ev : KeyEvent)
    (hidx : s.currentWordIndex < s.words.length) (h : isCharacterKey ev = true) :
    activeAtDispatch s ev = true ∧
    (handleKeyDown s ev).1.correctChars + (handleKeyDown s ev).1.incorrectChars
      = s.correctChars + s.incorrectChars + 1 := by
  obtain ⟨hh, hlen, hsp, hbs⟩ := isCharacterKey_handled ev h
  have hw : s.words ≠ [] := by
    intro h0; rw [h0] at hidx; simp at hidx
  have hact := startOnFirstKey_active s ev hw hbs
  refine ⟨hact, ?_⟩
  obtain ⟨w, hw⟩ : ∃ w, s.words[s.currentWordIndex]? = some w :=
    ⟨s.words[s.currentWordIndex], List.getElem?_eq_getElem hidx⟩
  have := handleCharacter_some_counters (startOnFirstKey s ev) w ev.key ev.time
  simp only [handleKeyDown, hh, hact, hlen, hw, if_true]
  simp [handleCharacter_some_completion, hsp]
  simpa using this



theorem run_cons (s : State) (ev : KeyEvent) (evs : List KeyEvent) :
    run s (ev :: evs) = run (handleKeyDown s ev).1 evs := rfl

theorem run_nil (s : State) : run s [] = s := rfl

theorem run_counters (evs : List KeyEvent) :
    ∀ s : State, s.currentWordIndex < s.words.length →
      (run s evs).correctChars + (run s evs).incorrectChars
          = s.correctChars + s.incorrectChars + countedKeystrokes s evs ∧
        countedKeystrokes s evs = evs.countP isCharacterKey := by
  induction evs with
  | nil => intro s _; simp [run_nil, countedKeystrokes]
  | cons ev evs ih =>
    intro s hidx
    obtain ⟨h1, h2⟩ := ih (handleKeyDown s ev).1 (handleKeyDown_index_lt s ev hidx)
    rw [run_cons, h1, countedKeystrokes, h2, List.countP_cons]
    cases hc : isCharacterKey ev with
    | true =>
      obtain ⟨ha, hs⟩ := handleKeyDown_counters_of_character s ev hidx hc
      simp [ha, hs]; omega
    | false =>
      obtain ⟨ha, hs⟩ := handleKeyDown_counters_of_not_character s ev hc
      simp [ha, hs]

theorem initializeApp_ok (s0 : State) (ws : List JSString) (h : ws ≠ []) :
    (initializeApp s0 (Except.ok ws)).words = ws ∧
    (initializeApp s0 (Except.ok ws)).currentWordIndex = 0 ∧
    (initializeApp s0 (Except.ok ws)).currentLetterIndex = 0 ∧
    (initializeApp s0 (Except.ok ws)).correctChars = 0 ∧
    (initializeApp s0 (Except.ok ws)).incorrectChars = 0 ∧
    (initializeApp s0 (Except.ok ws)).gameActive = false ∧
    (initializeApp s0 (Except.ok ws)).startTime = none ∧
    (initializeApp s0 (Except.ok ws)).spellingErrors = s0.spellingErrors ∧
    (initializeApp s0 (Except.ok ws)).ui.displayed = ws := by
  have hl : ws.length ≠ 0 := by simpa using h
  simp [initializeApp, initializeAppResume, initializeAppBegin, resetState, hl,
    UI.showFeedbackMessage, UI.updateCaretPosition, UI.displayWords]

/-- C1. From the state `initializeApp` leaves after loading a non-empty word list, after any
sequence of keystrokes `correctChars + incorrectChars` is the number of character keystrokes
(one code unit, not the space, no Ctrl or Meta) dispatched while the session was active, which
is every such keystroke of the sequence; and in every state a keystroke that is not a character
keystroke (space, Backspace, ignored key) changes neither counter. -/
theorem C1_counters_count_character_keystrokes (s0 : State) (ws : List JSString)
    (evs : List KeyEvent) (hws : ws ≠ []) :
    (run (initializeApp s0 (Except.ok ws)) evs).correctChars
        + (run (initializeApp s0 (Except.ok ws)) evs).incorrectChars
      = countedKeystrokes (initializeApp s0 (Except.ok ws)) evs ∧
    countedKeystrokes (initializeApp s0 (Except.ok ws)) evs = evs.countP isCharacterKey ∧
    ∀ (s : State) (ev : KeyEvent), isCharacterKey ev = false →
      (handleKeyDown s ev).1.correctChars + (handleKeyDown s ev).1.incorrectChars
        = s.correctChars + s.incorrectChars := by
  obtain ⟨hw, hi, -, hc, hic, -⟩ := initializeApp_ok s0 ws hws
  have hidx : (initializeApp s0 (Except.ok ws)).currentWordIndex
      < (initializeApp s0 (Except.ok ws)).words.length := by
    rw [hw, hi]; exact List.length_pos.mpr hws
  obtain ⟨h1, h2⟩ := run_counters evs _ hidx
  refine ⟨?_, h2, ?_⟩
  · rw [h1, hc, hic]; simp
  · intro s ev hev
    obtain ⟨ha, hb⟩ := handleKeyDown_counters_of_not_character s ev hev
    rw [ha, hb]

/-- Witness of C1: the words "cat", "dog" and the keys c, x, Backspace, a, space. -/
theorem C1_counters_count_character_keystrokes_witness :
    [utf16 "cat", utf16 "dog"] ≠ [] ∧
    (run (initializeApp moduleState (Except.ok [utf16 "cat", utf16 "dog"]))
        [press "c" 10, press "x" 20, press "Backspace" 30, press "a" 40, press " " 50]).correctChars
      + (run (initializeApp moduleState (Except.ok [utf16 "cat", utf16 "dog"]))
        [press "c" 10, press "x" 20, press "Backspace" 30, press "a" 40, press " " 50]).incorrectChars
      = 3 := by
  refine ⟨by decide, ?_⟩
  have h := (C1_counters_count_character_keystrokes moduleState [utf16 "cat", utf16 "dog"]
    [press "c" 10, press "x" 20, press "Backspace" 30, press "a" 40, press " " 50]
    (by decide))
  rw [h.1, h.2.1]
  decide

/-! ## C2: the space key -/

theorem keySpace_ne_keyBackspace : keySpace ≠ keyBackspace := by decide

theorem words_ne_nil_of_getElem? (s : State) (w : JSString)
    (hw : s.words[s.currentWordIndex]? = some w) : s.words ≠ [] := by
  intro h0; rw [h0] at hw; simp at hw

theorem index_lt_of_getElem? (s : State) (w : JSString)
    (hw : s.words[s.currentWordIndex]? = some w) : s.currentWordIndex < s.words.length := by
  by_contra h
  rw [List.getElem?_eq_none (Nat.le_of_not_lt h)] at hw
  exact Option.noConfusion hw

/-- With a current word, `handleKeyDown` on a space runs the timer start, the space branch and
the closing statements, and returns normally. -/
theorem handleKeyDown_space (s : State) (ev : KeyEvent) (w : JSString)
    (hkey : ev.key = keySpace) (hw : s.words[s.currentWordIndex]? = some w) :
    handleKeyDown s ev =
      (finishKey (handleControl (startOnFirstKey s ev) (some w) keySpace ev.time)
        keySpace ev.time, Completion.normal) := by
  have hact := startOnFirstKey_active s ev (words_ne_nil_of_getElem? s w hw)
    (by rw [hkey]; exact keySpace_ne_keyBackspace)
  have hh : isHandledKey ev = true := by simp [isHandledKey, hkey]
  simp only [handleKeyDown, hh, hact, hw, hkey, if_true]
  simp

theorem handleControl_space (s : State) (w : JSString) (now : Nat) :
    handleControl s (some w) keySpace now =
      if w ≠ [] ∧ w.length ≤ s.currentLetterIndex then moveToNextWord s now else s := by
  unfold handleControl
  by_cases hw : w = []
  · simp [hw, isTruthyWord, keySpace_ne_keyBackspace]
  · by_cases hl : w.length ≤ s.currentLetterIndex
    · simp [hw, hl, isTruthyWord]
    · simp [hw, hl, isTruthyWord]

theorem startOnFirstKey_startTime_of_active (s : State) (ev : KeyEvent)
    (h : s.gameActive = true) : (startOnFirstKey s ev).startTime = s.startTime := by
  rw [startOnFirstKey_of_active s ev h]

theorem startOnFirstKey_startTime_of_idle (s : State) (ev : KeyEvent)
    (h : s.gameActive = false) (hw : s.words ≠ []) (hk : ev.key ≠ keyBackspace) :
    (startOnFirstKey s ev).startTime = some ev.time := by
  have : 0 < s.words.length := List.length_pos.mpr hw
  unfold startOnFirstKey
  simp [h, this, hk]

/-- C2 (amended). For every state with a current word and every space keystroke the handler
returns normally and neither counter changes.  `currentWordIndex` increases, by exactly 1 and
with `currentLetterIndex` reset to 0, only when `currentLetterIndex` has reached the length of
the current word (the test of line 122 is `>=`); for a non-empty current word it does so
exactly when moreover the word is not the last one; otherwise the cursor stays.  When
`currentLetterIndex` is below the length of the word and the session is already active, the
active flag and the start timestamp are unchanged as well (a no-op).  In a session that has
not started yet (not active, `startTime` null) the space starts it, `startTime` becoming the
clock reading.  In an active session, at the end of a non-empty last word the space ends the
session.  Nothing is said of the active flag and the start timestamp after a space in a
session that has finished. -/
theorem C2_space_keystroke (s : State) (ev : KeyEvent) (w : JSString)
    (hkey : ev.key = keySpace) (hw : s.words[s.currentWordIndex]? = some w) :
    (handleKeyDown s ev).2 = Completion.normal ∧
    (handleKeyDown s ev).1.correctChars = s.correctChars ∧
    (handleKeyDown s ev).1.incorrectChars = s.incorrectChars ∧
    ((handleKeyDown s ev).1.currentWordIndex = s.currentWordIndex + 1 →
      w.length ≤ s.currentLetterIndex ∧ (handleKeyDown s ev).1.currentLetterIndex = 0) ∧
    (w ≠ [] → ((handleKeyDown s ev).1.currentWordIndex = s.currentWordIndex + 1 ↔
      w.length ≤ s.currentLetterIndex ∧ s.currentWordIndex + 1 < s.words.length)) ∧
    ((handleKeyDown s ev).1.currentWordIndex ≠ s.currentWordIndex + 1 →
      (handleKeyDown s ev).1.currentWordIndex = s.currentWordIndex ∧
      (handleKeyDown s ev).1.currentLetterIndex = s.currentLetterIndex) ∧
    (s.gameActive = true → s.currentLetterIndex < w.length →
      (handleKeyDown s ev).1.currentWordIndex = s.currentWordIndex ∧
      (handleKeyDown s ev).1.currentLetterIndex = s.currentLetterIndex ∧
      (handleKeyDown s ev).1.gameActive = true ∧
      (handleKeyDown s ev).1.startTime = s.startTime) ∧
    (s.gameActive = false → s.startTime = none →
      (handleKeyDown s ev).1.startTime = some ev.time ∧
      (s.currentLetterIndex < w.length → (handleKeyDown s ev).1.gameActive = true)) ∧
    (s.gameActive = true → w ≠ [] → w.length ≤ s.currentLetterIndex →
      s.words.length ≤ s.currentWordIndex + 1 →
      (handleKeyDown s ev).1.gameActive = false) := by
  have hidx := index_lt_of_getElem? s w hw
  have hne := words_ne_nil_of_getElem? s w hw
  have hkb : ev.key ≠ keyBackspace := by rw [hkey]; exact keySpace_ne_keyBackspace
  have hact := startOnFirstKey_active s ev hne hkb
  have hnl : ¬ s.words.length ≤ s.currentWordIndex := Nat.not_le.mpr hidx
  rw [handleKeyDown_space s ev w hkey hw, handleControl_space]
  simp only [startOnFirstKey_currentLetterIndex]
  refine ⟨trivial, ?_, ?_, ?_, ?_, ?_, ?_, ?_, ?_⟩
  · split_ifs <;> simp
  · split_ifs <;> simp
  · split_ifs with h
    · simp only [finishKey_currentWordIndex, moveToNextWord_currentWordIndex,
        startOnFirstKey_currentWordIndex, startOnFirstKey_words, finishKey_currentLetterIndex,
        moveToNextWord_currentLetterIndex, startOnFirstKey_currentLetterIndex]
      split_ifs <;> simp_all
    · simp
  · intro hwne
    split_ifs with h
    · simp only [finishKey_currentWordIndex, moveToNextWord_currentWordIndex,
        startOnFirstKey_currentWordIndex, startOnFirstKey_words]
      split_ifs with h2
      · simp only [true_iff]; exact ⟨h.2, by omega⟩
      · simp only [self_eq_add_right, one_ne_zero, false_iff, not_and, not_lt]
        intro _; omega
    · simp only [finishKey_currentWordIndex, startOnFirstKey_currentWordIndex,
        self_eq_add_right, one_ne_zero, false_iff, not_and, not_lt]
      intro hl; exact absurd ⟨hwne, hl⟩ h
  · split_ifs with h
    · simp only [finishKey_currentWordIndex, moveToNextWord_currentWordIndex,
        startOnFirstKey_currentWordIndex, startOnFirstKey_words, finishKey_currentLetterIndex,
        moveToNextWord_currentLetterIndex, startOnFirstKey_currentLetterIndex]
      split_ifs <;> simp
    · simp
  · intro ha hl
    have h : ¬ (w ≠ [] ∧ w.length ≤ s.currentLetterIndex) := fun h => by omega
    rw [if_neg h]
    simp [hnl, hact, startOnFirstKey_startTime_of_active s ev ha]
  · intro ha _
    refine ⟨?_, fun hl => ?_⟩
    · split_ifs <;> simp [startOnFirstKey_startTime_of_idle s ev ha hne hkb]
    · have h : ¬ (w ≠ [] ∧ w.length ≤ s.currentLetterIndex) := fun h => by omega
      rw [if_neg h]
      simp [hnl, hact]
  · intro _ hwne hl hlast
    rw [if_pos ⟨hwne, hl⟩]
    have h2 : ¬ s.currentWordIndex < s.words.length - 1 := by omega
    simp [hnl, h2]

/-- Witness of C2: the space after "cat" has been typed in full, with "dog" still to come. -/
theorem C2_space_keystroke_witness :
    (press " " 40).key = keySpace ∧
    (run (loaded [utf16 "cat", utf16 "dog"])
      [press "c" 10, press "a" 20, press "t" 30]).words[(run (loaded [utf16 "cat", utf16 "dog"])
        [press "c" 10, press "a" 20, press "t" 30]).currentWordIndex]? = some (utf16 "cat") ∧
    (handleKeyDown (run (loaded [utf16 "cat", utf16 "dog"])
      [press "c" 10, press "a" 20, press "t" 30]) (press " " 40)).1.correctChars = 3 :=
  ⟨by decide, by decide,
    ((C2_space_keystroke (run (loaded [utf16 "cat", utf16 "dog"])
      [press "c" 10, press "a" 20, press "t" 30]) (press " " 40) (utf16 "cat")
      (by decide) (by decide)).2.1).trans (by decide)⟩

/-- C2 as stated fails.  In the freshly loaded session on "cat", "dog" the letter index 0 is
below the length of "cat", the case in which the claim makes the space a no-op; the space
starts the session: the active flag becomes true and the start timestamp the clock reading,
while the cursor and the counters stay. -/
theorem C2_counterexample :
    (loaded [utf16 "cat", utf16 "dog"]).currentLetterIndex = 0 ∧
    (utf16 "cat").length = 3 ∧
    (loaded [utf16 "cat", utf16 "dog"]).gameActive = false ∧
    (loaded [utf16 "cat", utf16 "dog"]).startTime = none ∧
    (handleKeyDown (loaded [utf16 "cat", utf16 "dog"]) (press " " 50)).1.gameActive = true ∧
    (handleKeyDown (loaded [utf16 "cat", utf16 "dog"]) (press " " 50)).1.startTime = some 50 ∧
    (handleKeyDown (loaded [utf16 "cat", utf16 "dog"]) (press " " 50)).1.currentWordIndex = 0 ∧
    (handleKeyDown (loaded [utf16 "cat", utf16 "dog"]) (press " " 50)).1.currentLetterIndex
      = 0 := by
  decide

/-! ## C3: the Backspace key -/

theorem keyBackspace_length : keyBackspace.length = 9 := by decide

theorem handleControl_backspace (s : State) (cw : Option JSString) (now : Nat) :
    (handleControl s cw keyBackspace now).currentWordIndex = s.currentWordIndex ∧
    (handleControl s cw keyBackspace now).gameActive = s.gameActive ∧
    (handleControl s cw keyBackspace now).currentLetterIndex =
      if isTruthyWord cw = true ∧ 0 < s.currentLetterIndex then s.currentLetterIndex - 1
      else s.currentLetterIndex := by
  have hne : keyBackspace ≠ keySpace := fun h => keySpace_ne_keyBackspace h.symm
  unfold handleControl
  by_cases ht : isTruthyWord cw = true <;> by_cases hl : 0 < s.currentLetterIndex <;>
    simp [hne, ht, hl]

/-- What a Backspace keystroke does in any state: the counters, the error log and the word
index stay; the letter index goes down by one exactly when the session is active, the current
word is a non-empty string and the letter index is positive, and stays otherwise. -/
theorem handleKeyDown_backspace (s : State) (ev : KeyEvent) (hkey : ev.key = keyBackspace) :
    (handleKeyDown s ev).2 = Completion.normal ∧
    (handleKeyDown s ev).1.correctChars = s.correctChars ∧
    (handleKeyDown s ev).1.incorrectChars = s.incorrectChars ∧
    (handleKeyDown s ev).1.spellingErrors = s.spellingErrors ∧
    (handleKeyDown s ev).1.currentWordIndex = s.currentWordIndex ∧
    (handleKeyDown s ev).1.currentLetterIndex =
      if s.gameActive = true ∧ isTruthyWord s.words[s.currentWordIndex]? = true ∧
          0 < s.currentLetterIndex
      then s.currentLetterIndex - 1 else s.currentLetterIndex := by
  have hh : isHandledKey ev = true := by simp [isHandledKey, hkey]
  have hs : startOnFirstKey s ev = s := by simp [startOnFirstKey, hkey]
  have hlen : ¬ (keyBackspace.length = 1 ∧ keyBackspace ≠ keySpace) := by
    rw [keyBackspace_length]; simp
  obtain ⟨h1, -, h3⟩ := handleControl_backspace s s.words[s.currentWordIndex]? ev.time
  cases ha : s.gameActive with
  | false => simp [handleKeyDown, hh, hs, ha, hkey]
  | true =>
    simp only [handleKeyDown, hh, hs, ha, hkey, hlen, if_true, if_false]
    simp [h1, h3]

/-- C3 fails on an empty word.  With the word list [""] the key x makes the session active
and moves the letter index to 1; the Backspace that follows leaves the letter index at 1
instead of bringing it back to 0, because the empty string fails the test `&& currentWord` of
the Backspace branch. -/
theorem C3_backspace_on_empty_word :
    (run (loaded [utf16 ""]) [press "x" 10]).gameActive = true ∧
    (run (loaded [utf16 ""]) [press "x" 10]).currentLetterIndex = 1 ∧
    (run (loaded [utf16 ""]) [press "x" 10, press "Backspace" 20]).currentLetterIndex = 1 := by
  decide

/-! ## C4: keys after the end of the session -/

/-- C4 fails.  With the single word "a", the keys a and space finish the session (`endGame`
runs: inactive, input disabled).  A further key b handed to `handleKeyDown` is not ignored:
the timer start of lines 86-89 runs again, so the session is active once more with a new
start timestamp and a new interval timer, and b is counted as an error and logged. -/
theorem C4_key_after_finish_restarts :
    ((run (loaded [utf16 "a"]) [press "a" 10, press " " 20]).gameActive = false ∧
      (run (loaded [utf16 "a"]) [press "a" 10, press " " 20]).ui.keyboardInputDisabled = true ∧
      (run (loaded [utf16 "a"]) [press "a" 10, press " " 20]).startTime = some 10 ∧
      (run (loaded [utf16 "a"]) [press "a" 10, press " " 20]).currentLetterIndex = 1 ∧
      (run (loaded [utf16 "a"]) [press "a" 10, press " " 20]).incorrectChars = 0 ∧
      (run (loaded [utf16 "a"]) [press "a" 10, press " " 20]).liveTimers = [] ∧
      (run (loaded [utf16 "a"]) [press "a" 10, press " " 20]).spellingErrors (utf16 "a")
        = none) ∧
    ((run (loaded [utf16 "a"]) [press "a" 10, press " " 20, press "b" 30]).gameActive = true ∧
      (run (loaded [utf16 "a"]) [press "a" 10, press " " 20, press "b" 30]).startTime
        = some 30 ∧
      (run (loaded [utf16 "a"]) [press "a" 10, press " " 20, press "b" 30]).currentLetterIndex
        = 2 ∧
      (run (loaded [utf16 "a"]) [press "a" 10, press " " 20, press "b" 30]).incorrectChars
        = 1 ∧
      (run (loaded [utf16 "a"]) [press "a" 10, press " " 20, press "b" 30]).liveTimers = [2] ∧
      (run (loaded [utf16 "a"]) [press "a" 10, press " " 20, press "b" 30]).spellingErrors
          (utf16 "a")
        = some ⟨1, [⟨none, utf16 "b", 1, 30⟩]⟩) := by
  decide

/-! ## Rounding to a double: error bounds -/

theorem bitLengthAux_zero (fuel : Nat) : bitLengthAux fuel 0 = 0 := by
  cases fuel <;> simp [bitLengthAux]

theorem bitLengthAux_spec : ∀ (fuel n : Nat), n ≤ fuel →
    n < 2 ^ bitLengthAux fuel n ∧ (0 < n → 2 ^ (bitLengthAux fuel n - 1) ≤ n) := by
  intro fuel
  induction fuel with
  | zero =>
    intro n hn
    have : n = 0 := by omega
    subst this
    simp [bitLengthAux]
  | succ fuel ih =>
    intro n hn
    by_cases h0 : n = 0
    · subst h0; simp [bitLengthAux]
    · have hhalf : n / 2 ≤ fuel := by omega
      obtain ⟨h1, h2⟩ := ih (n / 2) hhalf
      simp only [bitLengthAux, h0, if_false, Nat.add_sub_cancel]
      constructor
      · rw [pow_succ]; omega
      · intro _
        by_cases h3 : n / 2 = 0
        · rw [h3, bitLengthAux_zero]; simp; omega
        · have h4 := h2 (Nat.pos_of_ne_zero h3)
          have h5 : 0 < bitLengthAux fuel (n / 2) := by
            by_contra h6
            have h7 : bitLengthAux fuel (n / 2) = 0 := by omega
            rw [h7] at h1; simp at h1; exact h3 h1
          have h6 : 2 ^ bitLengthAux fuel (n / 2)
              = 2 * 2 ^ (bitLengthAux fuel (n / 2) - 1) := by
            rw [← pow_succ']; congr 1; omega
          omega

/-- The bit length brackets a positive number between two powers of two. -/
theorem bitLength_spec (n : Nat) (hn : 0 < n) :
    2 ^ (bitLength n - 1) ≤ n ∧ n < 2 ^ bitLength n ∧ 0 < bitLength n := by
  obtain ⟨h1, h2⟩ := bitLengthAux_spec n n (le_refl n)
  refine ⟨h2 hn, h1, ?_⟩
  by_contra h
  have h0 : bitLength n = 0 := by omega
  unfold bitLength at h0
  rw [h0] at h1
  simp at h1
  omega

/-- The nearest integer is within one half of the quotient. -/
theorem roundTiesEven_error (n d : Nat) (hd : 0 < d) :
    |((roundTiesEven n d : ℕ) : ℚ) - (n : ℚ) / d| ≤ 1 / 2 := by
  have hdq : (0 : ℚ) < d := by exact_mod_cast hd
  have hdiv : (n : ℚ) = (d : ℚ) * ((n / d : ℕ) : ℚ) + ((n % d : ℕ) : ℚ) := by
    exact_mod_cast (Nat.div_add_mod n d).symm
  have hr : ((n % d : ℕ) : ℚ) < d := by exact_mod_cast Nat.mod_lt n hd
  have hr0 : (0 : ℚ) ≤ ((n % d : ℕ) : ℚ) := by positivity
  have hq : (n : ℚ) / d = ((n / d : ℕ) : ℚ) + ((n % d : ℕ) : ℚ) / d := by
    rw [hdiv]; field_simp; ring
  rw [hq]
  unfold roundTiesEven
  simp only []
  have hfrac0 : (0 : ℚ) ≤ ((n % d : ℕ) : ℚ) / d := by positivity
  split_ifs with h1 h2 h3
  · have : ((n % d : ℕ) : ℚ) / d < 1 / 2 := by
      rw [div_lt_iff₀ hdq]
      have : (2 : ℚ) * ((n % d : ℕ) : ℚ) < d := by exact_mod_cast h1
      linarith
    rw [abs_le]; constructor <;> linarith
  · have : (1 : ℚ) / 2 < ((n % d : ℕ) : ℚ) / d := by
      rw [lt_div_iff₀ hdq]
      have : (d : ℚ) < 2 * ((n % d : ℕ) : ℚ) := by exact_mod_cast h2
      linarith
    have hlt1 : ((n % d : ℕ) : ℚ) / d < 1 := by
      rw [div_lt_one hdq]; exact hr
    push_cast
    rw [abs_le]; constructor <;> linarith
  · have h2r : 2 * (n % d) = d := by omega
    have : ((n % d : ℕ) : ℚ) / d = 1 / 2 := by
      rw [div_eq_iff (ne_of_gt hdq)]
      have : (2 : ℚ) * ((n % d : ℕ) : ℚ) = d := by exact_mod_cast h2r
      linarith
    rw [this, abs_le]; constructor <;> linarith
  · have h2r : 2 * (n % d) = d := by omega
    have : ((n % d : ℕ) : ℚ) / d = 1 / 2 := by
      rw [div_eq_iff (ne_of_gt hdq)]
      have : (2 : ℚ) * ((n % d : ℕ) : ℚ) = d := by exact_mod_cast h2r
      linarith
    push_cast
    rw [this, abs_le]; constructor <;> linarith

/-- A power of two with an integer exponent, as the quotient of its two natural parts. -/
theorem two_zpow_eq (k : Int) :
    (2 : ℚ) ^ k = ((2 ^ k.toNat : ℕ) : ℚ) / ((2 ^ (-k).toNat : ℕ) : ℚ) := by
  rcases le_total 0 k with h | h
  · have h1 : (-k).toNat = 0 := Int.toNat_eq_zero.mpr (by omega)
    rw [h1]
    simp only [pow_zero, Nat.cast_one, div_one, Nat.cast_pow, Nat.cast_ofNat]
    rw [← zpow_natCast, Int.toNat_of_nonneg h]
  · have h1 : k.toNat = 0 := Int.toNat_eq_zero.mpr h
    rw [h1]
    simp only [pow_zero, Nat.cast_one, Nat.cast_pow, Nat.cast_ofNat, one_div]
    rw [← zpow_natCast, Int.toNat_of_nonneg (by omega : 0 ≤ -k), zpow_neg, inv_inv]

theorem natCast_pow_toNat (k : Int) (hk : 0 ≤ k) : ((2 ^ k.toNat : ℕ) : ℚ) = (2 : ℚ) ^ k := by
  rw [Nat.cast_pow, Nat.cast_ofNat, ← zpow_natCast, Int.toNat_of_nonneg hk]

/-- The binary exponent found by `roundQuotient` brackets the quotient. -/
theorem roundQuotient_exponent (n d : Nat) (hn : 0 < n) (hd : 0 < d) :
    let k : Int := (bitLength n : Int) - (bitLength d : Int)
    let e0 : Int := if decide (d * 2 ^ k.toNat ≤ n * 2 ^ (-k).toNat) = true then k else k - 1
    (2 : ℚ) ^ e0 ≤ (n : ℚ) / d ∧ (n : ℚ) / d < (2 : ℚ) ^ (e0 + 1) := by
  intro k e0
  obtain ⟨hn1, hn2, hn3⟩ := bitLength_spec n hn
  obtain ⟨hd1, hd2, hd3⟩ := bitLength_spec d hd
  have hnq : (0 : ℚ) < n := by exact_mod_cast hn
  have hdq : (0 : ℚ) < d := by exact_mod_cast hd
  have two_pos : ∀ j : Int, (0 : ℚ) < (2 : ℚ) ^ j := fun j => zpow_pos (by norm_num) j
  -- the bit-length brackets, over the rationals
  have hn1q : (2 : ℚ) ^ ((bitLength n : Int) - 1) ≤ n := by
    have : ((2 ^ (bitLength n - 1) : ℕ) : ℚ) ≤ n := by exact_mod_cast hn1
    rw [Nat.cast_pow, Nat.cast_ofNat, ← zpow_natCast] at this
    have h : ((bitLength n - 1 : ℕ) : Int) = (bitLength n : Int) - 1 := by omega
    rwa [h] at this
  have hn2q : (n : ℚ) < (2 : ℚ) ^ (bitLength n : Int) := by
    have : (n : ℚ) < ((2 ^ bitLength n : ℕ) : ℚ) := by exact_mod_cast hn2
    rwa [Nat.cast_pow, Nat.cast_ofNat, ← zpow_natCast] at this
  have hd1q : (2 : ℚ) ^ ((bitLength d : Int) - 1) ≤ d := by
    have : ((2 ^ (bitLength d - 1) : ℕ) : ℚ) ≤ d := by exact_mod_cast hd1
    rw [Nat.cast_pow, Nat.cast_ofNat, ← zpow_natCast] at this
    have h : ((bitLength d - 1 : ℕ) : Int) = (bitLength d : Int) - 1 := by omega
    rwa [h] at this
  have hd2q : (d : ℚ) < (2 : ℚ) ^ (bitLength d : Int) := by
    have : (d : ℚ) < ((2 ^ bitLength d : ℕ) : ℚ) := by exact_mod_cast hd2
    rwa [Nat.cast_pow, Nat.cast_ofNat, ← zpow_natCast] at this
  -- the comparison of the source, over the rationals
  have hcmp : d * 2 ^ k.toNat ≤ n * 2 ^ (-k).toNat ↔ (2 : ℚ) ^ k ≤ (n : ℚ) / d := by
    have hpos : (0 : ℚ) < ((2 ^ (-k).toNat : ℕ) : ℚ) := by positivity
    rw [le_div_iff₀ hdq, two_zpow_eq k, div_mul_eq_mul_div, div_le_iff₀ hpos]
    constructor
    · intro h
      have : ((d * 2 ^ k.toNat : ℕ) : ℚ) ≤ ((n * 2 ^ (-k).toNat : ℕ) : ℚ) := by exact_mod_cast h
      push_cast at this ⊢
      linarith
    · intro h
      have : ((d * 2 ^ k.toNat : ℕ) : ℚ) ≤ ((n * 2 ^ (-k).toNat : ℕ) : ℚ) := by
        push_cast at h ⊢
        linarith
      exact_mod_cast this
  have hk1 : (2 : ℚ) ^ (k + 1) = (2 : ℚ) ^ (bitLength n : Int) / (2 : ℚ) ^ ((bitLength d : Int) - 1) := by
    rw [← zpow_sub₀ (by norm_num : (2 : ℚ) ≠ 0)]; congr 1; omega
  have hk2 : (2 : ℚ) ^ (k - 1) = (2 : ℚ) ^ ((bitLength n : Int) - 1) / (2 : ℚ) ^ (bitLength d : Int) := by
    rw [← zpow_sub₀ (by norm_num : (2 : ℚ) ≠ 0)]; congr 1; omega
  by_cases hat : d * 2 ^ k.toNat ≤ n * 2 ^ (-k).toNat
  · have he : e0 = k := by simp [e0, hat]
    rw [he]
    refine ⟨hcmp.mp hat, ?_⟩
    rw [hk1, div_lt_div_iff₀ hdq (two_pos _)]
    calc (n : ℚ) * 2 ^ ((bitLength d : Int) - 1) ≤ n * d :=
          mul_le_mul_of_nonneg_left hd1q (le_of_lt hnq)
      _ < 2 ^ (bitLength n : Int) * d := mul_lt_mul_of_pos_right hn2q hdq
  · have he : e0 = k - 1 := by simp [e0, hat]
    rw [he, sub_add_cancel]
    refine ⟨?_, lt_of_not_le (fun h => hat (hcmp.mpr h))⟩
    rw [hk2, div_le_div_iff₀ (two_pos _) hdq]
    calc (2 : ℚ) ^ ((bitLength n : Int) - 1) * d ≤ n * d :=
          mul_le_mul_of_nonneg_right hn1q (le_of_lt hdq)
      _ ≤ n * 2 ^ (bitLength d : Int) :=
          mul_le_mul_of_nonneg_left (le_of_lt hd2q) (le_of_lt hnq)

/-- The double chosen by `roundQuotient` for a quotient of at least `2 ^ (-1022)` is
positive and within a relative error of `2 ^ (-53)` of the quotient. -/
theorem roundQuotient_error (n d : Nat) (hn : 0 < n) (hd : 0 < d)
    (hlow : (2 : ℚ) ^ (-1022 : Int) ≤ (n : ℚ) / d) :
    0 < (roundQuotient n d).m ∧
    |F64.toRat (roundQuotient n d) - (n : ℚ) / d| ≤ (n : ℚ) / d / 2 ^ 53 := by
  have hexp := roundQuotient_exponent n d hn hd
  dsimp only at hexp
  obtain ⟨he1, he2⟩ := hexp
  have hnq : (0 : ℚ) < n := by exact_mod_cast hn
  have hdq : (0 : ℚ) < d := by exact_mod_cast hd
  have hx : (0 : ℚ) < (n : ℚ) / d := div_pos hnq hdq
  have two_pos : ∀ j : Int, (0 : ℚ) < (2 : ℚ) ^ j := fun j => zpow_pos (by norm_num) j
  unfold roundQuotient
  simp only []
  generalize hk : ((bitLength n : Int) - (bitLength d : Int)) = k at he1 he2 ⊢
  generalize he : (if decide (d * 2 ^ k.toNat ≤ n * 2 ^ (-k).toNat) = true then k else k - 1)
    = e0 at he1 he2 ⊢
  have he0 : -1022 ≤ e0 := by
    have h1 : (2 : ℚ) ^ (-1022 : Int) < (2 : ℚ) ^ (e0 + 1) := lt_of_le_of_lt hlow he2
    have h2 := (zpow_lt_zpow_iff_right₀ (by norm_num : (1 : ℚ) < 2)).mp h1
    omega
  have hs : max (e0 - 52) (-1074) = e0 - 52 := max_eq_left (by omega)
  rw [hs]
  set s : Int := e0 - 52 with hsdef
  set N : Nat := n * 2 ^ (-s).toNat with hN
  set D : Nat := d * 2 ^ s.toNat with hD
  have hDpos : 0 < D := Nat.mul_pos hd (pow_pos (by norm_num) _)
  have hrte := roundTiesEven_error N D hDpos
  have hND : (N : ℚ) / D = (n : ℚ) / d / (2 : ℚ) ^ s := by
    have h2 : (2 : ℚ) ^ s = ((2 ^ s.toNat : ℕ) : ℚ) / ((2 ^ (-s).toNat : ℕ) : ℚ) := two_zpow_eq s
    have hp1 : (0 : ℚ) < ((2 ^ s.toNat : ℕ) : ℚ) := by positivity
    have hp2 : (0 : ℚ) < ((2 ^ (-s).toNat : ℕ) : ℚ) := by positivity
    rw [h2, hN, hD]
    push_cast
    field_simp
  have hval : F64.toRat ⟨(roundTiesEven N D : ℕ), s⟩
      = ((roundTiesEven N D : ℕ) : ℚ) * (2 : ℚ) ^ s := by
    simp [F64.toRat]
  have herr : |((roundTiesEven N D : ℕ) : ℚ) * (2 : ℚ) ^ s - (n : ℚ) / d|
      ≤ (2 : ℚ) ^ s / 2 := by
    have h1 : ((roundTiesEven N D : ℕ) : ℚ) * (2 : ℚ) ^ s - (n : ℚ) / d
        = (((roundTiesEven N D : ℕ) : ℚ) - (N : ℚ) / D) * (2 : ℚ) ^ s := by
      rw [hND]; field_simp; ring
    rw [h1, abs_mul, abs_of_pos (two_pos s)]
    calc |((roundTiesEven N D : ℕ) : ℚ) - (N : ℚ) / D| * (2 : ℚ) ^ s
        ≤ 1 / 2 * (2 : ℚ) ^ s := mul_le_mul_of_nonneg_right hrte (le_of_lt (two_pos s))
      _ = (2 : ℚ) ^ s / 2 := by ring
  have hhalf : (2 : ℚ) ^ s / 2 ≤ (n : ℚ) / d / 2 ^ 53 := by
    have h1 : (2 : ℚ) ^ s = (2 : ℚ) ^ e0 / 2 ^ 52 := by
      rw [hsdef, zpow_sub₀ (by norm_num : (2 : ℚ) ≠ 0)]; norm_num
    rw [h1]
    have : (2 : ℚ) ^ e0 / 2 ^ 52 / 2 = (2 : ℚ) ^ e0 / 2 ^ 53 := by ring
    rw [this]
    exact div_le_div_of_nonneg_right he1 (by positivity)
  have hbound := le_trans herr hhalf
  refine ⟨?_, by rw [hval]; exact hbound⟩
  have hlt : (n : ℚ) / d / 2 ^ 53 < (n : ℚ) / d := by
    rw [div_lt_iff₀ (by positivity)]
    have : (1 : ℚ) < 2 ^ 53 := by norm_num
    nlinarith
  have hvpos : (0 : ℚ) < ((roundTiesEven N D : ℕ) : ℚ) * (2 : ℚ) ^ s := by
    have := (abs_le.mp hbound).1
    linarith
  have : (0 : ℚ) < ((roundTiesEven N D : ℕ) : ℚ) := by
    by_contra h
    have h0 : ((roundTiesEven N D : ℕ) : ℚ) ≤ 0 := not_lt.mp h
    have := mul_nonpos_of_nonpos_of_nonneg h0 (le_of_lt (two_pos s))
    linarith
  exact_mod_cast this

theorem F64.toRat_mk (m e : Int) : F64.toRat ⟨m, e⟩ = (m : ℚ) * (2 : ℚ) ^ e := rfl

theorem F64.toRat_natCast (n : Nat) : F64.toRat ⟨(n : Int), 0⟩ = (n : ℚ) := by
  simp [F64.toRat]

/-- Division of positive doubles: the result is positive and within a relative error of
`2 ^ (-53)` of the exact quotient. -/
theorem F64.div_error (a b : F64) (ha : 0 < a.m) (hb : 0 < b.m)
    (hlow : (2 : ℚ) ^ (-1022 : Int) ≤ a.toRat / b.toRat) :
    0 < (F64.div a b).m ∧
    |(F64.div a b).toRat - a.toRat / b.toRat| ≤ a.toRat / b.toRat / 2 ^ 53 := by
  obtain ⟨am, ae⟩ := a
  obtain ⟨bm, be⟩ := b
  simp only at ha hb
  have hna : ¬ am < 0 := by omega
  have hnb : ¬ bm < 0 := by omega
  have two_pos : ∀ j : Int, (0 : ℚ) < (2 : ℚ) ^ j := fun j => zpow_pos (by norm_num) j
  have hn : 0 < am.natAbs * 2 ^ (ae - be).toNat :=
    Nat.mul_pos (Int.natAbs_pos.mpr (by omega)) (pow_pos (by norm_num) _)
  have hd : 0 < bm.natAbs * 2 ^ (-(ae - be)).toNat :=
    Nat.mul_pos (Int.natAbs_pos.mpr (by omega)) (pow_pos (by norm_num) _)
  have hamq : ((am.natAbs : ℕ) : ℚ) = (am : ℚ) := by
    rw [Nat.cast_natAbs, abs_of_pos ha]
  have hbmq : ((bm.natAbs : ℕ) : ℚ) = (bm : ℚ) := by
    rw [Nat.cast_natAbs, abs_of_pos hb]
  have hbq : (0 : ℚ) < (bm : ℚ) := by exact_mod_cast hb
  have hq : ((am.natAbs * 2 ^ (ae - be).toNat : ℕ) : ℚ) / ((bm.natAbs * 2 ^ (-(ae - be)).toNat : ℕ) : ℚ)
      = F64.toRat ⟨am, ae⟩ / F64.toRat ⟨bm, be⟩ := by
    have hp2 : (0 : ℚ) < ((2 ^ (-(ae - be)).toNat : ℕ) : ℚ) := by positivity
    have h2 := two_zpow_eq (ae - be)
    have h3 : (2 : ℚ) ^ (ae - be) = (2 : ℚ) ^ ae / (2 : ℚ) ^ be :=
      zpow_sub₀ (by norm_num) _ _
    rw [F64.toRat_mk, F64.toRat_mk, Nat.cast_mul, Nat.cast_mul, hamq, hbmq]
    have h4 : (am : ℚ) * (2 : ℚ) ^ ae / ((bm : ℚ) * (2 : ℚ) ^ be)
        = (am : ℚ) / bm * ((2 : ℚ) ^ ae / (2 : ℚ) ^ be) := by
      field_simp
    rw [h4, ← h3, h2]
    field_simp
  have hne : am.natAbs * 2 ^ (ae - be).toNat ≠ 0 := Nat.pos_iff_ne_zero.mp hn
  have := roundQuotient_error _ _ hn hd (by rw [hq]; exact hlow)
  rw [hq] at this
  simpa [F64.div, F64.ofQuotient, hna, hnb, hne] using this

/-- Multiplication of positive doubles: the result is positive and within a relative error
of `2 ^ (-53)` of the exact product. -/
theorem F64.mul_error (a b : F64) (ha : 0 < a.m) (hb : 0 < b.m)
    (hlow : (2 : ℚ) ^ (-1022 : Int) ≤ a.toRat * b.toRat) :
    0 < (F64.mul a b).m ∧
    |(F64.mul a b).toRat - a.toRat * b.toRat| ≤ a.toRat * b.toRat / 2 ^ 53 := by
  obtain ⟨am, ae⟩ := a
  obtain ⟨bm, be⟩ := b
  simp only at ha hb
  have hprod : 0 < am * bm := Int.mul_pos ha hb
  have two_pos : ∀ j : Int, (0 : ℚ) < (2 : ℚ) ^ j := fun j => zpow_pos (by norm_num) j
  have hexact : F64.toRat ⟨am, ae⟩ * F64.toRat ⟨bm, be⟩ = ((am * bm : Int) : ℚ) * (2 : ℚ) ^ (ae + be) := by
    rw [F64.toRat_mk, F64.toRat_mk, zpow_add₀ (by norm_num : (2 : ℚ) ≠ 0)]
    push_cast; ring
  have hpos : (0 : ℚ) < F64.toRat ⟨am, ae⟩ * F64.toRat ⟨bm, be⟩ := by
    rw [hexact]
    exact mul_pos (by exact_mod_cast hprod) (two_pos _)
  unfold F64.mul F64.ofDyadic
  simp only []
  split_ifs with h
  · refine ⟨hprod, ?_⟩
    rw [F64.toRat_mk, ← hexact, sub_self, abs_zero]
    positivity
  · have hnneg : ¬ am * bm < 0 := by omega
    have hn : 0 < (am * bm).natAbs * 2 ^ (ae + be).toNat :=
      Nat.mul_pos (Int.natAbs_pos.mpr (by omega)) (pow_pos (by norm_num) _)
    have hd : 0 < 2 ^ (-(ae + be)).toNat := pow_pos (by norm_num) _
    have hmq : (((am * bm).natAbs : ℕ) : ℚ) = ((am * bm : Int) : ℚ) := by
      rw [Nat.cast_natAbs, abs_of_pos hprod]
    have hq : (((am * bm).natAbs * 2 ^ (ae + be).toNat : ℕ) : ℚ) / ((2 ^ (-(ae + be)).toNat : ℕ) : ℚ)
        = F64.toRat ⟨am, ae⟩ * F64.toRat ⟨bm, be⟩ := by
      rw [hexact, two_zpow_eq (ae + be), Nat.cast_mul, hmq]
      ring
    have hne : (am * bm).natAbs * 2 ^ (ae + be).toNat ≠ 0 := Nat.pos_iff_ne_zero.mp hn
    have := roundQuotient_error _ _ hn hd (by rw [hq]; exact hlow)
    rw [hq] at this
    simpa [F64.ofQuotient, hnneg, hne] using this

/-- The integer `Math.round` gives is the floor of the value plus one half. -/
theorem F64.round_eq_floor (a : F64) : F64.round a = ⌊a.toRat + 1 / 2⌋ := by
  obtain ⟨m, e⟩ := a
  have hp1 : (0 : ℚ) < ((2 ^ e.toNat : ℕ) : ℚ) := by positivity
  have hp2 : (0 : ℚ) < ((2 ^ (-e).toNat : ℕ) : ℚ) := by positivity
  have h : F64.toRat ⟨m, e⟩ + 1 / 2
      = ((2 * (m * 2 ^ e.toNat) + 2 ^ (-e).toNat : Int) : ℚ) / ((2 * 2 ^ (-e).toNat : ℕ) : ℚ) := by
    rw [F64.toRat_mk, two_zpow_eq e]
    push_cast
    field_simp
    ring
  rw [h, Rat.floor_intCast_div_natCast]
  simp [F64.round]

/-- Rounding a value that is close to the fraction `P / Q` gives an integer nearest to
`P / Q`. -/
theorem nearest_of_floor (V : ℚ) (P Q : Nat) (hQ : 0 < Q)
    (herr : |V - (P : ℚ) / Q| * Q < 1 / 2) :
    2 * |⌊V + 1 / 2⌋ * (Q : Int) - (P : Int)| ≤ (Q : Int) := by
  have hQq : (0 : ℚ) < Q := by exact_mod_cast hQ
  have h1 : ((⌊V + 1 / 2⌋ : Int) : ℚ) ≤ V + 1 / 2 := Int.floor_le _
  have h2 : V + 1 / 2 < ((⌊V + 1 / 2⌋ : Int) : ℚ) + 1 := Int.lt_floor_add_one _
  have hPQ : (P : ℚ) / Q * Q = P := div_mul_cancel₀ _ (ne_of_gt hQq)
  have h34 : |(V - (P : ℚ) / Q) * Q| < 1 / 2 := by
    rw [abs_mul, abs_of_pos hQq]; exact herr
  obtain ⟨h3, h4⟩ := abs_lt.mp h34
  have h5 : (V - (P : ℚ) / Q) * Q = V * Q - P := by rw [sub_mul, hPQ]
  rw [h5] at h3 h4
  set z : Int := ⌊V + 1 / 2⌋ with hz
  -- the two-sided bound, scaled by Q
  have hup : (z : ℚ) * Q ≤ V * Q + Q / 2 := by
    have := mul_le_mul_of_nonneg_right h1 (le_of_lt hQq)
    linarith
  have hlo : V * Q + Q / 2 < (z : ℚ) * Q + Q := by
    have := mul_lt_mul_of_pos_right h2 hQq
    linarith
  have hA : (2 * (z * (Q : Int) - (P : Int)) : ℚ) < (Q : ℚ) + 1 := by
    push_cast; linarith
  have hB : -((Q : ℚ) + 1) < (2 * (z * (Q : Int) - (P : Int)) : ℚ) := by
    push_cast; linarith
  have hA' : 2 * (z * (Q : Int) - (P : Int)) < (Q : Int) + 1 := by exact_mod_cast hA
  have hB' : -((Q : Int) + 1) < 2 * (z * (Q : Int) - (P : Int)) := by exact_mod_cast hB
  rcases abs_cases (z * (Q : Int) - (P : Int)) with ⟨h, _⟩ | ⟨h, _⟩ <;> rw [h] <;> omega

/-- An integer nearest to `P / Q` is the rounded quotient, or at an exact tie the integer
below it. -/
theorem nearest_round (z : Int) (P Q : Nat) (hQ : 0 < Q)
    (h : 2 * |z * (Q : Int) - (P : Int)| ≤ (Q : Int)) :
    z = round ((P : ℚ) / Q) ∨
      (z = round ((P : ℚ) / Q) - 1 ∧ 2 * ((P : Int) - z * (Q : Int)) = (Q : Int)) := by
  have hQq : (0 : ℚ) < Q := by exact_mod_cast hQ
  have hQi : (0 : Int) < Q := by exact_mod_cast hQ
  set R : Int := round ((P : ℚ) / Q) with hR
  have hRf : R = ⌊(P : ℚ) / Q + 1 / 2⌋ := by rw [hR, round_eq]
  have h1 : (R : ℚ) ≤ (P : ℚ) / Q + 1 / 2 := by rw [hRf]; exact Int.floor_le _
  have h2 : (P : ℚ) / Q + 1 / 2 < (R : ℚ) + 1 := by rw [hRf]; exact Int.lt_floor_add_one _
  have hPQ : (P : ℚ) / Q * Q = P := div_mul_cancel₀ _ (ne_of_gt hQq)
  have h1' : (2 * (R * (Q : Int)) : ℚ) ≤ 2 * P + Q := by
    have := mul_le_mul_of_nonneg_right h1 (le_of_lt hQq)
    rw [add_mul, hPQ] at this
    push_cast; linarith
  have h2' : (2 * (P : ℚ) + Q) < 2 * ((R + 1) * (Q : Int)) := by
    have := mul_lt_mul_of_pos_right h2 hQq
    rw [add_mul, hPQ] at this
    push_cast; linarith
  have h1i : 2 * (R * (Q : Int)) ≤ 2 * (P : Int) + Q := by exact_mod_cast h1'
  have h2i : 2 * (P : Int) + Q < 2 * ((R + 1) * (Q : Int)) := by exact_mod_cast h2'
  have h3 : 2 * (z * (Q : Int) - (P : Int)) ≤ (Q : Int) := by
    have := le_abs_self (z * (Q : Int) - (P : Int)); linarith
  have h4 : -(Q : Int) ≤ 2 * (z * (Q : Int) - (P : Int)) := by
    have := neg_abs_le (z * (Q : Int) - (P : Int)); linarith
  have hzle : z ≤ R := by
    have : z * (Q : Int) < (R + 1) * (Q : Int) := by linarith
    have := lt_of_mul_lt_mul_right this (le_of_lt hQi)
    omega
  have hzge : R - 1 ≤ z := by
    have : (R - 1) * (Q : Int) ≤ z * (Q : Int) := by
      have e : (R - 1) * (Q : Int) = R * (Q : Int) - Q := by ring
      rw [e]; linarith
    exact le_of_mul_le_mul_right this hQi
  rcases (show z = R ∨ z = R - 1 by omega) with h5 | h5
  · left; exact h5
  · right
    refine ⟨h5, ?_⟩
    have e : z * (Q : Int) = R * (Q : Int) - Q := by rw [h5]; ring
    linarith

theorem F64.ofNat_of_lt (n : Nat) (h : n < 2 ^ 53) : F64.ofNat n = ⟨(n : Int), 0⟩ := by
  have h2 : ¬ 9007199254740992 ≤ n := by omega
  simp [F64.ofNat, F64.ofDyadic, h2]

theorem F64.add_natCast (a b : Nat) (h : a + b < 2 ^ 53) :
    F64.add ⟨(a : Int), 0⟩ ⟨(b : Int), 0⟩ = ⟨((a + b : ℕ) : Int), 0⟩ := by
  have h2 : ¬ 9007199254740992 ≤ ((a : Int) + (b : Int)).natAbs := by omega
  simp [F64.add, F64.ofDyadic, h2]

/-- The accuracy is an integer nearest to the exact percentage `100 * c / (c + i)`. -/
theorem accuracy_nearest (c i : Nat) (hpos : 0 < c + i) (hlt : c + i < 2 ^ 44) :
    2 * |accuracy c i * ((c + i : ℕ) : Int) - ((100 * c : ℕ) : Int)| ≤ ((c + i : ℕ) : Int) := by
  have hc53 : c < 2 ^ 53 := by omega
  have hi53 : i < 2 ^ 53 := by omega
  have ht53 : c + i < 2 ^ 53 := by omega
  have htpos : F64.isPositive ⟨((c + i : ℕ) : Int), 0⟩ = true := by
    simp only [F64.isPositive, decide_eq_true_eq]; exact_mod_cast hpos
  have hacc : accuracy c i = F64.round (F64.mul
      (F64.div ⟨(c : Int), 0⟩ ⟨((c + i : ℕ) : Int), 0⟩) ⟨((100 : ℕ) : Int), 0⟩) := by
    simp only [accuracy, F64.ofNat_of_lt c hc53, F64.ofNat_of_lt i hi53,
      F64.ofNat_of_lt 100 (by norm_num), F64.add_natCast c i ht53, htpos, if_true]
  rw [hacc]
  rcases Nat.eq_zero_or_pos c with hc0 | hcpos
  · subst hc0
    have : F64.round (F64.mul (F64.div ⟨((0 : ℕ) : Int), 0⟩ ⟨((0 + i : ℕ) : Int), 0⟩)
        ⟨((100 : ℕ) : Int), 0⟩) = 0 := by
      simp [F64.div, F64.ofQuotient, F64.mul, F64.ofDyadic, F64.round]
    rw [this]; simp
  · set t : Nat := c + i with ht
    have hcq : (0 : ℚ) < c := by exact_mod_cast hcpos
    have htq : (0 : ℚ) < t := by exact_mod_cast hpos
    have hct : (c : ℚ) ≤ t := by exact_mod_cast (show c ≤ t by omega)
    have htlt : (t : ℚ) < 2 ^ 44 := by exact_mod_cast hlt
    have hx0 : (0 : ℚ) < (c : ℚ) / t := div_pos hcq htq
    have hx1 : (c : ℚ) / t ≤ 1 := (div_le_one htq).mpr hct
    have hxlow : (1 : ℚ) / 2 ^ 44 < (c : ℚ) / t := by
      rw [div_lt_div_iff₀ (by positivity) htq]
      have : (1 : ℚ) ≤ c := by exact_mod_cast hcpos
      nlinarith
    obtain ⟨hm1, he1⟩ := F64.div_error ⟨(c : Int), 0⟩ ⟨(t : Int), 0⟩
      (by show (0 : Int) < (c : Int); exact_mod_cast hcpos)
      (by show (0 : Int) < (t : Int); exact_mod_cast hpos)
      (by
        rw [F64.toRat_natCast, F64.toRat_natCast]
        have : (2 : ℚ) ^ (-1022 : Int) ≤ 1 / 2 ^ 44 := by
          rw [zpow_neg, ← one_div]
          apply one_div_le_one_div_of_le (by positivity)
          rw [← zpow_natCast]
          exact zpow_le_zpow_right₀ (by norm_num) (by norm_num)
        linarith)
    rw [F64.toRat_natCast, F64.toRat_natCast] at he1
    set d1 := F64.div ⟨(c : Int), 0⟩ ⟨(t : Int), 0⟩ with hd1
    obtain ⟨hlo1, hhi1⟩ := abs_le.mp he1
    have hV1low : (1 : ℚ) / 2 ^ 45 ≤ d1.toRat := by
      have : (c : ℚ) / t / 2 ^ 53 ≤ (c : ℚ) / t / 2 := by
        apply div_le_div_of_nonneg_left (le_of_lt hx0) (by norm_num) (by norm_num)
      have h2 : (1 : ℚ) / 2 ^ 45 = 1 / 2 ^ 44 / 2 := by norm_num
      linarith
    obtain ⟨hm2, he2⟩ := F64.mul_error d1 ⟨((100 : ℕ) : Int), 0⟩ hm1 (by norm_num)
      (by
        rw [F64.toRat_natCast]
        have : (2 : ℚ) ^ (-1022 : Int) ≤ 1 / 2 ^ 45 := by
          rw [zpow_neg, ← one_div]
          apply one_div_le_one_div_of_le (by positivity)
          rw [← zpow_natCast]
          exact zpow_le_zpow_right₀ (by norm_num) (by norm_num)
        have hp : (0 : ℚ) < 1 / 2 ^ 45 := by positivity
        push_cast
        calc (2 : ℚ) ^ (-1022 : Int) ≤ 1 / 2 ^ 45 := this
          _ ≤ d1.toRat := hV1low
          _ ≤ d1.toRat * 100 := le_mul_of_one_le_right (le_trans (le_of_lt hp) hV1low)
              (by norm_num))
    rw [F64.toRat_natCast] at he2
    set V := (F64.mul d1 ⟨((100 : ℕ) : Int), 0⟩).toRat with hV
    obtain ⟨hlo2, hhi2⟩ := abs_le.mp he2
    rw [F64.round_eq_floor]
    apply nearest_of_floor V (100 * c) t hpos
    have hP : (((100 * c : ℕ) : ℚ)) / t = 100 * ((c : ℚ) / t) := by push_cast; ring
    rw [hP]
    have hy : |V - 100 * ((c : ℚ) / t)| ≤ (c : ℚ) / t / 2 ^ 45 := by
      rw [abs_le]
      push_cast at hlo2 hhi2
      constructor <;> nlinarith
    calc |V - 100 * ((c : ℚ) / t)| * t ≤ (c : ℚ) / t / 2 ^ 45 * t :=
          mul_le_mul_of_nonneg_right hy (le_of_lt htq)
      _ = (c : ℚ) / 2 ^ 45 := by field_simp; ring
      _ ≤ (t : ℚ) / 2 ^ 45 := by apply div_le_div_of_nonneg_right hct (by positivity)
      _ < 1 / 2 := by
        rw [div_lt_iff₀ (by positivity)]
        linarith

theorem F64.sub_natCast (a b : Nat) (ha : a < 2 ^ 53) (hb : b < 2 ^ 53) :
    F64.sub ⟨(a : Int), 0⟩ ⟨(b : Int), 0⟩ = ⟨(a : Int) - (b : Int), 0⟩ := by
  have h2 : ¬ 9007199254740992 ≤ ((a : Int) - (b : Int)).natAbs := by omega
  simp [F64.sub, F64.ofDyadic, h2]

theorem two_zpow_neg_1022_le (q : ℚ) (k : Nat) (hk : k ≤ 1022) (h : 1 / 2 ^ k ≤ q) :
    (2 : ℚ) ^ (-1022 : Int) ≤ q := by
  refine le_trans ?_ h
  rw [zpow_neg, ← one_div]
  apply one_div_le_one_div_of_le (by positivity)
  rw [← zpow_natCast]
  exact zpow_le_zpow_right₀ (by norm_num) (by exact_mod_cast hk)

/-- A value within a relative error of `2 ^ (-53)`, as a two-sided bound. -/
theorem rel_bounds (v x : ℚ) (h : |v - x| ≤ x / 2 ^ 53) :
    x * (1 - 1 / 2 ^ 53) ≤ v ∧ v ≤ x * (1 + 1 / 2 ^ 53) := by
  obtain ⟨h1, h2⟩ := abs_le.mp h
  constructor <;> linarith

/-- The elapsed minutes the source computes, for a clock reading after the start: a positive
double within a relative error of `3 * 2 ^ (-53)` of `ms / 60000`. -/
theorem timeElapsedMinutes_bounds (start now : Nat) (h1 : start < now) (h2 : now < 2 ^ 53) :
    0 < (timeElapsedMinutes start now).m ∧
    ((now - start : ℕ) : ℚ) / 60000 * (1 - 1 / 2 ^ 53) ^ 2
      ≤ (timeElapsedMinutes start now).toRat ∧
    (timeElapsedMinutes start now).toRat
      ≤ ((now - start : ℕ) : ℚ) / 60000 * (1 + 1 / 2 ^ 53) ^ 2 := by
  have hs53 : start < 2 ^ 53 := by omega
  set ms : Nat := now - start with hms
  have hmspos : 0 < ms := by omega
  have hmsq : (1 : ℚ) ≤ ms := by exact_mod_cast hmspos
  have hsub : F64.sub (F64.ofNat now) (F64.ofNat start) = ⟨(ms : Int), 0⟩ := by
    rw [F64.ofNat_of_lt now h2, F64.ofNat_of_lt start hs53, F64.sub_natCast now start h2 hs53]
    congr 1; omega
  have hsec : timeElapsedSeconds start now = F64.div ⟨(ms : Int), 0⟩ ⟨((1000 : ℕ) : Int), 0⟩ := by
    rw [timeElapsedSeconds, hsub, F64.ofNat_of_lt 1000 (by norm_num)]
  have hmin : timeElapsedMinutes start now
      = F64.div (F64.div ⟨(ms : Int), 0⟩ ⟨((1000 : ℕ) : Int), 0⟩) ⟨((60 : ℕ) : Int), 0⟩ := by
    rw [timeElapsedMinutes, hsec, F64.ofNat_of_lt 60 (by norm_num)]
  rw [hmin]
  obtain ⟨hm1, he1⟩ := F64.div_error ⟨(ms : Int), 0⟩ ⟨((1000 : ℕ) : Int), 0⟩
    (by show (0 : Int) < (ms : Int); exact_mod_cast hmspos) (by norm_num)
    (by
      rw [F64.toRat_natCast, F64.toRat_natCast]
      apply two_zpow_neg_1022_le _ 10 (by norm_num)
      rw [div_le_div_iff₀ (by positivity) (by norm_num)]
      push_cast; linarith)
  rw [F64.toRat_natCast, F64.toRat_natCast] at he1
  set S := F64.div ⟨(ms : Int), 0⟩ ⟨((1000 : ℕ) : Int), 0⟩ with hS
  obtain ⟨hS1, hS2⟩ := rel_bounds _ _ he1
  push_cast at hS1 hS2
  have hSlow : (1 : ℚ) / 2 ^ 11 ≤ S.toRat := by
    have : (1 : ℚ) / 2 ^ 11 ≤ (ms : ℚ) / 1000 * (1 - 1 / 2 ^ 53) := by
      have : (1 : ℚ) / 1000 ≤ (ms : ℚ) / 1000 := by
        apply div_le_div_of_nonneg_right hmsq (by norm_num)
      have h3 : (1 : ℚ) / 2 ^ 11 ≤ 1 / 1000 * (1 - 1 / 2 ^ 53) := by norm_num
      have h4 : (1 : ℚ) / 1000 * (1 - 1 / 2 ^ 53) ≤ (ms : ℚ) / 1000 * (1 - 1 / 2 ^ 53) :=
        mul_le_mul_of_nonneg_right this (by norm_num)
      linarith
    linarith
  obtain ⟨hm2, he2⟩ := F64.div_error S ⟨((60 : ℕ) : Int), 0⟩ hm1 (by norm_num)
    (by
      rw [F64.toRat_natCast]
      apply two_zpow_neg_1022_le _ 17 (by norm_num)
      rw [div_le_div_iff₀ (by positivity) (by norm_num)]
      push_cast
      have : (1 : ℚ) / 2 ^ 11 * 2 ^ 17 ≤ S.toRat * 2 ^ 17 :=
        mul_le_mul_of_nonneg_right hSlow (by positivity)
      norm_num at this ⊢
      linarith)
  rw [F64.toRat_natCast] at he2
  obtain ⟨hM1, hM2⟩ := rel_bounds _ _ he2
  push_cast at hM1 hM2
  refine ⟨hm2, ?_, ?_⟩
  · have : (ms : ℚ) / 60000 * (1 - 1 / 2 ^ 53) ^ 2
        = (ms : ℚ) / 1000 * (1 - 1 / 2 ^ 53) / 60 * (1 - 1 / 2 ^ 53) := by ring
    rw [this]
    have h5 : (ms : ℚ) / 1000 * (1 - 1 / 2 ^ 53) / 60 * (1 - 1 / 2 ^ 53)
        ≤ S.toRat / 60 * (1 - 1 / 2 ^ 53) := by
      apply mul_le_mul_of_nonneg_right _ (by norm_num)
      apply div_le_div_of_nonneg_right hS1 (by norm_num)
    linarith
  · have : (ms : ℚ) / 60000 * (1 + 1 / 2 ^ 53) ^ 2
        = (ms : ℚ) / 1000 * (1 + 1 / 2 ^ 53) / 60 * (1 + 1 / 2 ^ 53) := by ring
    rw [this]
    have h5 : S.toRat / 60 * (1 + 1 / 2 ^ 53)
        ≤ (ms : ℚ) / 1000 * (1 + 1 / 2 ^ 53) / 60 * (1 + 1 / 2 ^ 53) := by
      apply mul_le_mul_of_nonneg_right _ (by norm_num)
      apply div_le_div_of_nonneg_right hS2 (by norm_num)
    linarith

set_option maxHeartbeats 1000000 in
/-- The words-per-minute value is an integer nearest to the exact quotient
`12000 * (c + i) / (now - start)`, for a clock reading after the start. -/
theorem grossWpm_nearest (c i start now : Nat) (h1 : start < now) (h2 : now < 2 ^ 53)
    (h3 : c + i < 2 ^ 36) :
    2 * |grossWpm c i start now * ((now - start : ℕ) : Int)
        - ((12000 * (c + i) : ℕ) : Int)| ≤ ((now - start : ℕ) : Int) := by
  obtain ⟨hMpos, hMlo, hMhi⟩ := timeElapsedMinutes_bounds start now h1 h2
  set M := timeElapsedMinutes start now with hM
  set ms : Nat := now - start with hms
  have hmspos : 0 < ms := by omega
  have hmsq : (0 : ℚ) < ms := by exact_mod_cast hmspos
  have hms53 : (ms : ℚ) < 2 ^ 53 := by exact_mod_cast (show ms < 2 ^ 53 by omega)
  have hc53 : c < 2 ^ 53 := by omega
  have hi53 : i < 2 ^ 53 := by omega
  have hn53 : c + i < 2 ^ 53 := by omega
  have hpos : F64.isPositive M = true := by
    simp only [F64.isPositive, decide_eq_true_eq]; exact hMpos
  have hw : grossWpm c i start now = F64.round (F64.div
      (F64.div ⟨((c + i : ℕ) : Int), 0⟩ ⟨((5 : ℕ) : Int), 0⟩) M) := by
    simp only [grossWpm, ← hM, hpos, if_true, F64.ofNat_of_lt c hc53, F64.ofNat_of_lt i hi53,
      F64.ofNat_of_lt 5 (by norm_num), F64.add_natCast c i hn53]
  rw [hw]
  set n : Nat := c + i with hn
  rcases Nat.eq_zero_or_pos n with hn0 | hnpos
  · rw [hn0]
    have : F64.round (F64.div (F64.div ⟨((0 : ℕ) : Int), 0⟩ ⟨((5 : ℕ) : Int), 0⟩) M) = 0 := by
      simp [F64.div, F64.ofQuotient, F64.round]
    rw [this]; simp
  · have hnq : (1 : ℚ) ≤ n := by exact_mod_cast hnpos
    have hnlt : (n : ℚ) < 2 ^ 36 := by exact_mod_cast h3
    -- the characters divided by five
    obtain ⟨hmA, heA⟩ := F64.div_error ⟨(n : Int), 0⟩ ⟨((5 : ℕ) : Int), 0⟩
      (by show (0 : Int) < (n : Int); exact_mod_cast hnpos) (by norm_num)
      (by
        rw [F64.toRat_natCast, F64.toRat_natCast]
        apply two_zpow_neg_1022_le _ 3 (by norm_num)
        rw [div_le_div_iff₀ (by positivity) (by norm_num)]
        push_cast; linarith)
    rw [F64.toRat_natCast, F64.toRat_natCast] at heA
    set A := F64.div ⟨(n : Int), 0⟩ ⟨((5 : ℕ) : Int), 0⟩ with hA
    obtain ⟨hA1, hA2⟩ := rel_bounds _ _ heA
    push_cast at hA1 hA2
    -- bounds used below
    have hMlo' : (ms : ℚ) / 60000 * (1 - 1 / 2 ^ 53) ^ 2 > 0 := by positivity
    have hMq : (0 : ℚ) < M.toRat := lt_of_lt_of_le hMlo' hMlo
    have hAlo : (0 : ℚ) < (n : ℚ) / 5 * (1 - 1 / 2 ^ 53) := by positivity
    have hAq : (0 : ℚ) < A.toRat := lt_of_lt_of_le hAlo hA1
    have hX : (0 : ℚ) < (n : ℚ) / 5 / ((ms : ℚ) / 60000) := by positivity
    -- the quotient of the two, exactly
    have hquot_hi : A.toRat / M.toRat
        ≤ (n : ℚ) / 5 / ((ms : ℚ) / 60000) * ((1 + 1 / 2 ^ 53) / (1 - 1 / 2 ^ 53) ^ 2) := by
      have : A.toRat / M.toRat
          ≤ ((n : ℚ) / 5 * (1 + 1 / 2 ^ 53)) / ((ms : ℚ) / 60000 * (1 - 1 / 2 ^ 53) ^ 2) :=
        div_le_div₀ (by positivity) hA2 hMlo' hMlo
      refine le_trans this (le_of_eq ?_)
      field_simp
      ring
    have hquot_lo : (n : ℚ) / 5 / ((ms : ℚ) / 60000) * ((1 - 1 / 2 ^ 53) / (1 + 1 / 2 ^ 53) ^ 2)
        ≤ A.toRat / M.toRat := by
      have : ((n : ℚ) / 5 * (1 - 1 / 2 ^ 53)) / ((ms : ℚ) / 60000 * (1 + 1 / 2 ^ 53) ^ 2)
          ≤ A.toRat / M.toRat :=
        div_le_div₀ (le_of_lt hAq) hA1 hMq hMhi
      refine le_trans (le_of_eq ?_) this
      field_simp
      ring
    have hquot_pos : (0 : ℚ) < A.toRat / M.toRat := div_pos hAq hMq
    obtain ⟨hmW, heW⟩ := F64.div_error A M hmA hMpos
      (by
        apply two_zpow_neg_1022_le _ 60 (by norm_num)
        refine le_trans ?_ hquot_lo
        have hx1 : (1 : ℚ) / 2 ^ 40 ≤ (n : ℚ) / 5 / ((ms : ℚ) / 60000) := by
          rw [div_div, div_le_div_iff₀ (by positivity) (by positivity)]
          nlinarith
        have hk : (1 : ℚ) / 2 ^ 20 ≤ ((1 : ℚ) - 1 / 2 ^ 53) / (1 + 1 / 2 ^ 53) ^ 2 := by
          norm_num
        calc (1 : ℚ) / 2 ^ 60 = 1 / 2 ^ 40 * (1 / 2 ^ 20) := by norm_num
          _ ≤ (n : ℚ) / 5 / ((ms : ℚ) / 60000) * ((1 - 1 / 2 ^ 53) / (1 + 1 / 2 ^ 53) ^ 2) :=
            mul_le_mul hx1 hk (by positivity) (le_of_lt hX))
    set W := (F64.div A M).toRat with hW
    obtain ⟨hW1, hW2⟩ := rel_bounds _ _ heW
    rw [F64.round_eq_floor]
    apply nearest_of_floor W (12000 * n) ms hmspos
    have hP : (((12000 * n : ℕ) : ℚ)) / ms = (n : ℚ) / 5 / ((ms : ℚ) / 60000) := by
      push_cast; field_simp; ring
    rw [hP]
    have hXms : (n : ℚ) / 5 / ((ms : ℚ) / 60000) * ms = 12000 * n := by
      field_simp; ring
    set X := (n : ℚ) / 5 / ((ms : ℚ) / 60000) with hXdef
    have hku : ((1 : ℚ) + 1 / 2 ^ 53) / (1 - 1 / 2 ^ 53) ^ 2 * (1 + 1 / 2 ^ 53)
        ≤ 1 + 5 / 2 ^ 53 := by norm_num
    have hkl : (1 : ℚ) - 5 / 2 ^ 53
        ≤ (1 - 1 / 2 ^ 53) / (1 + 1 / 2 ^ 53) ^ 2 * (1 - 1 / 2 ^ 53) := by norm_num
    have hWhi : W ≤ X * (1 + 5 / 2 ^ 53) := by
      calc W ≤ A.toRat / M.toRat * (1 + 1 / 2 ^ 53) := hW2
        _ ≤ X * ((1 + 1 / 2 ^ 53) / (1 - 1 / 2 ^ 53) ^ 2) * (1 + 1 / 2 ^ 53) :=
          mul_le_mul_of_nonneg_right hquot_hi (by norm_num)
        _ = X * ((1 + 1 / 2 ^ 53) / (1 - 1 / 2 ^ 53) ^ 2 * (1 + 1 / 2 ^ 53)) := by ring
        _ ≤ X * (1 + 5 / 2 ^ 53) := mul_le_mul_of_nonneg_left hku (le_of_lt hX)
    have hWlo : X * (1 - 5 / 2 ^ 53) ≤ W := by
      calc X * (1 - 5 / 2 ^ 53)
          ≤ X * ((1 - 1 / 2 ^ 53) / (1 + 1 / 2 ^ 53) ^ 2 * (1 - 1 / 2 ^ 53)) :=
            mul_le_mul_of_nonneg_left hkl (le_of_lt hX)
        _ = X * ((1 - 1 / 2 ^ 53) / (1 + 1 / 2 ^ 53) ^ 2) * (1 - 1 / 2 ^ 53) := by ring
        _ ≤ A.toRat / M.toRat * (1 - 1 / 2 ^ 53) :=
          mul_le_mul_of_nonneg_right hquot_lo (by norm_num)
        _ ≤ W := hW1
    have hy : |W - X| ≤ X * (5 / 2 ^ 53) := by
      rw [abs_le]; constructor <;> linarith
    have h4 : X * (5 / 2 ^ 53) * ms = n * (60000 / 2 ^ 53) := by
      have : X * (5 / 2 ^ 53) * ms = X * ms * (5 / 2 ^ 53) := by ring
      rw [this, hXms]; ring
    have h5 : (n : ℚ) * (60000 / 2 ^ 53) < 1 / 2 := by
      have e : (n : ℚ) * (60000 / 2 ^ 53) = n * 60000 / 2 ^ 53 := by ring
      have hn' : (n : ℚ) < 68719476736 := by
        have := hnlt
        norm_num at this
        exact_mod_cast this
      rw [e, div_lt_iff₀ (by positivity)]
      norm_num
      linarith
    have h7 : |W - X| * ms ≤ X * (5 / 2 ^ 53) * ms :=
      mul_le_mul_of_nonneg_right hy (le_of_lt hmsq)
    have h8 : |W - X| * ms < 1 / 2 := by
      rw [h4] at h7
      exact lt_of_le_of_lt h7 h5
    exact h8

/-- Before the clock has moved past the start the words-per-minute value is 0. -/
theorem grossWpm_not_after (c i start now : Nat) (h1 : now ≤ start) (h2 : start < 2 ^ 53) :
    grossWpm c i start now = 0 := by
  have hn53 : now < 2 ^ 53 := by omega
  have hsub : F64.sub (F64.ofNat now) (F64.ofNat start) = ⟨(now : Int) - (start : Int), 0⟩ := by
    rw [F64.ofNat_of_lt now hn53, F64.ofNat_of_lt start h2, F64.sub_natCast now start hn53 h2]
  have hneg : ∀ (b : Bool) (n d : Nat), (b = false → n = 0) → (F64.ofQuotient b n d).m ≤ 0 := by
    intro b n d hb
    unfold F64.ofQuotient
    split_ifs with h0 hb2
    · simp
    · simp only [roundQuotient]; simp
    · exact absurd (hb (by simpa using hb2)) h0
  have hle : (now : Int) - (start : Int) ≤ 0 := by omega
  have hsec : (timeElapsedSeconds start now).m ≤ 0 := by
    rw [timeElapsedSeconds, hsub, F64.div]
    apply hneg
    intro hb
    have : ¬ ((now : Int) - (start : Int) < 0) := by
      simpa [F64.ofNat_of_lt 1000 (by norm_num)] using hb
    have h0 : (now : Int) - (start : Int) = 0 := by omega
    simp [h0]
  have hmin : (timeElapsedMinutes start now).m ≤ 0 := by
    rw [timeElapsedMinutes, F64.div]
    apply hneg
    intro hb
    have : ¬ ((timeElapsedSeconds start now).m < 0) := by
      simpa [F64.ofNat_of_lt 60 (by norm_num)] using hb
    have h0 : (timeElapsedSeconds start now).m = 0 := by omega
    simp [h0]
  have : F64.isPositive (timeElapsedMinutes start now) = false := by
    simp only [F64.isPositive, decide_eq_false_iff_not]; omega
  simp [grossWpm, this]

/-- An integer nearest to `P / Q`, read over the rationals. -/
theorem nearest_rat (z : Int) (P Q : Nat) (hQ : 0 < Q)
    (h : 2 * |z * (Q : Int) - (P : Int)| ≤ (Q : Int)) :
    |(z : ℚ) - (P : ℚ) / Q| ≤ 1 / 2 ∧
    (z = round ((P : ℚ) / Q) ∨
      (z = round ((P : ℚ) / Q) - 1 ∧ (P : ℚ) / Q = z + 1 / 2)) := by
  have hQq : (0 : ℚ) < Q := by exact_mod_cast hQ
  constructor
  · have hq : (2 * |z * (Q : Int) - (P : Int)| : ℚ) ≤ Q := by exact_mod_cast h
    have e : (z : ℚ) - (P : ℚ) / Q = ((z : ℚ) * Q - P) / Q := by field_simp
    rw [e, abs_div, abs_of_pos hQq, div_le_iff₀ hQq]
    push_cast at hq
    linarith
  · rcases nearest_round z P Q hQ h with h1 | ⟨h1, h2⟩
    · left; exact h1
    · right
      refine ⟨h1, ?_⟩
      have h3 : (2 * ((P : ℚ) - z * Q)) = Q := by exact_mod_cast h2
      rw [div_eq_iff (ne_of_gt hQq)]
      linarith

/-- The range of an integer nearest to a fraction that lies between 0 and `K`. -/
theorem nearest_range (z : Int) (P Q K : Nat) (hQ : 0 < Q) (hP : P ≤ K * Q)
    (h : 2 * |z * (Q : Int) - (P : Int)| ≤ (Q : Int)) : 0 ≤ z ∧ z ≤ K := by
  have hQi : (0 : Int) < Q := by exact_mod_cast hQ
  have hPi : (P : Int) ≤ (K : Int) * Q := by exact_mod_cast hP
  have hP0 : (0 : Int) ≤ P := by positivity
  have h3 : 2 * (z * (Q : Int) - (P : Int)) ≤ (Q : Int) := by
    have := le_abs_self (z * (Q : Int) - (P : Int)); linarith
  have h4 : -(Q : Int) ≤ 2 * (z * (Q : Int) - (P : Int)) := by
    have := neg_abs_le (z * (Q : Int) - (P : Int)); linarith
  constructor
  · by_contra hneg
    have h5 : z ≤ -1 := by omega
    have h6 : z * (Q : Int) ≤ -1 * Q := mul_le_mul_of_nonneg_right h5 (le_of_lt hQi)
    linarith
  · by_contra hbig
    have h5 : (K : Int) + 1 ≤ z := by omega
    have h6 : ((K : Int) + 1) * Q ≤ z * (Q : Int) := mul_le_mul_of_nonneg_right h5 (le_of_lt hQi)
    linarith

/-- Rounding a positive dyadic number to a double: the result is positive and within a
relative error of `2 ^ (-53)`. -/
theorem F64.ofDyadic_error (z e : Int) (hz : 0 < z)
    (hlow : (2 : ℚ) ^ (-1022 : Int) ≤ (z : ℚ) * (2 : ℚ) ^ e) :
    0 < (F64.ofDyadic z e).m ∧
    |(F64.ofDyadic z e).toRat - (z : ℚ) * (2 : ℚ) ^ e| ≤ (z : ℚ) * (2 : ℚ) ^ e / 2 ^ 53 := by
  have two_pos : ∀ j : Int, (0 : ℚ) < (2 : ℚ) ^ j := fun j => zpow_pos (by norm_num) j
  have hpos : (0 : ℚ) < (z : ℚ) * (2 : ℚ) ^ e := mul_pos (by exact_mod_cast hz) (two_pos _)
  unfold F64.ofDyadic
  split_ifs with h
  · refine ⟨hz, ?_⟩
    rw [F64.toRat_mk, sub_self, abs_zero]
    positivity
  · have hnneg : ¬ z < 0 := by omega
    have hn : 0 < z.natAbs * 2 ^ e.toNat :=
      Nat.mul_pos (Int.natAbs_pos.mpr (by omega)) (pow_pos (by norm_num) _)
    have hd : 0 < 2 ^ (-e).toNat := pow_pos (by norm_num) _
    have hmq : ((z.natAbs : ℕ) : ℚ) = (z : ℚ) := by
      rw [Nat.cast_natAbs, abs_of_pos hz]
    have hq : ((z.natAbs * 2 ^ e.toNat : ℕ) : ℚ) / ((2 ^ (-e).toNat : ℕ) : ℚ)
        = (z : ℚ) * (2 : ℚ) ^ e := by
      rw [two_zpow_eq e, Nat.cast_mul, hmq]
      ring
    have hne : z.natAbs * 2 ^ e.toNat ≠ 0 := Nat.pos_iff_ne_zero.mp hn
    have := roundQuotient_error _ _ hn hd (by rw [hq]; exact hlow)
    rw [hq] at this
    simpa [F64.ofQuotient, hnneg, hne] using this

/-- Adding zero to a positive double. -/
theorem F64.add_zero_error (a : F64) (ha : 0 < a.m)
    (hlow : (2 : ℚ) ^ (-1022 : Int) ≤ a.toRat) :
    0 < (F64.add a ⟨0, 0⟩).m ∧
    |(F64.add a ⟨0, 0⟩).toRat - a.toRat| ≤ a.toRat / 2 ^ 53 := by
  obtain ⟨m, e⟩ := a
  simp only at ha
  have hk : 0 ≤ e - min e 0 := by omega
  have hval : ((m * 2 ^ (e - min e 0).toNat + 0 * 2 ^ ((0 : Int) - min e 0).toNat : Int) : ℚ)
      * (2 : ℚ) ^ (min e 0) = F64.toRat ⟨m, e⟩ := by
    rw [F64.toRat_mk]
    push_cast
    rw [zero_mul, add_zero, mul_assoc, ← zpow_natCast, Int.toNat_of_nonneg hk,
      ← zpow_add₀ (by norm_num : (2 : ℚ) ≠ 0)]
    congr 2
    omega
  have hzpos : 0 < m * 2 ^ (e - min e 0).toNat + 0 * 2 ^ ((0 : Int) - min e 0).toNat := by
    have : (0 : Int) < 2 ^ (e - min e 0).toNat := pow_pos (by norm_num) _
    have := Int.mul_pos ha this
    omega
  have := F64.ofDyadic_error _ (min e 0) hzpos (by rw [hval]; exact hlow)
  rw [hval] at this
  exact this

/-- All keys right: the accuracy is 100. -/
theorem accuracy_all_correct (c : Nat) (hc : 0 < c) : accuracy c 0 = 100 := by
  have hcq : (1 : ℚ) ≤ c := by exact_mod_cast hc
  have h1022 : ∀ q : ℚ, (1 : ℚ) / 2 ≤ q → (2 : ℚ) ^ (-1022 : Int) ≤ q := fun q hq =>
    two_zpow_neg_1022_le q 1 (by norm_num) (by simpa using hq)
  -- the counter as a double
  obtain ⟨hX, heX⟩ := F64.ofDyadic_error (c : Int) 0 (by exact_mod_cast hc)
    (by rw [zpow_zero, mul_one]; apply h1022; push_cast; linarith)
  rw [zpow_zero, mul_one] at heX
  have hXdef : F64.ofNat c = F64.ofDyadic (c : Int) 0 := rfl
  rw [← hXdef] at hX heX
  set X := F64.ofNat c with hXs
  obtain ⟨hX1, hX2⟩ := rel_bounds _ _ heX
  push_cast at hX1 hX2
  have hXlow : (1 : ℚ) / 2 ≤ X.toRat := by
    have : (1 : ℚ) * (1 - 1 / 2 ^ 53) ≤ (c : ℚ) * (1 - 1 / 2 ^ 53) :=
      mul_le_mul_of_nonneg_right hcq (by norm_num)
    have h2 : (1 : ℚ) / 2 ≤ 1 * (1 - 1 / 2 ^ 53) := by norm_num
    linarith
  have hXpos : (0 : ℚ) < X.toRat := by linarith
  -- the total
  have h0 : F64.ofNat 0 = ⟨0, 0⟩ := by decide
  obtain ⟨hT, heT⟩ := F64.add_zero_error X hX (h1022 _ hXlow)
  set T := F64.add X ⟨0, 0⟩ with hTs
  obtain ⟨hT1, hT2⟩ := rel_bounds _ _ heT
  have hTpos : (0 : ℚ) < T.toRat := by
    have : (0 : ℚ) < X.toRat * (1 - 1 / 2 ^ 53) := mul_pos hXpos (by norm_num)
    linarith
  -- the quotient
  have hq1 : 1 / (1 + 1 / 2 ^ 53) ≤ X.toRat / T.toRat := by
    rw [div_le_div_iff₀ (by norm_num) hTpos]; linarith
  have hq2 : X.toRat / T.toRat ≤ 1 / (1 - 1 / 2 ^ 53) := by
    rw [div_le_div_iff₀ hTpos (by norm_num)]; linarith
  have hq1' : (1 : ℚ) / 2 ≤ 1 / (1 + 1 / 2 ^ 53) := by norm_num
  obtain ⟨hD, heD⟩ := F64.div_error X T hX hT (h1022 _ (le_trans hq1' hq1))
  set D := F64.div X T with hDs
  obtain ⟨hD1, hD2⟩ := rel_bounds _ _ heD
  have hDlo : (1 : ℚ) - 3 / 2 ^ 53 ≤ D.toRat := by
    have h3 : (1 : ℚ) - 3 / 2 ^ 53 ≤ 1 / (1 + 1 / 2 ^ 53) * (1 - 1 / 2 ^ 53) := by norm_num
    have h4 : 1 / (1 + 1 / 2 ^ 53) * (1 - 1 / 2 ^ 53)
        ≤ X.toRat / T.toRat * (1 - 1 / 2 ^ 53) :=
      mul_le_mul_of_nonneg_right hq1 (by norm_num)
    linarith
  have hDhi : D.toRat ≤ 1 + 3 / 2 ^ 53 := by
    have h3 : 1 / (1 - 1 / 2 ^ 53) * (1 + 1 / 2 ^ 53) ≤ (1 : ℚ) + 3 / 2 ^ 53 := by norm_num
    have h4 : X.toRat / T.toRat * (1 + 1 / 2 ^ 53)
        ≤ 1 / (1 - 1 / 2 ^ 53) * (1 + 1 / 2 ^ 53) :=
      mul_le_mul_of_nonneg_right hq2 (by norm_num)
    linarith
  -- the product with 100
  have h100 : F64.ofNat 100 = ⟨((100 : ℕ) : Int), 0⟩ := F64.ofNat_of_lt 100 (by norm_num)
  obtain ⟨hV, heV⟩ := F64.mul_error D ⟨((100 : ℕ) : Int), 0⟩ hD (by norm_num)
    (by
      rw [F64.toRat_natCast]
      apply h1022
      push_cast
      have : (1 : ℚ) - 3 / 2 ^ 53 ≥ 1 / 2 := by norm_num
      nlinarith)
  rw [F64.toRat_natCast] at heV
  set V := (F64.mul D ⟨((100 : ℕ) : Int), 0⟩).toRat with hVs
  obtain ⟨hV1, hV2⟩ := rel_bounds _ _ heV
  push_cast at hV1 hV2
  have hpos : F64.isPositive T = true := by
    simp only [F64.isPositive, decide_eq_true_eq]; exact hT
  have hacc : accuracy c 0 = ⌊V + 1 / 2⌋ := by
    simp only [accuracy, ← hXs, h0, ← hTs, hpos, if_true, ← hDs, h100, F64.round_eq_floor, hVs]
  rw [hacc, Int.floor_eq_iff]
  have hu : (0 : ℚ) < 1 - 1 / 2 ^ 53 := by norm_num
  have hVlo : (1 - 3 / 2 ^ 53) * 100 * (1 - 1 / 2 ^ 53) ≤ V := by
    have : (1 - 3 / 2 ^ 53) * 100 * (1 - 1 / 2 ^ 53) ≤ D.toRat * 100 * (1 - 1 / 2 ^ 53) := by
      apply mul_le_mul_of_nonneg_right _ (le_of_lt hu)
      linarith
    linarith
  have hVhi : V ≤ (1 + 3 / 2 ^ 53) * 100 * (1 + 1 / 2 ^ 53) := by
    have : D.toRat * 100 * (1 + 1 / 2 ^ 53) ≤ (1 + 3 / 2 ^ 53) * 100 * (1 + 1 / 2 ^ 53) := by
      apply mul_le_mul_of_nonneg_right _ (by norm_num)
      linarith
    linarith
  have hk1 : (199 : ℚ) / 2 ≤ (1 - 3 / 2 ^ 53) * 100 * (1 - 1 / 2 ^ 53) := by norm_num
  have hk2 : (1 + 3 / 2 ^ 53) * 100 * (1 + 1 / 2 ^ 53) < (201 : ℚ) / 2 := by norm_num
  push_cast
  constructor <;> linarith

/-! ## Character keystrokes -/

theorem keySpace_eq : keySpace = [32] := by decide

theorem UI.updateCaretPosition_letterStatus (ui : UI) (i j : Nat) :
    (ui.updateCaretPosition i j).letterStatus = ui.letterStatus := rfl

/-- The character branch on a defined word: the letter index advances by one; a key equal to
the expected letter adds one to `correctChars` and marks the letter correct; any other key
adds one to `incorrectChars`, marks the letter incorrect and calls `recordError`. -/
theorem handleCharacter_some (s : State) (w key : JSString) (now : Nat) :
    (handleCharacter s (some w) key now).2 = Completion.normal ∧
    (handleCharacter s (some w) key now).1.currentLetterIndex = s.currentLetterIndex + 1 ∧
    (some key = (w[s.currentLetterIndex]?).map (fun u => [u]) →
      (handleCharacter s (some w) key now).1.correctChars = s.correctChars + 1 ∧
      (handleCharacter s (some w) key now).1.incorrectChars = s.incorrectChars ∧
      (handleCharacter s (some w) key now).1.spellingErrors = s.spellingErrors ∧
      (handleCharacter s (some w) key now).1.ui.letterStatus =
        (s.ui.updateLetterStatus s.currentWordIndex s.currentLetterIndex
          LetterStatus.correct).letterStatus) ∧
    (some key ≠ (w[s.currentLetterIndex]?).map (fun u => [u]) →
      (handleCharacter s (some w) key now).1.correctChars = s.correctChars ∧
      (handleCharacter s (some w) key now).1.incorrectChars = s.incorrectChars + 1 ∧
      (handleCharacter s (some w) key now).1.spellingErrors =
        recordError s.spellingErrors w ((w[s.currentLetterIndex]?).map (fun u => [u])) key
          s.currentLetterIndex now ∧
      (handleCharacter s (some w) key now).1.ui.letterStatus =
        (s.ui.updateLetterStatus s.currentWordIndex s.currentLetterIndex
          LetterStatus.incorrect).letterStatus) := by
  unfold handleCharacter
  simp only []
  refine ⟨trivial, ?_, ?_, ?_⟩
  · split_ifs <;> rfl
  · intro h
    rw [if_pos h]
    refine ⟨?_, ?_, ?_, ?_⟩ <;> split_ifs <;> rfl
  · intro h
    rw [if_neg h]
    refine ⟨?_, ?_, ?_, ?_⟩ <;> split_ifs <;> rfl

/-- With a current word, `handleKeyDown` on a character key runs the timer start, the
character branch and the closing statements, and returns normally. -/
theorem handleKeyDown_character (s : State) (ev : KeyEvent) (w : JSString)
    (hc : isCharacterKey ev = true) (hw : s.words[s.currentWordIndex]? = some w) :
    handleKeyDown s ev =
      (finishKey (handleCharacter (startOnFirstKey s ev) (some w) ev.key ev.time).1
        ev.key ev.time, Completion.normal) := by
  obtain ⟨hh, hlen, hsp, hbs⟩ := isCharacterKey_handled ev hc
  have hact := startOnFirstKey_active s ev (words_ne_nil_of_getElem? s w hw) hbs
  simp only [handleKeyDown, hh, hact, hlen, hw, if_true]
  simp [(handleCharacter_some (startOnFirstKey s ev) w ev.key ev.time).1, hsp]

/-- The state after a character key that equals the expected letter. -/
theorem handleKeyDown_correct_key (s : State) (ev : KeyEvent) (w : JSString) (u : Nat)
    (hw : s.words[s.currentWordIndex]? = some w) (hu : w[s.currentLetterIndex]? = some u)
    (hkey : ev.key = [u]) (hsp : u ≠ 32) (hctrl : ev.ctrlKey = false)
    (hmeta : ev.metaKey = false) :
    (handleKeyDown s ev).1.words = s.words ∧
    (handleKeyDown s ev).1.currentWordIndex = s.currentWordIndex ∧
    (handleKeyDown s ev).1.currentLetterIndex = s.currentLetterIndex + 1 ∧
    (handleKeyDown s ev).1.correctChars = s.correctChars + 1 ∧
    (handleKeyDown s ev).1.incorrectChars = s.incorrectChars ∧
    (handleKeyDown s ev).1.spellingErrors = s.spellingErrors ∧
    (handleKeyDown s ev).1.gameActive = true := by
  have hc : isCharacterKey ev = true := by
    simp [isCharacterKey, hkey, hctrl, hmeta, keySpace_eq, hsp]
  obtain ⟨-, -, -, hbs⟩ := isCharacterKey_handled ev hc
  have hact := startOnFirstKey_active s ev (words_ne_nil_of_getElem? s w hw) hbs
  have hidx := index_lt_of_getElem? s w hw
  obtain ⟨-, h2, h3, -⟩ := handleCharacter_some (startOnFirstKey s ev) w ev.key ev.time
  rw [startOnFirstKey_currentLetterIndex] at h2 h3
  obtain ⟨h4, h5, h6, -⟩ := h3 (by rw [hu, hkey]; rfl)
  rw [handleKeyDown_character s ev w hc hw]
  simp [h2, h4, h5, h6, hact, Nat.not_le.mpr hidx]

/-- A space at or past the end of a non-empty current word: to the next word when there is
one, and otherwise the end of the session; counters and error log stay. -/
theorem handleKeyDown_space_at_end (s : State) (ev : KeyEvent) (w : JSString)
    (hkey : ev.key = keySpace) (hw : s.words[s.currentWordIndex]? = some w) (hwne : w ≠ [])
    (hl : w.length ≤ s.currentLetterIndex) :
    (handleKeyDown s ev).1.words = s.words ∧
    (handleKeyDown s ev).1.correctChars = s.correctChars ∧
    (handleKeyDown s ev).1.incorrectChars = s.incorrectChars ∧
    (handleKeyDown s ev).1.spellingErrors = s.spellingErrors ∧
    (s.currentWordIndex + 1 < s.words.length →
      (handleKeyDown s ev).1.currentWordIndex = s.currentWordIndex + 1 ∧
      (handleKeyDown s ev).1.currentLetterIndex = 0 ∧
      (handleKeyDown s ev).1.gameActive = true) ∧
    (s.words.length ≤ s.currentWordIndex + 1 →
      (handleKeyDown s ev).1.currentWordIndex = s.currentWordIndex ∧
      (handleKeyDown s ev).1.currentLetterIndex = s.currentLetterIndex ∧
      (handleKeyDown s ev).1.gameActive = false) := by
  have hidx := index_lt_of_getElem? s w hw
  have hne := words_ne_nil_of_getElem? s w hw
  have hkb : ev.key ≠ keyBackspace := by rw [hkey]; exact keySpace_ne_keyBackspace
  have hact := startOnFirstKey_active s ev hne hkb
  rw [handleKeyDown_space s ev w hkey hw, handleControl_space]
  simp only [startOnFirstKey_currentLetterIndex]
  rw [if_pos ⟨hwne, hl⟩]
  refine ⟨by simp, by simp, by simp, by simp, ?_, ?_⟩
  · intro h
    have h2 : s.currentWordIndex < s.words.length - 1 := by omega
    have h3 : ¬ s.words.length ≤ s.currentWordIndex + 1 := by omega
    simp [h2, h3, hact]
  · intro h
    have h2 : ¬ s.currentWordIndex < s.words.length - 1 := by omega
    simp [h2]

/-! ## C5: a faultless run -/

/-- Typing the remaining letters of the current word, each key the expected letter. -/
theorem run_type_word (w : JSString) (hsp : 32 ∉ w) :
    ∀ (evs : List KeyEvent) (s : State), s.words[s.currentWordIndex]? = some w →
      evs.map (fun ev => ev.key) = (w.drop s.currentLetterIndex).map (fun u => [u]) →
      (∀ ev ∈ evs, ev.ctrlKey = false ∧ ev.metaKey = false) →
      (run s evs).words = s.words ∧
      (run s evs).currentWordIndex = s.currentWordIndex ∧
      (run s evs).currentLetterIndex = s.currentLetterIndex + evs.length ∧
      (run s evs).correctChars = s.correctChars + evs.length ∧
      (run s evs).incorrectChars = s.incorrectChars ∧
      (run s evs).spellingErrors = s.spellingErrors ∧
      (evs ≠ [] → (run s evs).gameActive = true) := by
  intro evs
  induction evs with
  | nil => intro s _ _ _; simp [run_nil]
  | cons ev rest ih =>
    intro s hw hkeys hmods
    have hlt : s.currentLetterIndex < w.length := by
      by_contra hge
      rw [List.drop_eq_nil_of_le (Nat.le_of_not_lt hge)] at hkeys
      simp at hkeys
    rw [List.drop_eq_getElem_cons hlt, List.map_cons, List.map_cons] at hkeys
    obtain ⟨hk, hrest⟩ := List.cons.inj hkeys
    have hu : w[s.currentLetterIndex]? = some w[s.currentLetterIndex] :=
      List.getElem?_eq_getElem hlt
    have hne32 : w[s.currentLetterIndex] ≠ 32 := fun h =>
      hsp (h ▸ List.getElem_mem hlt)
    obtain ⟨hctrl, hmeta⟩ := hmods ev (List.mem_cons_self _ _)
    obtain ⟨a1, a2, a3, a4, a5, a6, a7⟩ :=
      handleKeyDown_correct_key s ev w _ hw hu hk hne32 hctrl hmeta
    have hw1 : (handleKeyDown s ev).1.words[(handleKeyDown s ev).1.currentWordIndex]?
        = some w := by rw [a1, a2]; exact hw
    obtain ⟨b1, b2, b3, b4, b5, b6, b7⟩ := ih (handleKeyDown s ev).1 hw1
      (by rw [a3]; exact hrest) (fun e he => hmods e (List.mem_cons_of_mem _ he))
    rw [run_cons]
    refine ⟨by rw [b1, a1], by rw [b2, a2], ?_, ?_, by rw [b5, a5], by rw [b6, a6], ?_⟩
    · rw [b3, a3, List.length_cons]; omega
    · rw [b4, a4, List.length_cons]; omega
    · intro _
      cases rest with
      | nil => rw [run_nil]; exact a7
      | cons e r => exact b7 (List.cons_ne_nil _ _)

theorem run_append (s : State) (e1 e2 : List KeyEvent) :
    run s (e1 ++ e2) = run (run s e1) e2 := by
  simp [run, List.foldl_append]

/-- A faultless run from the start of a word to the end of the list. -/
theorem run_perfect :
    ∀ (rest : List JSString) (w : JSString) (evs : List KeyEvent) (s : State),
      s.words.drop s.currentWordIndex = w :: rest → s.currentLetterIndex = 0 →
      (∀ v ∈ w :: rest, v ≠ [] ∧ 32 ∉ v) →
      evs.map (fun ev => ev.key) = perfectKeys (w :: rest) →
      (∀ ev ∈ evs, ev.ctrlKey = false ∧ ev.metaKey = false) →
      (run s evs).words = s.words ∧
      (run s evs).currentWordIndex + 1 = s.words.length ∧
      (∃ wl, (run s evs).words[(run s evs).currentWordIndex]? = some wl ∧ wl ≠ [] ∧
        (run s evs).currentLetterIndex = wl.length) ∧
      (run s evs).correctChars = s.correctChars + totalLetters (w :: rest) ∧
      (run s evs).incorrectChars = s.incorrectChars ∧
      (run s evs).spellingErrors = s.spellingErrors ∧
      (run s evs).gameActive = true := by
  intro rest
  induction rest with
  | nil =>
    intro w evs s hdrop hli hgood hkeys hmods
    have hw : s.words[s.currentWordIndex]? = some w := by
      have := List.getElem?_drop s.words s.currentWordIndex 0
      rw [hdrop] at this; simpa using this.symm
    have hlen : s.words.length = s.currentWordIndex + 1 := by
      have := congrArg List.length hdrop
      have hidx := index_lt_of_getElem? s w hw
      simp only [List.length_drop, List.length_singleton] at this; omega
    obtain ⟨hwne, hsp⟩ := hgood w (List.mem_cons_self _ _)
    have hkeys2 : evs.map (fun ev => ev.key)
        = (w.drop s.currentLetterIndex).map (fun u => [u]) := by
      rw [hli, List.drop_zero]; exact hkeys
    have hel : evs.length = w.length := by
      have := congrArg List.length hkeys
      simpa [perfectKeys] using this
    obtain ⟨b1, b2, b3, b4, b5, b6, b7⟩ := run_type_word w hsp evs s hw hkeys2 hmods
    refine ⟨b1, by rw [b2, hlen], ⟨w, by rw [b1, b2]; exact hw, hwne, by rw [b3, hli, hel]; simp⟩,
      by rw [b4, hel]; simp [totalLetters], b5, b6, ?_⟩
    apply b7
    intro h0
    rw [h0] at hel
    exact hwne (List.length_eq_zero.mp hel.symm)
  | cons w2 rest ih =>
    intro w evs s hdrop hli hgood hkeys hmods
    have hw : s.words[s.currentWordIndex]? = some w := by
      have := List.getElem?_drop s.words s.currentWordIndex 0
      rw [hdrop] at this; simpa using this.symm
    have hidx := index_lt_of_getElem? s w hw
    have hlen : s.currentWordIndex + 1 < s.words.length := by
      have := congrArg List.length hdrop
      simp only [List.length_drop, List.length_cons] at this; omega
    obtain ⟨hwne, hsp⟩ := hgood w (List.mem_cons_self _ _)
    rw [perfectKeys, List.map_eq_append_iff] at hkeys
    obtain ⟨e1, e23, rfl, hk1, hk23⟩ := hkeys
    rw [List.map_eq_cons_iff] at hk23
    obtain ⟨sp, e2, rfl, hsk, hk2⟩ := hk23
    have hkeys1 : e1.map (fun ev => ev.key)
        = (w.drop s.currentLetterIndex).map (fun u => [u]) := by
      rw [hli, List.drop_zero]; exact hk1
    have hel : e1.length = w.length := by
      have := congrArg List.length hk1
      simpa using this
    obtain ⟨b1, b2, b3, b4, b5, b6, -⟩ := run_type_word w hsp e1 s hw hkeys1
      (fun e he => hmods e (List.mem_append_left _ he))
    have hw1 : (run s e1).words[(run s e1).currentWordIndex]? = some w := by
      rw [b1, b2]; exact hw
    obtain ⟨c1, c2, c3, c4, c5, -⟩ := handleKeyDown_space_at_end (run s e1) sp w hsk hw1 hwne
      (by rw [b3, hli, hel]; simp)
    obtain ⟨c6, c7, -⟩ := c5 (by rw [b1, b2]; exact hlen)
    have hdrop2 : (handleKeyDown (run s e1) sp).1.words.drop
        (handleKeyDown (run s e1) sp).1.currentWordIndex = w2 :: rest := by
      rw [c1, b1, c6, b2, ← List.tail_drop, hdrop]; rfl
    obtain ⟨d1, d2, d3, d4, d5, d6, d7⟩ := ih w2 e2 (handleKeyDown (run s e1) sp).1 hdrop2 c7
      (fun v hv => hgood v (List.mem_cons_of_mem _ hv)) hk2
      (fun e he => hmods e (List.mem_append_right _ (List.mem_cons_of_mem _ he)))
    rw [run_append, run_cons]
    refine ⟨by rw [d1, c1, b1], by rw [d2, c1, b1], ?_, ?_, by rw [d5, c3, b5],
      by rw [d6, c4, b6], d7⟩
    · obtain ⟨wl, hwl⟩ := d3
      exact ⟨wl, hwl⟩
    · rw [d4, c2, b4, hel]
      simp only [totalLetters, List.map_cons, List.sum_cons]; omega

/-- C5 (amended). For every non-empty list of non-empty, space-free words, starting from the
freshly loaded state and typing each letter exactly, one space between consecutive words and
nothing after the last letter of the last word, leaves the session still active (the last word awaits its space), the cursor at the end of the last
word, `correctChars` the total number of letters, `incorrectChars = 0`, the error log
untouched and the accuracy 100; one further space then finishes the session, with the same
counters. -/
theorem C5_faultless_run (s0 : State) (ws : List JSString) (evs : List KeyEvent)
    (hne : ws ≠ []) (hgood : ∀ w ∈ ws, w ≠ [] ∧ 32 ∉ w)
    (hkeys : evs.map (fun ev => ev.key) = perfectKeys ws)
    (hmods : ∀ ev ∈ evs, ev.ctrlKey = false ∧ ev.metaKey = false) :
    (run (initializeApp s0 (Except.ok ws)) evs).gameActive = true ∧
    (run (initializeApp s0 (Except.ok ws)) evs).currentWordIndex + 1 = ws.length ∧
    (run (initializeApp s0 (Except.ok ws)) evs).correctChars = totalLetters ws ∧
    (run (initializeApp s0 (Except.ok ws)) evs).incorrectChars = 0 ∧
    (run (initializeApp s0 (Except.ok ws)) evs).spellingErrors = s0.spellingErrors ∧
    accuracy (run (initializeApp s0 (Except.ok ws)) evs).correctChars
      (run (initializeApp s0 (Except.ok ws)) evs).incorrectChars = 100 ∧
    ∀ sp : KeyEvent, sp.key = keySpace →
      (handleKeyDown (run (initializeApp s0 (Except.ok ws)) evs) sp).1.gameActive = false ∧
      (handleKeyDown (run (initializeApp s0 (Except.ok ws)) evs) sp).1.correctChars
        = totalLetters ws ∧
      (handleKeyDown (run (initializeApp s0 (Except.ok ws)) evs) sp).1.incorrectChars = 0 := by
  obtain ⟨i1, i2, i3, i4, i5, -, -, i8, -⟩ := initializeApp_ok s0 ws hne
  obtain ⟨w, rest, rfl⟩ := List.exists_cons_of_ne_nil hne
  obtain ⟨r1, r2, ⟨wl, r3, r4, r5⟩, r6, r7, r8, r9⟩ := run_perfect rest w evs
    (initializeApp s0 (Except.ok (w :: rest))) (by rw [i1, i2]; rfl) i3
    hgood hkeys hmods
  rw [i4, Nat.zero_add] at r6
  rw [i5] at r7
  have hpos : 0 < totalLetters (w :: rest) := by
    have := (hgood w (List.mem_cons_self _ _)).1
    have : 0 < w.length := List.length_pos.mpr this
    simp only [totalLetters, List.map_cons, List.sum_cons]; omega
  refine ⟨r9, by rw [r2, i1], r6, r7, by rw [r8, i8], ?_, ?_⟩
  · rw [r6, r7]; exact accuracy_all_correct _ hpos
  · intro sp hsp
    obtain ⟨-, c2, c3, -, -, c6⟩ := handleKeyDown_space_at_end _ sp wl hsp r3 r4
      (by rw [r5])
    obtain ⟨-, -, c9⟩ := c6 (by rw [r1, r2])
    exact ⟨c9, by rw [c2, r6], by rw [c3, r7]⟩

/-- Witness of C5: the words "cat", "dog" and the keys c, a, t, space, d, o, g. -/
theorem C5_faultless_run_witness :
    [utf16 "cat", utf16 "dog"] ≠ [] ∧
    (run (initializeApp moduleState (Except.ok [utf16 "cat", utf16 "dog"]))
      [press "c" 10, press "a" 20, press "t" 30, press " " 40, press "d" 50, press "o" 60,
        press "g" 70]).gameActive = true ∧
    (run (initializeApp moduleState (Except.ok [utf16 "cat", utf16 "dog"]))
      [press "c" 10, press "a" 20, press "t" 30, press " " 40, press "d" 50, press "o" 60,
        press "g" 70]).correctChars = 6 :=
  ⟨by decide,
    (C5_faultless_run moduleState [utf16 "cat", utf16 "dog"]
      [press "c" 10, press "a" 20, press "t" 30, press " " 40, press "d" 50, press "o" 60,
        press "g" 70] (by decide) (by decide) (by decide) (by decide)).1,
    ((C5_faultless_run moduleState [utf16 "cat", utf16 "dog"]
      [press "c" 10, press "a" 20, press "t" 30, press " " 40, press "d" 50, press "o" 60,
        press "g" 70] (by decide) (by decide) (by decide) (by decide)).2.2.1).trans
      (by decide)⟩

/-- C5 as stated fails: after the keys c, a, t, space, d, o, g on the words "cat", "dog" the
counters are 6 and 0 and the accuracy is 100, but the session is not finished: `gameActive` is
still true, no timer has been cleared and the input is not disabled. -/
theorem C5_counterexample :
    (run (loaded [utf16 "cat", utf16 "dog"])
      [press "c" 10, press "a" 20, press "t" 30, press " " 40, press "d" 50, press "o" 60,
        press "g" 70]).gameActive = true ∧
    (run (loaded [utf16 "cat", utf16 "dog"])
      [press "c" 10, press "a" 20, press "t" 30, press " " 40, press "d" 50, press "o" 60,
        press "g" 70]).liveTimers = [1] ∧
    (run (loaded [utf16 "cat", utf16 "dog"])
      [press "c" 10, press "a" 20, press "t" 30, press " " 40, press "d" 50, press "o" 60,
        press "g" 70]).ui.keyboardInputDisabled = false ∧
    (run (loaded [utf16 "cat", utf16 "dog"])
      [press "c" 10, press "a" 20, press "t" 30, press " " 40, press "d" 50, press "o" 60,
        press "g" 70]).correctChars = 6 ∧
    (run (loaded [utf16 "cat", utf16 "dog"])
      [press "c" 10, press "a" 20, press "t" 30, press " " 40, press "d" 50, press "o" 60,
        press "g" 70]).incorrectChars = 0 := by
  decide

/-! ## C7: the error log -/

theorem ErrorEntry.record_count (entry : ErrorEntry) (d : ErrorDetail) :
    (entry.record d).count = entry.count + 1 := rfl

theorem ErrorEntry.record_details (entry : ErrorEntry) (d : ErrorDetail)
    (hcap : entry.details.length ≤ 5) :
    (entry.record d).details = entry.details.drop (entry.details.length - 4) ++ [d] ∧
    (entry.record d).details.length = min (entry.details.length + 1) 5 := by
  simp only [ErrorEntry.record, List.length_append, List.length_singleton]
  by_cases h : 5 < entry.details.length + 1
  · have h5 : entry.details.length = 5 := by omega
    rw [if_pos h]
    have hne : entry.details ≠ [] := by
      intro h0; rw [h0] at h5; simp at h5
    obtain ⟨a, l, hal⟩ := List.exists_cons_of_ne_nil hne
    rw [hal] at h5 ⊢
    simp only [List.length_cons] at h5
    simp [h5]
  · rw [if_neg h]
    have h4 : entry.details.length - 4 = 0 := by omega
    rw [h4]
    simp only [List.drop_zero, List.length_append, List.length_singleton, true_and]
    omega

/-- What `recordError` writes for a word that has an entry of its own in the stored map, or
whose name is not inherited from `Object.prototype`: the count grows by one, the new detail
is appended, only the five most recent details are kept in their order, and the entries of
the other words are untouched. -/
theorem recordError_recorded (errors : ErrorMap) (word : JSString)
    (expected : Option JSString) (typed : JSString) (position time : Nat)
    (hname : errors word ≠ none ∨ word ∉ objectPrototypeKeys)
    (hcap : ((errors word).getD ⟨0, []⟩).details.length ≤ 5) :
    ∃ entry, recordError errors word expected typed position time word = some entry ∧
      entry.count = ((errors word).getD ⟨0, []⟩).count + 1 ∧
      entry.details.length = min (((errors word).getD ⟨0, []⟩).details.length + 1) 5 ∧
      entry.details =
        ((errors word).getD ⟨0, []⟩).details.drop
            (((errors word).getD ⟨0, []⟩).details.length - 4)
          ++ [⟨expected, typed, position, time⟩] ∧
      ∀ other, other ≠ word →
        recordError errors word expected typed position time other = errors other := by
  unfold recordError
  cases hw : errors word with
  | some prev =>
    rw [hw] at hcap
    simp only [Option.getD_some] at hcap ⊢
    obtain ⟨h1, h2⟩ := ErrorEntry.record_details prev ⟨expected, typed, position, time⟩ hcap
    refine ⟨_, Function.update_same _ _ _, ErrorEntry.record_count _ _, h2, h1, ?_⟩
    intro other ho
    exact Function.update_noteq ho _ _
  | none =>
    have hk : word ∉ objectPrototypeKeys := by
      rcases hname with h | h
      · exact absurd hw h
      · exact h
    simp only [hk, if_false, Option.getD_none]
    obtain ⟨h1, h2⟩ := ErrorEntry.record_details ⟨0, []⟩ ⟨expected, typed, position, time⟩
      (by simp)
    refine ⟨_, Function.update_same _ _ _, ErrorEntry.record_count _ _, h2, h1, ?_⟩
    intro other ho
    exact Function.update_noteq ho _ _

/-- Six mismatches in a row on the word "cat": the count is 6, five details are kept and the
first one is gone. -/
theorem recordError_six_times :
    (recordError (recordError (recordError (recordError (recordError (recordError emptyErrors
      (utf16 "cat") (some (utf16 "c")) (utf16 "1") 0 10)
      (utf16 "cat") (some (utf16 "c")) (utf16 "2") 0 20)
      (utf16 "cat") (some (utf16 "c")) (utf16 "3") 0 30)
      (utf16 "cat") (some (utf16 "c")) (utf16 "4") 0 40)
      (utf16 "cat") (some (utf16 "c")) (utf16 "5") 0 50)
      (utf16 "cat") (some (utf16 "c")) (utf16 "6") 0 60) (utf16 "cat")
    = some ⟨6, [⟨some (utf16 "c"), utf16 "2", 0, 20⟩, ⟨some (utf16 "c"), utf16 "3", 0, 30⟩,
        ⟨some (utf16 "c"), utf16 "4", 0, 40⟩, ⟨some (utf16 "c"), utf16 "5", 0, 50⟩,
        ⟨some (utf16 "c"), utf16 "6", 0, 60⟩]⟩ := by
  decide

/-- C7 fails for a word named like a member of `Object.prototype`.  On the empty stored map,
`recordError("constructor", "o", "x", 1)` finds the inherited `errors["constructor"]` (the
function `Object`), skips the creation of the entry, and the `push` on its missing `details`
throws inside the `try`: the store has no entry for the word afterwards, where the claim has
one detail and count 1. -/
theorem C7_recordError_inherited_name :
    utf16 "constructor" ∈ objectPrototypeKeys ∧
    emptyErrors (utf16 "constructor") = none ∧
    recordError emptyErrors (utf16 "constructor") (some (utf16 "o")) (utf16 "x") 1 100
      (utf16 "constructor") = none := by
  decide

/-! ## C6: a character key on a letter of the current word -/

theorem finishKey_ui_letterStatus (s : State) (key : JSString) (now : Nat) :
    (finishKey s key now).ui.letterStatus = s.ui.letterStatus := by
  simp only [finishKey, endGame, calculateAndUpdateStats]
  split_ifs <;> simp [UI.updateStats, UI.showFeedbackMessage]

theorem startOnFirstKey_ui_letterStatus (s : State) (ev : KeyEvent) :
    (startOnFirstKey s ev).ui.letterStatus = s.ui.letterStatus ∧
    (startOnFirstKey s ev).ui.displayed = s.ui.displayed := by
  simp only [startOnFirstKey, startGame, calculateAndUpdateStats]
  split_ifs <;> simp [UI.updateStats]

/-- What a character key does on a letter of the current word, in an active session whose
words are the ones on the page: a key equal to the letter adds one to `correctChars` and
marks the letter correct, leaving `incorrectChars` and the error log; any other key adds one
to `incorrectChars`, marks the letter incorrect, leaves `correctChars`, and hands the word,
the expected letter, the key and the position to `recordError`. -/
theorem handleKeyDown_character_on_letter (s : State) (ev : KeyEvent) (w : JSString) (u : Nat)
    (hactive : s.gameActive = true) (hc : isCharacterKey ev = true)
    (hw : s.words[s.currentWordIndex]? = some w) (hu : w[s.currentLetterIndex]? = some u)
    (hpage : s.ui.displayed = s.words) :
    (handleKeyDown s ev).2 = Completion.normal ∧
    (handleKeyDown s ev).1.currentLetterIndex = s.currentLetterIndex + 1 ∧
    (ev.key = [u] →
      (handleKeyDown s ev).1.correctChars = s.correctChars + 1 ∧
      (handleKeyDown s ev).1.incorrectChars = s.incorrectChars ∧
      (handleKeyDown s ev).1.spellingErrors = s.spellingErrors ∧
      (handleKeyDown s ev).1.ui.letterStatus s.currentWordIndex s.currentLetterIndex
        = LetterStatus.correct) ∧
    (ev.key ≠ [u] →
      (handleKeyDown s ev).1.correctChars = s.correctChars ∧
      (handleKeyDown s ev).1.incorrectChars = s.incorrectChars + 1 ∧
      (handleKeyDown s ev).1.spellingErrors =
        recordError s.spellingErrors w (some [u]) ev.key s.currentLetterIndex ev.time ∧
      (handleKeyDown s ev).1.ui.letterStatus s.currentWordIndex s.currentLetterIndex
        = LetterStatus.incorrect) := by
  have hs : startOnFirstKey s ev = s := startOnFirstKey_of_active s ev hactive
  have hlt : s.currentLetterIndex < w.length := by
    by_contra h
    rw [List.getElem?_eq_none (Nat.le_of_not_lt h)] at hu
    exact Option.noConfusion hu
  have hspan : s.ui.hasLetter s.currentWordIndex s.currentLetterIndex = true := by
    simp [UI.hasLetter, hpage, hw, hlt]
  obtain ⟨-, h2, h3, h4⟩ := handleCharacter_some s w ev.key ev.time
  rw [handleKeyDown_character s ev w hc hw, hs]
  rw [hu] at h3 h4
  refine ⟨rfl, by simp [h2], ?_, ?_⟩
  · intro hk
    obtain ⟨a1, a2, a3, a4⟩ := h3 (by rw [hk]; rfl)
    refine ⟨by simp [a1], by simp [a2], by simp [a3], ?_⟩
    simp only [finishKey_ui_letterStatus, a4, UI.updateLetterStatus, hspan, if_true]
    simp
  · intro hk
    obtain ⟨a1, a2, a3, a4⟩ := h4 (by
      intro h
      simp only [Option.map_some', Option.some.injEq] at h
      exact hk h)
    refine ⟨by simp [a1], by simp [a2], by simpa using a3, ?_⟩
    simp only [finishKey_ui_letterStatus, a4, UI.updateLetterStatus, hspan, if_true]
    simp

/-- The newest detail is the last one of the entry `recordError` writes, and the count has
grown by one, whatever the length of the stored list. -/
theorem recordError_newest (errors : ErrorMap) (word : JSString)
    (expected : Option JSString) (typed : JSString) (position time : Nat)
    (hname : errors word ≠ none ∨ word ∉ objectPrototypeKeys) :
    ∃ entry, recordError errors word expected typed position time word = some entry ∧
      entry.count = ((errors word).getD ⟨0, []⟩).count + 1 ∧
      entry.details.getLast? = some ⟨expected, typed, position, time⟩ ∧
      ∀ other, other ≠ word →
        recordError errors word expected typed position time other = errors other := by
  have hlast : ∀ (prev : ErrorEntry) (d : ErrorDetail),
      (prev.record d).details.getLast? = some d := by
    intro prev d
    simp only [ErrorEntry.record]
    split_ifs with h
    · cases hp : prev.details with
      | nil => rw [hp] at h; simp at h
      | cons a l =>
        simp only [List.cons_append, List.tail_cons]
        exact List.getLast?_concat l
    · exact List.getLast?_concat _
  unfold recordError
  cases hw : errors word with
  | some prev =>
    simp only [Option.getD_some]
    refine ⟨_, Function.update_same _ _ _, ErrorEntry.record_count _ _, hlast _ _, ?_⟩
    intro other ho
    exact Function.update_noteq ho _ _
  | none =>
    have hk : word ∉ objectPrototypeKeys := by
      rcases hname with h | h
      · exact absurd hw h
      · exact h
    simp only [hk, if_false, Option.getD_none]
    refine ⟨_, Function.update_same _ _ _, ErrorEntry.record_count _ _, hlast _ _, ?_⟩
    intro other ho
    exact Function.update_noteq ho _ _

/-- C6 (amended). In every active session whose words are the ones on the page, with the
cursor on a letter of the current word `w` (`currentLetterIndex = i < length of w`), for every
single non-space character key `k` pressed without Ctrl or Meta: if `k` is the letter
`w[i]`, then `correctChars` grows by 1, `incorrectChars` and the error log are unchanged and
letter `(wordIndex, i)` is marked correct; otherwise `incorrectChars` grows by 1,
`correctChars` is unchanged, the letter is marked incorrect and, for a word that has an entry
of its own in the stored map or is not named like a member of `Object.prototype`, the entry of
`w` has its count increased by 1 and `{expected: w[i], typed: k, position: i}` as its newest
detail, the entries of the other words being untouched. -/
theorem C6_character_key_on_letter (s : State) (ev : KeyEvent) (w : JSString) (u : Nat)
    (hactive : s.gameActive = true) (hc : isCharacterKey ev = true)
    (hw : s.words[s.currentWordIndex]? = some w) (hu : w[s.currentLetterIndex]? = some u)
    (hpage : s.ui.displayed = s.words) :
    (ev.key = [u] →
      (handleKeyDown s ev).1.correctChars = s.correctChars + 1 ∧
      (handleKeyDown s ev).1.incorrectChars = s.incorrectChars ∧
      (handleKeyDown s ev).1.spellingErrors = s.spellingErrors ∧
      (handleKeyDown s ev).1.ui.letterStatus s.currentWordIndex s.currentLetterIndex
        = LetterStatus.correct) ∧
    (ev.key ≠ [u] →
      (handleKeyDown s ev).1.correctChars = s.correctChars ∧
      (handleKeyDown s ev).1.incorrectChars = s.incorrectChars + 1 ∧
      (handleKeyDown s ev).1.ui.letterStatus s.currentWordIndex s.currentLetterIndex
        = LetterStatus.incorrect ∧
      (s.spellingErrors w ≠ none ∨ w ∉ objectPrototypeKeys →
        ∃ entry, (handleKeyDown s ev).1.spellingErrors w = some entry ∧
          entry.count = ((s.spellingErrors w).getD ⟨0, []⟩).count + 1 ∧
          entry.details.getLast? = some ⟨some [u], ev.key, s.currentLetterIndex, ev.time⟩ ∧
          ∀ other, other ≠ w →
            (handleKeyDown s ev).1.spellingErrors other = s.spellingErrors other)) := by
  obtain ⟨-, -, h3, h4⟩ := handleKeyDown_character_on_letter s ev w u hactive hc hw hu hpage
  refine ⟨h3, ?_⟩
  intro hk
  obtain ⟨a1, a2, a3, a4⟩ := h4 hk
  refine ⟨a1, a2, a4, ?_⟩
  intro hname
  rw [a3]
  exact recordError_newest s.spellingErrors w (some [u]) ev.key s.currentLetterIndex ev.time
    hname

/-- Witness of C6: on the word "cat", after the key c, the key x on the letter a. -/
theorem C6_character_key_on_letter_witness :
    (run (loaded [utf16 "cat"]) [press "c" 10]).gameActive = true ∧
    isCharacterKey (press "x" 20) = true ∧
    (handleKeyDown (run (loaded [utf16 "cat"]) [press "c" 10]) (press "x" 20)).1.incorrectChars
      = 1 ∧
    (handleKeyDown (run (loaded [utf16 "cat"]) [press "c" 10]) (press "x" 20)).1.ui.letterStatus
      0 1 = LetterStatus.incorrect :=
  ⟨by decide, by decide,
    (((C6_character_key_on_letter (run (loaded [utf16 "cat"]) [press "c" 10]) (press "x" 20)
      (utf16 "cat") 97 (by decide) (by decide) (by decide) (by decide) (by decide)).2
        (by decide)).2.1).trans (by decide),
    ((C6_character_key_on_letter (run (loaded [utf16 "cat"]) [press "c" 10]) (press "x" 20)
      (utf16 "cat") 97 (by decide) (by decide) (by decide) (by decide) (by decide)).2
        (by decide)).2.2.1⟩

/-- The scenario of the specification: on the word "cat" the keys c, x, t mark letter 1
incorrect and leave the log with one entry for "cat", of count 1 and one detail (expected a,
typed x, position 1). -/
theorem cat_scenario :
    (run (loaded [utf16 "cat"]) [press "c" 10, press "x" 20, press "t" 30]).ui.letterStatus 0 1
      = LetterStatus.incorrect ∧
    (run (loaded [utf16 "cat"]) [press "c" 10, press "x" 20, press "t" 30]).correctChars = 2 ∧
    (run (loaded [utf16 "cat"]) [press "c" 10, press "x" 20, press "t" 30]).incorrectChars
      = 1 ∧
    (run (loaded [utf16 "cat"]) [press "c" 10, press "x" 20, press "t" 30]).spellingErrors
        (utf16 "cat")
      = some ⟨1, [⟨some (utf16 "a"), utf16 "x", 1, 20⟩]⟩ := by
  decide

/-- C6 as stated fails.  In the active session on the word "cat", with the cursor on the
letter a, the key a pressed together with Ctrl is a single non-space character key equal to
the expected letter, yet it is ignored: `correctChars` stays 1 and the cursor stays.  And in
the active session on the word "constructor", with the cursor on its second letter, the key x
is counted as an error and the letter is marked incorrect, but the error log gains nothing:
it still has no entry for the word. -/
theorem C6_counterexample :
    ((run (loaded [utf16 "cat"]) [press "c" 10]).gameActive = true ∧
      (run (loaded [utf16 "cat"]) [press "c" 10]).currentLetterIndex = 1 ∧
      (run (loaded [utf16 "cat"]) [press "c" 10]).correctChars = 1 ∧
      (handleKeyDown (run (loaded [utf16 "cat"]) [press "c" 10])
        ⟨utf16 "a", true, false, 20⟩).1.correctChars = 1 ∧
      (handleKeyDown (run (loaded [utf16 "cat"]) [press "c" 10])
        ⟨utf16 "a", true, false, 20⟩).1.currentLetterIndex = 1) ∧
    ((run (loaded [utf16 "constructor"]) [press "c" 10]).gameActive = true ∧
      (run (loaded [utf16 "constructor"]) [press "c" 10]).currentLetterIndex = 1 ∧
      (run (loaded [utf16 "constructor"]) [press "c" 10, press "x" 20]).incorrectChars = 1 ∧
      (run (loaded [utf16 "constructor"]) [press "c" 10, press "x" 20]).ui.letterStatus 0 1
        = LetterStatus.incorrect ∧
      (run (loaded [utf16 "constructor"]) [press "c" 10, press "x" 20]).spellingErrors
        (utf16 "constructor") = none) := by
  decide

/-! ## C8: the accuracy -/

/-- With no character attempted the accuracy is 100. -/
theorem accuracy_nothing_typed : accuracy 0 0 = 100 := by decide

/-- C8 (amended). For counters with `c + i < 2 ^ 44` the accuracy is an integer in [0, 100];
it is 100 when the sum is 0; when the sum is positive it is an integer nearest to the exact
percentage `100 * c / (c + i)`: it equals `round (100 * c / (c + i))`, except that when the
percentage lies exactly halfway between two integers it may be the lower of the two (the
double arithmetic of the source decides). -/
theorem C8_accuracy_nearest_percentage (c i : Nat) (hlt : c + i < 2 ^ 44) :
    0 ≤ accuracy c i ∧ accuracy c i ≤ 100 ∧
    (c + i = 0 → accuracy c i = 100) ∧
    (0 < c + i →
      |(accuracy c i : ℚ) - ((100 * c : ℕ) : ℚ) / ((c + i : ℕ) : ℚ)| ≤ 1 / 2 ∧
      (accuracy c i = round (((100 * c : ℕ) : ℚ) / ((c + i : ℕ) : ℚ)) ∨
        (accuracy c i = round (((100 * c : ℕ) : ℚ) / ((c + i : ℕ) : ℚ)) - 1 ∧
          ((100 * c : ℕ) : ℚ) / ((c + i : ℕ) : ℚ) = accuracy c i + 1 / 2))) := by
  rcases Nat.eq_zero_or_pos (c + i) with h0 | hpos
  · have hc : c = 0 := by omega
    have hi : i = 0 := by omega
    subst hc; subst hi
    rw [accuracy_nothing_typed]
    exact ⟨by norm_num, by norm_num, fun _ => rfl, fun h => absurd h (by norm_num)⟩
  · have h := accuracy_nearest c i hpos hlt
    obtain ⟨r1, r2⟩ := nearest_range (accuracy c i) (100 * c) (c + i) 100 hpos
      (by omega) h
    exact ⟨r1, by exact_mod_cast r2, fun h0 => absurd h0 (by omega),
      fun _ => nearest_rat (accuracy c i) (100 * c) (c + i) hpos h⟩

/-- Witness of C8: 23 correct and 17 incorrect characters. -/
theorem C8_accuracy_nearest_percentage_witness :
    23 + 17 < 2 ^ 44 ∧ 0 ≤ accuracy 23 17 ∧ accuracy 23 17 ≤ 100 :=
  ⟨by decide, (C8_accuracy_nearest_percentage 23 17 (by decide)).1,
    (C8_accuracy_nearest_percentage 23 17 (by decide)).2.1⟩

/-- C8 as stated fails at a tie.  With 23 correct and 17 incorrect characters the exact
percentage is `100 * 23 / 40 = 57.5`, which rounds to 58; the source divides first, `23 / 40`
is the double just below 0.575, the product with 100 is the double `57.49999999999999` and
`Math.round` gives 57. -/
theorem C8_counterexample :
    accuracy 23 17 = 57 ∧
    F64.mul (F64.div (F64.ofNat 23) (F64.add (F64.ofNat 23) (F64.ofNat 17))) (F64.ofNat 100)
      = ⟨8092405580431359, -47⟩ ∧
    ((8092405580431359 : ℚ) / 2 ^ 47 < 115 / 2) ∧
    round ((100 * 23 : ℚ) / (23 + 17)) = 58 := by
  refine ⟨by decide, by decide, by norm_num, ?_⟩
  rw [round_eq, Int.floor_eq_iff]
  norm_num

/-! ## C9: words per minute -/

/-- C9 (amended). For timestamps below `2 ^ 53` and fewer than `2 ^ 36` characters the
words-per-minute value is never negative; it is 0 when the elapsed time is not positive; when
the elapsed time is positive it is an integer nearest to the exact value
`((c + i) / 5) / (elapsedSeconds / 60)`, with `elapsedSeconds = (now - start) / 1000`: it
equals the rounded exact value, except that when the exact value lies exactly halfway between
two integers it may be the lower of the two (the double arithmetic of the source decides). -/
theorem C9_wpm_nearest (c i start now : Nat) (hs : start < 2 ^ 53) (hn : now < 2 ^ 53)
    (hchars : c + i < 2 ^ 36) :
    0 ≤ grossWpm c i start now ∧
    (now ≤ start → grossWpm c i start now = 0) ∧
    (start < now →
      |(grossWpm c i start now : ℚ)
          - (((c + i : ℕ) : ℚ) / 5) / ((((now - start : ℕ) : ℚ) / 1000) / 60)| ≤ 1 / 2 ∧
      (grossWpm c i start now
          = round ((((c + i : ℕ) : ℚ) / 5) / ((((now - start : ℕ) : ℚ) / 1000) / 60)) ∨
        (grossWpm c i start now
            = round ((((c + i : ℕ) : ℚ) / 5) / ((((now - start : ℕ) : ℚ) / 1000) / 60)) - 1 ∧
          (((c + i : ℕ) : ℚ) / 5) / ((((now - start : ℕ) : ℚ) / 1000) / 60)
            = grossWpm c i start now + 1 / 2))) := by
  have hexact : ∀ ms : Nat, 0 < ms →
      (((c + i : ℕ) : ℚ) / 5) / (((ms : ℚ) / 1000) / 60)
        = ((12000 * (c + i) : ℕ) : ℚ) / (ms : ℚ) := by
    intro ms hms
    have : (0 : ℚ) < ms := by exact_mod_cast hms
    push_cast; field_simp; ring
  rcases Nat.lt_or_ge start now with hlt | hge
  · have hms : 0 < now - start := by omega
    have h := grossWpm_nearest c i start now hlt hn hchars
    obtain ⟨r1, -⟩ := nearest_range (grossWpm c i start now) (12000 * (c + i)) (now - start)
      (12000 * (c + i)) hms (Nat.le_mul_of_pos_right _ hms) h
    refine ⟨r1, fun hle => absurd hlt (by omega), fun _ => ?_⟩
    rw [hexact (now - start) hms]
    exact nearest_rat (grossWpm c i start now) (12000 * (c + i)) (now - start) hms h
  · have h0 := grossWpm_not_after c i start now hge hs
    exact ⟨by rw [h0], fun _ => h0, fun hlt => absurd hlt (by omega)⟩

/-- Witness of C9: 41 characters in 8000 ms. -/
theorem C9_wpm_nearest_witness :
    1000 < 2 ^ 53 ∧ 9000 < 2 ^ 53 ∧ 40 + 1 < 2 ^ 36 ∧ 0 ≤ grossWpm 40 1 1000 9000 :=
  ⟨by decide, by decide, by decide,
    (C9_wpm_nearest 40 1 1000 9000 (by decide) (by decide) (by decide)).1⟩

/-- C9 as stated fails at a tie.  With 41 characters typed in 8000 ms the exact value is
`(41 / 5) / ((8000 / 1000) / 60) = 61.5`, which rounds to 62; in doubles the quotient is
`61.49999999999999` and `Math.round` gives 61. -/
theorem C9_counterexample :
    grossWpm 40 1 1000 9000 = 61 ∧
    round ((((40 + 1 : ℕ) : ℚ) / 5) / ((((9000 - 1000 : ℕ) : ℚ) / 1000) / 60)) = 62 := by
  refine ⟨by decide, ?_⟩
  rw [round_eq, Int.floor_eq_iff]
  norm_num

/-! ## C10: the statistics before the session has started -/

/-- C10 (amended). While the start timestamp is unset, `calculateAndUpdateStats` hands no
values to `ui.updateStats`, and the page shows the defaults of that function: the elapsed time
"0:00", and the placeholder "--" for both the words per minute and the accuracy. -/
theorem C10_stats_before_start (s : State) (now : Nat) (h : s.startTime = none) :
    statsSnapshot s.startTime s.correctChars s.incorrectChars now = ⟨none, none, none⟩ ∧
    (calculateAndUpdateStats s now).ui.timerStat = "0:00" ∧
    (calculateAndUpdateStats s now).ui.wpmStat = "-- WPM" ∧
    (calculateAndUpdateStats s now).ui.accuracyStat = "--% Acc" := by
  have h1 : statsSnapshot s.startTime s.correctChars s.incorrectChars now
      = ⟨none, none, none⟩ := by
    simp [statsSnapshot, startTimeUnset, h]
  refine ⟨h1, ?_, ?_, ?_⟩ <;> simp only [calculateAndUpdateStats, h1, UI.updateStats] <;> rfl

/-- Witness of C10: the freshly loaded session on the word "cat". -/
theorem C10_stats_before_start_witness :
    (loaded [utf16 "cat"]).startTime = none ∧
    (calculateAndUpdateStats (loaded [utf16 "cat"]) 5000).ui.wpmStat = "-- WPM" :=
  ⟨by decide, (C10_stats_before_start (loaded [utf16 "cat"]) 5000 (by decide)).2.2.1⟩

/-- C10 as stated fails: in the freshly loaded session the snapshot carries no numbers, and
the page shows "-- WPM" and "--% Acc", not the WPM 0 and the accuracy 100 of the claim. -/
theorem C10_counterexample :
    (loaded [utf16 "cat"]).startTime = none ∧
    (statsSnapshot (loaded [utf16 "cat"]).startTime (loaded [utf16 "cat"]).correctChars
      (loaded [utf16 "cat"]).incorrectChars 5000).wpm ≠ some 0 ∧
    (statsSnapshot (loaded [utf16 "cat"]).startTime (loaded [utf16 "cat"]).correctChars
      (loaded [utf16 "cat"]).incorrectChars 5000).accuracy ≠ some 100 ∧
    (calculateAndUpdateStats (loaded [utf16 "cat"]) 5000).ui.timerStat = "0:00" ∧
    (calculateAndUpdateStats (loaded [utf16 "cat"]) 5000).ui.wpmStat = "-- WPM" ∧
    (calculateAndUpdateStats (loaded [utf16 "cat"]) 5000).ui.accuracyStat = "--% Acc" := by
  decide

/-! ## C11: the cursor -/

/-- A key that fails the first test of `handleKeyDown` changes nothing. -/
theorem handleKeyDown_ignored (s : State) (ev : KeyEvent) (h : isHandledKey ev = false) :
    handleKeyDown s ev = (s, Completion.normal) := by
  simp [handleKeyDown, h]

/-- A key that is neither a character key, nor the space, nor Backspace is ignored. -/
theorem isHandledKey_eq_false (ev : KeyEvent) (hc : isCharacterKey ev = false)
    (hs : ev.key ≠ keySpace) (hb : ev.key ≠ keyBackspace) : isHandledKey ev = false := by
  simp only [isCharacterKey, hs, ne_eq, not_false_eq_true, decide_True, Bool.and_true] at hc
  simp only [isHandledKey, hs, hb, decide_False, Bool.false_or]
  simpa [Bool.and_assoc] using hc

/-- How one key press moves the cursor when there is a current word: a character key moves
the letter index one forward and is counted; any other key is not counted and either leaves
the word index and does not raise the letter index, or moves to the start of the next word. -/
theorem handleKeyDown_cursor (s : State) (ev : KeyEvent) (w : JSString)
    (hw : s.words[s.currentWordIndex]? = some w) :
    (isCharacterKey ev = true ∧ activeAtDispatch s ev = true ∧
      (handleKeyDown s ev).1.currentWordIndex = s.currentWordIndex ∧
      (handleKeyDown s ev).1.currentLetterIndex = s.currentLetterIndex + 1 ∧
      (handleKeyDown s ev).1.correctChars + (handleKeyDown s ev).1.incorrectChars
        = s.correctChars + s.incorrectChars + 1) ∨
    (isCharacterKey ev = false ∧
      (handleKeyDown s ev).1.correctChars + (handleKeyDown s ev).1.incorrectChars
        = s.correctChars + s.incorrectChars ∧
      (((handleKeyDown s ev).1.currentWordIndex = s.currentWordIndex ∧
          (handleKeyDown s ev).1.currentLetterIndex ≤ s.currentLetterIndex) ∨
        (s.currentWordIndex + 1 < s.words.length ∧
          (handleKeyDown s ev).1.currentWordIndex = s.currentWordIndex + 1 ∧
          (handleKeyDown s ev).1.currentLetterIndex = 0))) := by
  have hidx := index_lt_of_getElem? s w hw
  cases hc : isCharacterKey ev with
  | true =>
    left
    obtain ⟨ha, hsum⟩ := handleKeyDown_counters_of_character s ev hidx hc
    refine ⟨rfl, ha, ?_, ?_, hsum⟩
    · rw [handleKeyDown_character s ev w hc hw]
      simp
    · rw [handleKeyDown_character s ev w hc hw]
      simp [(handleCharacter_some (startOnFirstKey s ev) w ev.key ev.time).2.1]
  | false =>
    right
    obtain ⟨h1, h2⟩ := handleKeyDown_counters_of_not_character s ev hc
    refine ⟨rfl, by rw [h1, h2], ?_⟩
    by_cases hs : ev.key = keySpace
    · rw [handleKeyDown_space s ev w hs hw, handleControl_space]
      by_cases hmove : w ≠ [] ∧ w.length ≤ (startOnFirstKey s ev).currentLetterIndex
      · rw [if_pos hmove]
        by_cases hlast : s.currentWordIndex < s.words.length - 1
        · right
          refine ⟨by omega, ?_, ?_⟩ <;> simp [hlast]
        · left
          constructor <;> simp [hlast]
      · rw [if_neg hmove]
        left
        constructor <;> simp
    · by_cases hb : ev.key = keyBackspace
      · obtain ⟨-, -, -, -, h5, h6⟩ := handleKeyDown_backspace s ev hb
        left
        refine ⟨h5, ?_⟩
        rw [h6]
        split_ifs <;> omega
      · rw [handleKeyDown_ignored s ev (isHandledKey_eq_false ev hc hs hb)]
        left
        exact ⟨rfl, le_refl _⟩

/-- The cursor facts that every run of key presses keeps, from any state with a current
word. -/
theorem run_cursor (evs : List KeyEvent) :
    ∀ s : State, s.currentWordIndex < s.words.length →
      (run s evs).words = s.words ∧
      (run s evs).currentWordIndex < s.words.length ∧
      (s.currentLetterIndex ≤ s.correctChars + s.incorrectChars →
        (run s evs).currentLetterIndex ≤ (run s evs).correctChars + (run s evs).incorrectChars) ∧
      (s.currentLetterIndex ≤ (s.words[s.currentWordIndex]?.getD []).length →
        typedWithinWords s evs = true →
        (run s evs).currentLetterIndex
          ≤ ((run s evs).words[(run s evs).currentWordIndex]?.getD []).length) := by
  induction evs with
  | nil =>
    intro s hidx
    exact ⟨rfl, hidx, fun h => h, fun h _ => h⟩
  | cons ev evs ih =>
    intro s hidx
    have hw : s.words[s.currentWordIndex]? = some s.words[s.currentWordIndex] :=
      List.getElem?_eq_getElem hidx
    have hwords := handleKeyDown_words s ev
    have hidx2 := handleKeyDown_index_lt s ev hidx
    obtain ⟨i1, i2, i3, i4⟩ := ih (handleKeyDown s ev).1 hidx2
    rw [run_cons]
    refine ⟨by rw [i1, hwords], by rw [← hwords]; exact i2, ?_, ?_⟩
    · intro hle
      apply i3
      rcases handleKeyDown_cursor s ev _ hw with ⟨-, -, -, h4, h5⟩ | ⟨-, h2, h3⟩
      · omega
      · rcases h3 with ⟨-, h⟩ | ⟨-, -, h⟩ <;> omega
    · intro hle htyped
      simp only [typedWithinWords, Bool.and_eq_true, Bool.or_eq_true, Bool.not_eq_true',
        decide_eq_true_eq] at htyped
      obtain ⟨hhere, hrest⟩ := htyped
      apply i4 _ hrest
      rcases handleKeyDown_cursor s ev _ hw with ⟨c1, c2, c3, c4, -⟩ | ⟨-, -, h3⟩
      · rw [hwords, c3, c4]
        rcases hhere with hn | hlt
        · simp [c1, c2] at hn
        · omega
      · rcases h3 with ⟨h, h'⟩ | ⟨-, -, h⟩
        · rw [hwords, h]; omega
        · rw [h]; exact Nat.zero_le _

/-- The cursor after any run of key presses on a loaded non-empty word list: the word list
is the loaded one, `currentWordIndex` is below `words.length` (so `words[currentWordIndex]`
is a word), and `currentLetterIndex` is at most `correctChars + incorrectChars`.  The bound
`currentLetterIndex <= words[currentWordIndex].length` holds after every run in which no
counted character key arrives with the letter index already at or past the end of the
current word. -/
theorem cursor_bounds_of_run (s0 : State) (ws : List JSString) (evs : List KeyEvent)
    (hws : ws ≠ []) :
    (run (initializeApp s0 (Except.ok ws)) evs).words = ws ∧
    (run (initializeApp s0 (Except.ok ws)) evs).currentWordIndex < ws.length ∧
    (run (initializeApp s0 (Except.ok ws)) evs).currentLetterIndex
      ≤ (run (initializeApp s0 (Except.ok ws)) evs).correctChars
        + (run (initializeApp s0 (Except.ok ws)) evs).incorrectChars ∧
    (typedWithinWords (initializeApp s0 (Except.ok ws)) evs = true →
      (run (initializeApp s0 (Except.ok ws)) evs).currentLetterIndex
        ≤ (ws[(run (initializeApp s0 (Except.ok ws)) evs).currentWordIndex]?.getD []).length) := by
  obtain ⟨hw, hi, hl, hc, hic, -⟩ := initializeApp_ok s0 ws hws
  have hidx : (initializeApp s0 (Except.ok ws)).currentWordIndex
      < (initializeApp s0 (Except.ok ws)).words.length := by
    rw [hw, hi]; exact List.length_pos.mpr hws
  obtain ⟨h1, h2, h3, h4⟩ := run_cursor evs _ hidx
  rw [hw] at h1 h2
  refine ⟨h1, h2, h3 (by rw [hl]; exact Nat.zero_le _), ?_⟩
  intro htyped
  have := h4 (by rw [hl]; exact Nat.zero_le _) htyped
  rwa [h1] at this

/-- The cursor bounds on the words "cat", "dog" after the keys c, a, Backspace, a, t, space,
d, a run that never types past the end of a word. -/
theorem cursor_bounds_example :
    (run (initializeApp moduleState (Except.ok [utf16 "cat", utf16 "dog"]))
      [press "c" 10, press "a" 20, press "Backspace" 30, press "a" 40, press "t" 50,
       press " " 60, press "d" 70]).currentWordIndex = 1 ∧
    (run (initializeApp moduleState (Except.ok [utf16 "cat", utf16 "dog"]))
      [press "c" 10, press "a" 20, press "Backspace" 30, press "a" 40, press "t" 50,
       press " " 60, press "d" 70]).currentLetterIndex = 1 ∧
    typedWithinWords (initializeApp moduleState (Except.ok [utf16 "cat", utf16 "dog"]))
      [press "c" 10, press "a" 20, press "Backspace" 30, press "a" 40, press "t" 50,
       press " " 60, press "d" 70] = true := by
  decide

/-- C11 fails past the end of a word.  With the word list ["a"] the key a completes the
word: the letter index is 1, the length of the word, and the caret is kept on the last
letter.  The key b that follows is dispatched to the character branch again: it is counted
as a mistake, the letter index becomes 2, above the length 1 of the current word, the
session is still active, and the caret is on no letter any more.  A space then ends the
session with the letter index still 2. -/
theorem C11_letter_index_past_word_end :
    (run (loaded [utf16 "a"]) [press "a" 10]).currentLetterIndex = 1 ∧
    (run (loaded [utf16 "a"]) [press "a" 10]).ui.caret = some (0, 0) ∧
    (run (loaded [utf16 "a"]) [press "a" 10, press "b" 20]).words = [utf16 "a"] ∧
    (run (loaded [utf16 "a"]) [press "a" 10, press "b" 20]).currentWordIndex = 0 ∧
    (run (loaded [utf16 "a"]) [press "a" 10, press "b" 20]).currentLetterIndex = 2 ∧
    (run (loaded [utf16 "a"]) [press "a" 10, press "b" 20]).gameActive = true ∧
    (run (loaded [utf16 "a"]) [press "a" 10, press "b" 20]).incorrectChars = 1 ∧
    (run (loaded [utf16 "a"]) [press "a" 10, press "b" 20]).ui.caret = none ∧
    ¬ ((run (loaded [utf16 "a"]) [press "a" 10, press "b" 20]).currentLetterIndex
        ≤ ((run (loaded [utf16 "a"]) [press "a" 10, press "b" 20]).words[
            (run (loaded [utf16 "a"]) [press "a" 10, press "b" 20]).currentWordIndex]?.getD
              []).length) ∧
    (run (loaded [utf16 "a"]) [press "a" 10, press "b" 20, press " " 30]).gameActive = false ∧
    (run (loaded [utf16 "a"]) [press "a" 10, press "b" 20, press " " 30]).currentLetterIndex
      = 2 := by
  decide

/-! ## C15: the interval timer -/

theorem TimersOk_of_eq (s t : State) (h1 : t.gameActive = s.gameActive)
    (h2 : t.timerInterval = s.timerInterval) (h3 : t.liveTimers = s.liveTimers)
    (h4 : t.nextTimerId = s.nextTimerId) (h : TimersOk s) : TimersOk t := by
  unfold TimersOk at *
  rw [h1, h2, h3, h4]
  exact h

theorem TimersOk_calculateAndUpdateStats (s : State) (now : Nat) (h : TimersOk s) :
    TimersOk (calculateAndUpdateStats s now) :=
  TimersOk_of_eq s _ rfl rfl rfl rfl h

/-- The function `startGame` keeps the timer discipline: on a session that is not active no
timer is live, so the one it installs is the only one. -/
theorem TimersOk_startGame (s : State) (now : Nat) (h : TimersOk s) :
    TimersOk (startGame s now) := by
  unfold startGame
  split
  · exact h
  · rename_i ha
    apply TimersOk_calculateAndUpdateStats
    obtain ⟨hn, ⟨ha2, -⟩ | ⟨-, -, hl⟩⟩ := h
    · exact absurd ha2 ha
    · refine ⟨Nat.succ_ne_zero _, Or.inl ⟨rfl, s.nextTimerId, hn, rfl, ?_⟩⟩
      simp [hl]

/-- The function `endGame` keeps the timer discipline and leaves the session not active:
the stored timer is cleared. -/
theorem TimersOk_endGame (s : State) (now : Nat) (h : TimersOk s) :
    TimersOk (endGame s now) := by
  unfold endGame
  split
  · exact h
  · rename_i ha
    obtain ⟨hn, ⟨-, id, hid, hti, hl⟩ | ⟨ha2, -⟩⟩ := h
    · refine ⟨?_, Or.inr ⟨?_, ?_, ?_⟩⟩ <;>
        simp [stopTimer, hti, hid, hl, calculateAndUpdateStats, hn]
    · simp [ha2] at ha

/-- The function `resetState` keeps the timer discipline and leaves the session not
active. -/
theorem TimersOk_resetState (s : State) (h : TimersOk s) :
    TimersOk (resetState s) ∧ (resetState s).gameActive = false ∧
      (resetState s).timerInterval = none ∧ (resetState s).liveTimers = [] := by
  obtain ⟨hn, ⟨-, id, hid, hti, hl⟩ | ⟨-, hti, hl⟩⟩ := h
  · refine ⟨⟨?_, Or.inr ⟨?_, ?_, ?_⟩⟩, ?_, ?_, ?_⟩ <;>
      simp [resetState, stopTimer, hti, hid, hl, hn]
  · refine ⟨⟨?_, Or.inr ⟨?_, ?_, ?_⟩⟩, ?_, ?_, ?_⟩ <;>
      simp [resetState, stopTimer, hti, hl, hn]

theorem TimersOk_moveToNextWord (s : State) (now : Nat) (h : TimersOk s) :
    TimersOk (moveToNextWord s now) := by
  unfold moveToNextWord
  split
  · exact TimersOk_of_eq s _ rfl rfl rfl rfl h
  · exact TimersOk_endGame s now h

theorem TimersOk_handleControl (s : State) (cw : Option JSString) (key : JSString) (now : Nat)
    (h : TimersOk s) : TimersOk (handleControl s cw key now) := by
  unfold handleControl
  split_ifs
  · exact TimersOk_moveToNextWord s now h
  · exact h
  · exact TimersOk_of_eq s _ rfl rfl rfl rfl h
  · exact h
  · exact h

theorem TimersOk_finishKey (s : State) (key : JSString) (now : Nat) (h : TimersOk s) :
    TimersOk (finishKey s key now) := by
  simp only [finishKey]
  split_ifs
  · exact TimersOk_endGame _ now (TimersOk_calculateAndUpdateStats s now h)
  · exact TimersOk_calculateAndUpdateStats s now h
  · exact TimersOk_endGame _ now h
  · exact h

theorem TimersOk_handleCharacter (s : State) (cw : Option JSString) (key : JSString)
    (now : Nat) (h : TimersOk s) : TimersOk (handleCharacter s cw key now).1 := by
  unfold handleCharacter
  cases cw with
  | none => exact TimersOk_of_eq s _ rfl rfl rfl rfl h
  | some w =>
    simp only []
    split_ifs <;> exact TimersOk_of_eq s _ rfl rfl rfl rfl h

theorem TimersOk_startOnFirstKey (s : State) (ev : KeyEvent) (h : TimersOk s) :
    TimersOk (startOnFirstKey s ev) := by
  unfold startOnFirstKey
  split
  · exact TimersOk_startGame s ev.time h
  · exact h

/-- The handler `handleKeyDown` keeps the timer discipline, also when it throws. -/
theorem TimersOk_handleKeyDown (s : State) (ev : KeyEvent) (h : TimersOk s) :
    TimersOk (handleKeyDown s ev).1 := by
  have h1 := TimersOk_startOnFirstKey s ev h
  simp only [handleKeyDown]
  split_ifs
  · exact h1
  · exact h1
  · exact TimersOk_finishKey _ _ _ (TimersOk_handleCharacter _ _ _ _ h1)
  · exact TimersOk_handleCharacter _ _ _ _ h1
  · exact TimersOk_finishKey _ _ _ (TimersOk_handleControl _ _ _ _ h1)
  · exact h

theorem TimersOk_timerTick (s : State) (id now : Nat) (h : TimersOk s) :
    TimersOk (timerTick s id now) := by
  unfold timerTick
  split
  · exact TimersOk_calculateAndUpdateStats s now h
  · exact h

theorem TimersOk_initializeAppBegin (s : State) (h : TimersOk s) :
    TimersOk (initializeAppBegin s) :=
  TimersOk_of_eq (resetState s) _ rfl rfl rfl rfl (TimersOk_resetState s h).1

theorem TimersOk_initializeAppResume (s : State) (fetched : Except String (List JSString))
    (h : TimersOk s) : TimersOk (initializeAppResume s fetched) := by
  unfold initializeAppResume
  cases fetched with
  | error message => exact TimersOk_of_eq s _ rfl rfl rfl rfl h
  | ok ws =>
    simp only []
    split_ifs <;> exact TimersOk_of_eq s _ rfl rfl rfl rfl h

theorem TimersOk_apply (s : State) (call : SessionCall) (h : TimersOk s) :
    TimersOk (call.apply s) := by
  cases call with
  | resetState => exact (TimersOk_resetState s h).1
  | handleKeyDown event => exact TimersOk_handleKeyDown s event h
  | startGame now => exact TimersOk_startGame s now h
  | endGame now => exact TimersOk_endGame s now h
  | timerTick id now => exact TimersOk_timerTick s id now h
  | initializeAppBegin => exact TimersOk_initializeAppBegin s h
  | initializeAppResume fetched => exact TimersOk_initializeAppResume s fetched h

theorem TimersOk_interleave (calls : List SessionCall) :
    ∀ s : State, TimersOk s → TimersOk (interleave s calls) := by
  induction calls with
  | nil => intro s h; exact h
  | cons call calls ih => intro s h; exact ih _ (TimersOk_apply s call h)

theorem TimersOk_pageStart (errors : ErrorMap) : TimersOk (pageStart errors).state :=
  ⟨Nat.succ_ne_zero 0, Or.inr ⟨rfl, rfl, rfl⟩⟩

/-- C15. Starting from the module state of script.js, after any sequence of calls of
`resetState`, `handleKeyDown`, `startGame`, `endGame` (and of the interval callback and the
two halves of `initializeApp`), in any order and with any arguments: at most one interval
timer is live, every live timer is the one stored in `timerInterval`, and a timer is live
exactly when `gameActive` is true. -/
theorem C15_single_live_timer (errors : ErrorMap) (calls : List SessionCall) :
    (interleave (pageStart errors).state calls).liveTimers.length ≤ 1 ∧
    (∀ id ∈ (interleave (pageStart errors).state calls).liveTimers,
      (interleave (pageStart errors).state calls).timerInterval = some id) ∧
    ((interleave (pageStart errors).state calls).liveTimers ≠ [] ↔
      (interleave (pageStart errors).state calls).gameActive = true) := by
  obtain ⟨-, ⟨ha, id, -, hti, hl⟩ | ⟨ha, -, hl⟩⟩ :=
    TimersOk_interleave calls _ (TimersOk_pageStart errors)
  · rw [hl, hti, ha]; simp
  · rw [hl, ha]; simp

/-- The timer of a session in progress: after loading "ab" and typing a, one timer is live,
with handle 1; a direct `startGame` then installs nothing, and `endGame` or `resetState`
leaves no timer live. -/
theorem timer_scenario :
    (interleave (pageStart emptyErrors).state
      [SessionCall.initializeAppBegin, SessionCall.initializeAppResume (Except.ok [utf16 "ab"]),
       SessionCall.handleKeyDown (press "a" 10)]).liveTimers = [1] ∧
    (interleave (pageStart emptyErrors).state
      [SessionCall.initializeAppBegin, SessionCall.initializeAppResume (Except.ok [utf16 "ab"]),
       SessionCall.handleKeyDown (press "a" 10), SessionCall.startGame 20]).liveTimers = [1] ∧
    (interleave (pageStart emptyErrors).state
      [SessionCall.initializeAppBegin, SessionCall.initializeAppResume (Except.ok [utf16 "ab"]),
       SessionCall.handleKeyDown (press "a" 10), SessionCall.endGame 20]).liveTimers = [] ∧
    (interleave (pageStart emptyErrors).state
      [SessionCall.initializeAppBegin, SessionCall.initializeAppResume (Except.ok [utf16 "ab"]),
       SessionCall.handleKeyDown (press "a" 10), SessionCall.resetState]).liveTimers = [] ∧
    (interleave (pageStart emptyErrors).state
      [SessionCall.initializeAppBegin, SessionCall.initializeAppResume (Except.ok [utf16 "ab"]),
       SessionCall.handleKeyDown (press "a" 10), SessionCall.endGame 20,
       SessionCall.handleKeyDown (press "b" 30)]).liveTimers = [2] := by
  decide

/-! ## C12: a failed load -/

/-- With no words and no active session, a key press changes nothing. -/
theorem handleKeyDown_idle (s : State) (ev : KeyEvent) (hw : s.words = [])
    (ha : s.gameActive = false) : handleKeyDown s ev = (s, Completion.normal) := by
  have hs : startOnFirstKey s ev = s := by simp [startOnFirstKey, hw]
  simp [handleKeyDown, hs, ha]

theorem run_idle (evs : List KeyEvent) (s : State) (hw : s.words = [])
    (ha : s.gameActive = false) : run s evs = s := by
  induction evs with
  | nil => rfl
  | cons ev evs ih => rw [run_cons, handleKeyDown_idle s ev hw ha]; exact ih

/-- The function `fetchWordsFromServer` never resolves with an empty array. -/
theorem fetchWordsFromServer_ok (reply : ServerReply) (ws : List JSString)
    (h : fetchWordsFromServer reply = Except.ok ws) : ws ≠ [] := by
  cases reply with
  | rejected message => simp [fetchWordsFromServer] at h
  | notOk status detail => simp [fetchWordsFromServer] at h
  | noWords => simp [fetchWordsFromServer] at h
  | words l =>
    simp only [fetchWordsFromServer] at h
    split_ifs at h with h0
    · injection h with h
      subst h
      simpa using h0

/-- The `catch` branch of `initializeApp` writes the feedback message and nothing else. -/
theorem initializeAppResume_failed (s : State) (fetched : Except String (List JSString))
    (hfail : fetchFailed fetched = true) :
    (initializeAppResume s fetched).words = (match fetched with
      | Except.ok _ => []
      | Except.error _ => s.words) ∧
    (initializeAppResume s fetched).currentWordIndex = s.currentWordIndex ∧
    (initializeAppResume s fetched).currentLetterIndex = s.currentLetterIndex ∧
    (initializeAppResume s fetched).correctChars = s.correctChars ∧
    (initializeAppResume s fetched).incorrectChars = s.incorrectChars ∧
    (initializeAppResume s fetched).totalTypedEntries = s.totalTypedEntries ∧
    (initializeAppResume s fetched).startTime = s.startTime ∧
    (initializeAppResume s fetched).gameActive = s.gameActive ∧
    (initializeAppResume s fetched).timerInterval = s.timerInterval ∧
    (initializeAppResume s fetched).liveTimers = s.liveTimers ∧
    (initializeAppResume s fetched).ui.feedbackClass = "feedback-area error" := by
  cases fetched with
  | error message => simp [initializeAppResume, UI.showFeedbackMessage]
  | ok ws =>
    have h0 : ws = [] := by simpa [fetchFailed] using hfail
    subst h0
    simp [initializeAppResume, UI.showFeedbackMessage]

/-- The state `initializeApp` has at its `await` is the idle reset state, whatever was
going on before, once the timer discipline holds. -/
theorem initializeAppBegin_idle (s : State) (h : TimersOk s) :
    (initializeAppBegin s).isIdleReset = true := by
  obtain ⟨-, h2, h3, h4⟩ := TimersOk_resetState s h
  have e1 : (initializeAppBegin s).timerInterval = (resetState s).timerInterval := rfl
  have e2 : (initializeAppBegin s).liveTimers = (resetState s).liveTimers := rfl
  simp only [State.isIdleReset, e1, e2, h3, h4]
  simp [initializeAppBegin, resetState]

/-- One run of `initializeApp` on any state the session can be in (the module state followed
by any calls of its functions), with key presses while the fetch is pending and a fetch that
settles with an error or with an empty array: the session is in the idle reset state, and
key presses leave the state as it is. -/
theorem initializeApp_failed_idle (errors : ErrorMap) (calls : List SessionCall)
    (during after : List KeyEvent) (fetched : Except String (List JSString))
    (hfail : fetchFailed fetched = true) :
    (initializeAppResume
      (run (initializeAppBegin (interleave (pageStart errors).state calls)) during)
      fetched).isIdleReset = true ∧
    (∀ ev : KeyEvent,
      handleKeyDown
        (initializeAppResume
          (run (initializeAppBegin (interleave (pageStart errors).state calls)) during)
          fetched) ev =
        (initializeAppResume
          (run (initializeAppBegin (interleave (pageStart errors).state calls)) during)
          fetched, Completion.normal)) ∧
    run
      (initializeAppResume
        (run (initializeAppBegin (interleave (pageStart errors).state calls)) during)
        fetched) after =
      initializeAppResume
        (run (initializeAppBegin (interleave (pageStart errors).state calls)) during)
        fetched := by
  have hidle := initializeAppBegin_idle _
    (TimersOk_interleave calls _ (TimersOk_pageStart errors))
  have hidle2 := hidle
  simp only [State.isIdleReset, Bool.and_eq_true, decide_eq_true_eq, Bool.not_eq_true'] at hidle2
  obtain ⟨⟨⟨⟨⟨⟨⟨⟨⟨b1, b2⟩, b3⟩, b4⟩, b5⟩, b6⟩, b7⟩, b8⟩, b9⟩, b10⟩ := hidle2
  rw [run_idle during _ b1 b8]
  obtain ⟨r1, r2, r3, r4, r5, r6, r7, r8, r9, r10, -⟩ :=
    initializeAppResume_failed
      (initializeAppBegin (interleave (pageStart errors).state calls)) fetched hfail
  have hwords : (initializeAppResume
      (initializeAppBegin (interleave (pageStart errors).state calls)) fetched).words = [] := by
    rw [r1]
    cases fetched with
    | error message => exact b1
    | ok ws => rfl
  have hact : (initializeAppResume
      (initializeAppBegin (interleave (pageStart errors).state calls)) fetched).gameActive
      = false := by rw [r8, b8]
  refine ⟨?_, fun ev => handleKeyDown_idle _ ev hwords hact, run_idle after _ hwords hact⟩
  simp only [State.isIdleReset, Bool.and_eq_true, decide_eq_true_eq, Bool.not_eq_true']
  rw [hwords, r2, r3, r4, r5, r6, r7, r8, r9, r10]
  exact ⟨⟨⟨⟨⟨⟨⟨⟨⟨rfl, b2⟩, b3⟩, b4⟩, b5⟩, b6⟩, b7⟩, b8⟩, b9⟩, b10⟩

theorem isIdleReset_iff (s : State) :
    s.isIdleReset = true ↔
      s.words = [] ∧ s.currentWordIndex = 0 ∧ s.currentLetterIndex = 0 ∧ s.correctChars = 0 ∧
      s.incorrectChars = 0 ∧ s.totalTypedEntries = 0 ∧ s.startTime = none ∧
      s.gameActive = false ∧ s.timerInterval = none ∧ s.liveTimers = [] := by
  simp only [State.isIdleReset, Bool.and_eq_true, decide_eq_true_eq, Bool.not_eq_true']
  tauto

/-- A failing fetch is a thrown error: `fetchWordsFromServer` throws on an empty array. -/
theorem fetchFailed_error (reply : ServerReply)
    (h : fetchFailed (fetchWordsFromServer reply) = true) :
    ∃ message, fetchWordsFromServer reply = Except.error message := by
  cases hf : fetchWordsFromServer reply with
  | error message => exact ⟨message, rfl⟩
  | ok ws =>
    have hne := fetchWordsFromServer_ok reply ws hf
    rw [hf] at h
    simp only [fetchFailed, decide_eq_true_eq, List.length_eq_zero] at h
    exact absurd h hne

/-- An event that is not a fetch settling with words keeps the idle reset state. -/
theorem idle_step (p : Page) (event : PageEvent) (hidle : p.state.isIdleReset = true)
    (hq : event.settlesWithWords = false) : (p.step event).state.isIdleReset = true := by
  have h := (isIdleReset_iff p.state).mp hidle
  obtain ⟨b1, b2, b3, b4, b5, b6, b7, b8, b9, b10⟩ := h
  cases event with
  | keydown ev =>
    simp only [Page.step]
    rw [handleKeyDown_idle p.state ev b1 b8]
    exact hidle
  | tick id now =>
    simp only [Page.step, timerTick, b10, List.not_mem_nil, if_false]
    exact hidle
  | load =>
    simp only [Page.step]
    rw [isIdleReset_iff]
    simp [initializeAppBegin, resetState, stopTimer, b9, b10]
  | fetchSettled reply =>
    simp only [Page.step]
    split
    · exact hidle
    · have hfail : fetchFailed (fetchWordsFromServer reply) = true := by
        simpa [PageEvent.settlesWithWords] using hq
      obtain ⟨message, hm⟩ := fetchFailed_error reply hfail
      rw [hm]
      exact hidle

theorem idle_run (events : List PageEvent) :
    ∀ p : Page, p.state.isIdleReset = true →
      (∀ event ∈ events, event.settlesWithWords = false) →
      (p.run events).state.isIdleReset = true := by
  induction events with
  | nil => intro p h _; exact h
  | cons event events ih =>
    intro p h hq
    exact ih _ (idle_step p event h (hq event (List.mem_cons_self _ _)))
      (fun e he => hq e (List.mem_cons_of_mem _ he))

theorem pageRun_append (p : Page) (e1 e2 : List PageEvent) :
    p.run (e1 ++ e2) = (p.run e1).run e2 := by
  simp [Page.run, List.foldl_append]

theorem TimersOk_step (p : Page) (event : PageEvent) (h : TimersOk p.state) :
    TimersOk (p.step event).state := by
  cases event with
  | keydown ev => exact TimersOk_handleKeyDown p.state ev h
  | tick id now => exact TimersOk_timerTick p.state id now h
  | load => exact TimersOk_initializeAppBegin p.state h
  | fetchSettled reply =>
    simp only [Page.step]
    split
    · exact h
    · exact TimersOk_initializeAppResume p.state _ h

theorem TimersOk_pageRun (events : List PageEvent) :
    ∀ p : Page, TimersOk p.state → TimersOk (p.run events).state := by
  induction events with
  | nil => intro p h; exact h
  | cons event events ih => intro p h; exact ih _ (TimersOk_step p event h)

/-- C12 (amended). On the page reached through any events, take a run of `initializeApp`
(a load or a click on restart), then any events among which no fetch settles with words
(key presses, ticks, further runs of `initializeApp`, failing fetches), then a fetch that
settles with a failure: a rejection, a response that is not `ok`, no `words` array or an
empty one.  The session is then in the idle reset state (no words, cursor (0, 0), counters
0, `startTime` null, `gameActive` false, `timerInterval` null and no live timer), every key
press returns normally and leaves the state as it is, and so does every sequence of key
presses.  In every state a failing fetch is a thrown error, and the `catch` branch of
`initializeApp` writes the feedback message and nothing else. -/
theorem C12_failed_load_stays_idle (errors : ErrorMap) (before during : List PageEvent)
    (reply : ServerReply) (after : List KeyEvent)
    (hquiet : ∀ event ∈ during, event.settlesWithWords = false)
    (hfail : fetchFailed (fetchWordsFromServer reply) = true) :
    ((pageStart errors).run
      (before ++ PageEvent.load :: (during ++ [PageEvent.fetchSettled reply]))).state.isIdleReset
      = true ∧
    (∀ ev : KeyEvent,
      handleKeyDown ((pageStart errors).run
          (before ++ PageEvent.load :: (during ++ [PageEvent.fetchSettled reply]))).state ev =
        (((pageStart errors).run
          (before ++ PageEvent.load :: (during ++ [PageEvent.fetchSettled reply]))).state,
         Completion.normal)) ∧
    run ((pageStart errors).run
        (before ++ PageEvent.load :: (during ++ [PageEvent.fetchSettled reply]))).state after =
      ((pageStart errors).run
        (before ++ PageEvent.load :: (during ++ [PageEvent.fetchSettled reply]))).state ∧
    (∃ message, fetchWordsFromServer reply = Except.error message) ∧
    ∀ (s : State) (message : String),
      initializeAppResume s (Except.error message) =
        { s with ui := s.ui.showFeedbackMessage ("Error: " ++ message) "error" } := by
  have ht := TimersOk_pageRun before _ (TimersOk_pageStart errors)
  have h1 : (((pageStart errors).run before).step PageEvent.load).state.isIdleReset = true :=
    initializeAppBegin_idle _ ht
  have hq2 : ∀ event ∈ during ++ [PageEvent.fetchSettled reply],
      event.settlesWithWords = false := by
    intro event he
    rcases List.mem_append.mp he with h | h
    · exact hquiet event h
    · rw [List.mem_singleton.mp h]
      simp [PageEvent.settlesWithWords, hfail]
  have hrun : (pageStart errors).run
      (before ++ PageEvent.load :: (during ++ [PageEvent.fetchSettled reply]))
      = (((pageStart errors).run before).step PageEvent.load).run
          (during ++ [PageEvent.fetchSettled reply]) := by
    rw [pageRun_append]
    rfl
  rw [hrun]
  have hidle := idle_run _ _ h1 hq2
  obtain ⟨b1, -, -, -, -, -, -, b8, -, -⟩ := (isIdleReset_iff _).mp hidle
  exact ⟨hidle, fun ev => handleKeyDown_idle _ ev b1 b8, run_idle after _ b1 b8,
    fetchFailed_error reply hfail, fun _ _ => rfl⟩

/-- Witness of C12: a session on "cat" with two keys typed, a click on restart, the key q
and a tick while the fetch is pending, and a fetch that is rejected; the keys a and space
pressed afterwards change nothing. -/
theorem C12_failed_load_stays_idle_witness :
    (∀ event ∈ [PageEvent.keydown (press "q" 30), PageEvent.tick 1 40],
      event.settlesWithWords = false) ∧
    fetchFailed (fetchWordsFromServer (ServerReply.rejected "Failed to fetch")) = true ∧
    ((pageStart emptyErrors).run
      ([PageEvent.load, PageEvent.fetchSettled (ServerReply.words [utf16 "cat"]),
        PageEvent.keydown (press "c" 10), PageEvent.keydown (press "x" 20)]
        ++ PageEvent.load :: ([PageEvent.keydown (press "q" 30), PageEvent.tick 1 40]
        ++ [PageEvent.fetchSettled (ServerReply.rejected "Failed to fetch")]))).state.isIdleReset
      = true ∧
    run ((pageStart emptyErrors).run
      ([PageEvent.load, PageEvent.fetchSettled (ServerReply.words [utf16 "cat"]),
        PageEvent.keydown (press "c" 10), PageEvent.keydown (press "x" 20)]
        ++ PageEvent.load :: ([PageEvent.keydown (press "q" 30), PageEvent.tick 1 40]
        ++ [PageEvent.fetchSettled (ServerReply.rejected "Failed to fetch")]))).state
      [press "a" 50, press " " 60] =
    ((pageStart emptyErrors).run
      ([PageEvent.load, PageEvent.fetchSettled (ServerReply.words [utf16 "cat"]),
        PageEvent.keydown (press "c" 10), PageEvent.keydown (press "x" 20)]
        ++ PageEvent.load :: ([PageEvent.keydown (press "q" 30), PageEvent.tick 1 40]
        ++ [PageEvent.fetchSettled (ServerReply.rejected "Failed to fetch")]))).state :=
  have h := C12_failed_load_stays_idle emptyErrors
    [PageEvent.load, PageEvent.fetchSettled (ServerReply.words [utf16 "cat"]),
     PageEvent.keydown (press "c" 10), PageEvent.keydown (press "x" 20)]
    [PageEvent.keydown (press "q" 30), PageEvent.tick 1 40]
    (ServerReply.rejected "Failed to fetch") [press "a" 50, press " " 60]
    (by decide) (by decide)
  ⟨by decide, by decide, h.1, h.2.2.1⟩

/-- C12 fails when two runs of `initializeApp` are in flight.  After the load and a click on
restart, the first fetch settles with "cat", the key c is typed, and the second fetch is
rejected: the failed run shows its error message, and the session is not idle: the word is
loaded, the session is active with one correct character and a live timer.  Without the key
c the failed run leaves a loaded session that the next key press starts. -/
theorem C12_counterexample :
    fetchFailed (fetchWordsFromServer (ServerReply.rejected "Failed to fetch")) = true ∧
    ((pageStart emptyErrors).run
      [PageEvent.load, PageEvent.load,
       PageEvent.fetchSettled (ServerReply.words [utf16 "cat"]),
       PageEvent.keydown (press "c" 10),
       PageEvent.fetchSettled (ServerReply.rejected "Failed to fetch")]).state.words
      = [utf16 "cat"] ∧
    ((pageStart emptyErrors).run
      [PageEvent.load, PageEvent.load,
       PageEvent.fetchSettled (ServerReply.words [utf16 "cat"]),
       PageEvent.keydown (press "c" 10),
       PageEvent.fetchSettled (ServerReply.rejected "Failed to fetch")]).state.gameActive
      = true ∧
    ((pageStart emptyErrors).run
      [PageEvent.load, PageEvent.load,
       PageEvent.fetchSettled (ServerReply.words [utf16 "cat"]),
       PageEvent.keydown (press "c" 10),
       PageEvent.fetchSettled (ServerReply.rejected "Failed to fetch")]).state.correctChars
      = 1 ∧
    ((pageStart emptyErrors).run
      [PageEvent.load, PageEvent.load,
       PageEvent.fetchSettled (ServerReply.words [utf16 "cat"]),
       PageEvent.keydown (press "c" 10),
       PageEvent.fetchSettled (ServerReply.rejected "Failed to fetch")]).state.liveTimers
      = [1] ∧
    ((pageStart emptyErrors).run
      [PageEvent.load, PageEvent.load,
       PageEvent.fetchSettled (ServerReply.words [utf16 "cat"]),
       PageEvent.keydown (press "c" 10),
       PageEvent.fetchSettled (ServerReply.rejected "Failed to fetch")]).state.isIdleReset
      = false ∧
    ((pageStart emptyErrors).run
      [PageEvent.load, PageEvent.load,
       PageEvent.fetchSettled (ServerReply.words [utf16 "cat"]),
       PageEvent.keydown (press "c" 10),
       PageEvent.fetchSettled
         (ServerReply.rejected "Failed to fetch")]).state.ui.feedbackText
      = "Error: Failed to fetch words: Failed to fetch" ∧
    ((pageStart emptyErrors).run
      [PageEvent.load, PageEvent.load,
       PageEvent.fetchSettled (ServerReply.words [utf16 "cat"]),
       PageEvent.fetchSettled (ServerReply.rejected "Failed to fetch")]).state.words
      = [utf16 "cat"] ∧
    ((pageStart emptyErrors).run
      [PageEvent.load, PageEvent.load,
       PageEvent.fetchSettled (ServerReply.words [utf16 "cat"]),
       PageEvent.fetchSettled (ServerReply.rejected "Failed to fetch"),
       PageEvent.keydown (press "c" 10)]).state.gameActive = true := by
  decide

/-- Every failure of the fetch is shown as an error message: what `initializeApp` writes
after a response with status 500 and no JSON body, and after an empty `words` array. -/
theorem failed_load_message :
    (initializeApp moduleState
      (fetchWordsFromServer (ServerReply.notOk 500 none))).ui.feedbackText
      = "Error: Failed to fetch words: HTTP error! status: 500" ∧
    (initializeApp moduleState
      (fetchWordsFromServer (ServerReply.words []))).ui.feedbackText
      = "Error: Failed to fetch words: Invalid or empty words array received from API" := by
  decide

/-! ## C16: the current word of an active session -/

theorem WordAvailable_handleKeyDown (s : State) (ev : KeyEvent) (h : WordAvailable s) :
    WordAvailable (handleKeyDown s ev).1 := by
  by_cases hw : s.words = []
  · have ha : s.gameActive = false := by
      cases hg : s.gameActive with
      | false => rfl
      | true => exact absurd hw (h.2 hg)
    rw [handleKeyDown_idle s ev hw ha]
    exact h
  · have hidx := handleKeyDown_index_lt s ev (h.1 hw)
    refine ⟨fun _ => hidx, fun _ => ?_⟩
    rw [handleKeyDown_words]
    exact hw

theorem WordAvailable_timerTick (s : State) (id now : Nat) (h : WordAvailable s) :
    WordAvailable (timerTick s id now) := by
  unfold timerTick
  split
  · exact h
  · exact h

theorem WordAvailable_initializeAppBegin (s : State) :
    WordAvailable (initializeAppBegin s) := by
  have hw : (initializeAppBegin s).words = [] := by simp [initializeAppBegin, resetState]
  have ha : (initializeAppBegin s).gameActive = false := by
    simp [initializeAppBegin, resetState]
  unfold WordAvailable
  rw [hw, ha]
  simp

theorem WordAvailable_initializeAppResume (s : State) (reply : ServerReply)
    (h : WordAvailable s) :
    WordAvailable (initializeAppResume s (fetchWordsFromServer reply)) := by
  cases hf : fetchWordsFromServer reply with
  | error message => exact h
  | ok ws =>
    have hne := fetchWordsFromServer_ok reply ws hf
    have hl : ws.length ≠ 0 := by simpa using hne
    have hw : (initializeAppResume s (Except.ok ws)).words = ws := by
      simp [initializeAppResume, hl]
    have hi : (initializeAppResume s (Except.ok ws)).currentWordIndex = 0 := by
      simp [initializeAppResume, hl]
    unfold WordAvailable
    rw [hw, hi]
    exact ⟨fun _ => List.length_pos.mpr hne, fun _ => hne⟩

theorem WordAvailable_step (p : Page) (event : PageEvent) (h : WordAvailable p.state) :
    WordAvailable (p.step event).state := by
  cases event with
  | keydown ev => exact WordAvailable_handleKeyDown p.state ev h
  | tick id now => exact WordAvailable_timerTick p.state id now h
  | load => exact WordAvailable_initializeAppBegin p.state
  | fetchSettled reply =>
    simp only [Page.step]
    split
    · exact h
    · exact WordAvailable_initializeAppResume p.state reply h

theorem WordAvailable_run (events : List PageEvent) :
    ∀ p : Page, WordAvailable p.state → WordAvailable (p.run events).state := by
  induction events with
  | nil => intro p h; exact h
  | cons event events ih => intro p h; exact ih _ (WordAvailable_step p event h)

/-- With a current word, `handleKeyDown` returns normally. -/
theorem handleKeyDown_completion (s : State) (ev : KeyEvent) (w : JSString)
    (hw : s.words[s.currentWordIndex]? = some w) :
    (handleKeyDown s ev).2 = Completion.normal := by
  simp only [handleKeyDown, hw]
  split_ifs <;> rfl

/-- C16. In every state the page reaches from the evaluation of script.js through its
listeners (key presses, `initializeApp` on load or restart, the settling of its fetches in
any order, the interval callback), if `gameActive` is true then `words` is not empty,
`currentWordIndex < words.length` and `words[currentWordIndex]` is defined; and in every
such state, active or not, `handleKeyDown` returns normally on every key event, so the
lookup `currentWord[currentLetterIndex]` never meets an undefined word. -/
theorem C16_active_session_has_current_word (errors : ErrorMap) (events : List PageEvent) :
    (((pageStart errors).run events).state.gameActive = true →
      ((pageStart errors).run events).state.words ≠ [] ∧
      ((pageStart errors).run events).state.currentWordIndex
        < ((pageStart errors).run events).state.words.length ∧
      ∃ w, ((pageStart errors).run events).state.words[
        ((pageStart errors).run events).state.currentWordIndex]? = some w) ∧
    ∀ ev : KeyEvent,
      (handleKeyDown ((pageStart errors).run events).state ev).2 = Completion.normal := by
  have h : WordAvailable ((pageStart errors).run events).state :=
    WordAvailable_run events _ ⟨fun hw => absurd rfl hw, fun ha => by cases ha⟩
  constructor
  · intro ha
    have hw := h.2 ha
    exact ⟨hw, h.1 hw, _, List.getElem?_eq_getElem (h.1 hw)⟩
  · intro ev
    by_cases hw : ((pageStart errors).run events).state.words = []
    · have ha : ((pageStart errors).run events).state.gameActive = false := by
        cases hg : ((pageStart errors).run events).state.gameActive with
        | false => rfl
        | true => exact absurd hw (h.2 hg)
      rw [handleKeyDown_idle _ ev hw ha]
    · exact handleKeyDown_completion _ ev _ (List.getElem?_eq_getElem (h.1 hw))

/-- The page in use: after the load of "ab", the keys a, b and a space the session is over
with the word index still on the last word; a restart whose fetch settles on "cd" while an
older fetch is pending, a key press, and the older fetch settling on "e" leave an active
session on the first word of the newest list. -/
theorem page_scenario :
    ((pageStart emptyErrors).run
      [PageEvent.load, PageEvent.fetchSettled (ServerReply.words [utf16 "ab"]),
       PageEvent.keydown (press "a" 10), PageEvent.keydown (press "b" 20),
       PageEvent.keydown (press " " 30)]).state.gameActive = false ∧
    ((pageStart emptyErrors).run
      [PageEvent.load, PageEvent.fetchSettled (ServerReply.words [utf16 "ab"]),
       PageEvent.keydown (press "a" 10), PageEvent.keydown (press "b" 20),
       PageEvent.keydown (press " " 30)]).state.currentWordIndex = 0 ∧
    ((pageStart emptyErrors).run
      [PageEvent.load, PageEvent.load,
       PageEvent.fetchSettled (ServerReply.words [utf16 "cd", utf16 "x"]),
       PageEvent.keydown (press "c" 10), PageEvent.keydown (press "d" 20),
       PageEvent.keydown (press " " 30),
       PageEvent.fetchSettled (ServerReply.words [utf16 "e"])]).state.gameActive = true ∧
    ((pageStart emptyErrors).run
      [PageEvent.load, PageEvent.load,
       PageEvent.fetchSettled (ServerReply.words [utf16 "cd", utf16 "x"]),
       PageEvent.keydown (press "c" 10), PageEvent.keydown (press "d" 20),
       PageEvent.keydown (press " " 30),
       PageEvent.fetchSettled (ServerReply.words [utf16 "e"])]).state.words = [utf16 "e"] ∧
    ((pageStart emptyErrors).run
      [PageEvent.load, PageEvent.load,
       PageEvent.fetchSettled (ServerReply.words [utf16 "cd", utf16 "x"]),
       PageEvent.keydown (press "c" 10), PageEvent.keydown (press "d" 20),
       PageEvent.keydown (press " " 30),
       PageEvent.fetchSettled (ServerReply.words [utf16 "e"])]).state.currentWordIndex = 0 := by
  decide

/-! ## C14: the time display -/

theorem toString_natCast (n : Nat) : toString ((n : Nat) : Int) = toString n := rfl

theorem padStart2_twoDigits (n : Nat) (h : n < 60) : padStart2 (toString n) = twoDigits n := by
  interval_cases n <;> rfl

/-- Rounding a quotient scaled by `P` and dividing by `P` gives the quotient of the
division, once twice `P` exceeds the divisor. -/
theorem roundTiesEven_div (n d P : Nat) (hd : 0 < d) (hP : d < 2 * P) :
    roundTiesEven (n * P) d / P = n / d := by
  have hPpos : 0 < P := by omega
  have hnd := Nat.div_add_mod n d
  have hr := Nat.mod_lt n hd
  set q := n / d with hq
  set r := n % d with hrdef
  have hN : n * P = r * P + (q * P) * d := by rw [← hnd]; ring
  have hq0 : n * P / d = r * P / d + q * P := by
    rw [hN, Nat.add_mul_div_right _ _ hd]
  have hr0 : n * P % d = r * P % d := by
    rw [hN, Nat.add_mul_mod_self_right]
  have ht := Nat.div_add_mod (r * P) d
  have hu := Nat.mod_lt (r * P) hd
  set t := r * P / d with htdef
  set u := r * P % d with hudef
  have hrP : r * P + P ≤ d * P := by
    have : (r + 1) * P ≤ d * P := Nat.mul_le_mul_right P (by omega)
    linarith
  have htP : t < P := by
    by_contra hcon
    have : d * P ≤ d * t := Nat.mul_le_mul_left d (by omega)
    omega
  have hround : roundTiesEven (n * P) d = q * P + t ∨
      (roundTiesEven (n * P) d = q * P + t + 1 ∧ d ≤ 2 * u) := by
    unfold roundTiesEven
    simp only [hq0, hr0]
    split_ifs with c1 c2 c3
    · left; ring
    · right; exact ⟨by ring, by omega⟩
    · left; ring
    · right; exact ⟨by ring, by omega⟩
  have hlt : roundTiesEven (n * P) d < (q + 1) * P := by
    rcases hround with h | ⟨h, h2⟩
    · rw [h]; linarith
    · rw [h]
      have : t + 1 < P := by
        by_contra hcon
        have ht1 : t = P - 1 := by omega
        have : d * t + d = d * P := by
          rw [ht1]
          have : d * (P - 1) + d = d * (P - 1 + 1) := by ring
          rw [this, Nat.sub_add_cancel hPpos]
        omega
      linarith
  have hge : q * P ≤ roundTiesEven (n * P) d := by
    rcases hround with h | ⟨h, -⟩
    · rw [h]; exact Nat.le_add_right _ _
    · rw [h, Nat.add_assoc]; exact Nat.le_add_right _ _
  exact Nat.div_eq_of_lt_le hge hlt

/-- The parts of `roundQuotient`: an exponent that brackets the quotient, and the
significand rounded at that exponent. -/
theorem roundQuotient_shape (n d : Nat) (hn : 0 < n) (hd : 0 < d) :
    ∃ e0 : Int, (2 : ℚ) ^ e0 ≤ (n : ℚ) / d ∧ (n : ℚ) / d < (2 : ℚ) ^ (e0 + 1) ∧
      roundQuotient n d =
        ⟨(roundTiesEven (n * 2 ^ (-(max (e0 - 52) (-1074))).toNat)
            (d * 2 ^ (max (e0 - 52) (-1074)).toNat) : Nat), max (e0 - 52) (-1074)⟩ := by
  have hexp := roundQuotient_exponent n d hn hd
  dsimp only at hexp
  exact ⟨_, hexp.1, hexp.2, rfl⟩

/-- The double `ms / 1000` for a positive whole number of milliseconds below `2 ^ 53`:
its significand `M` and exponent `-j` give the whole seconds as `M / 2 ^ j`, `M` is
below `2 ^ 53 + 1`, and the significand is rounded at `2 ^ j = 2 ^ 52 / 2 ^ e0`. -/
theorem seconds_shape (ms : Nat) (hpos : 0 < ms) (hlt : ms < 2 ^ 53) :
    ∃ (M j : Nat) (e0 : Int), roundQuotient ms 1000 = ⟨(M : Int), -(j : Int)⟩ ∧
      M / 2 ^ j = ms / 1000 ∧ (j : Int) = 52 - e0 ∧ -10 ≤ e0 ∧ (M : ℚ) < 2 ^ 53 + 1 := by
  obtain ⟨e0, he1, he2, hshape⟩ := roundQuotient_shape ms 1000 hpos (by norm_num)
  have hmsq : (1 : ℚ) ≤ ms := by exact_mod_cast hpos
  have hmsq2 : (ms : ℚ) < 2 ^ 53 := by exact_mod_cast hlt
  have hup : e0 < 44 := by
    have h1 : (2 : ℚ) ^ e0 < (2 : ℚ) ^ (44 : Int) := by
      refine lt_of_le_of_lt he1 ?_
      rw [Nat.cast_ofNat, div_lt_iff₀ (by norm_num)]
      calc (ms : ℚ) < 2 ^ 53 := hmsq2
        _ ≤ (2 : ℚ) ^ (44 : Int) * 1000 := by norm_num
    exact (zpow_lt_zpow_iff_right₀ (by norm_num : (1 : ℚ) < 2)).mp h1
  have hlow : -10 < e0 + 1 := by
    have h1 : (2 : ℚ) ^ (-10 : Int) < (2 : ℚ) ^ (e0 + 1) := by
      refine lt_of_le_of_lt ?_ he2
      rw [Nat.cast_ofNat, le_div_iff₀ (by norm_num)]
      calc (2 : ℚ) ^ (-10 : Int) * 1000 ≤ 1 := by norm_num
        _ ≤ ms := hmsq
    exact (zpow_lt_zpow_iff_right₀ (by norm_num : (1 : ℚ) < 2)).mp h1
  have hs : max (e0 - 52) (-1074) = -(((52 - e0).toNat : Nat) : Int) := by
    rw [max_eq_left (by omega), Int.toNat_of_nonneg (by omega)]
    ring
  rw [hs] at hshape
  simp only [neg_neg, Int.toNat_natCast, Int.toNat_neg_nat, pow_zero, mul_one] at hshape
  set j : Nat := (52 - e0).toNat with hj
  have hjv : (j : Int) = 52 - e0 := by rw [hj, Int.toNat_of_nonneg (by omega)]
  have hj9 : 9 ≤ j := by omega
  have hP : 1000 < 2 * 2 ^ j := by
    have : 512 ≤ 2 ^ j :=
      le_trans (by norm_num) (Nat.pow_le_pow_right (by norm_num : 0 < 2) hj9)
    omega
  have hlow2 : -10 ≤ e0 := by omega
  refine ⟨roundTiesEven (ms * 2 ^ j) 1000, j, e0, hshape,
    roundTiesEven_div ms 1000 (2 ^ j) (by norm_num) hP, hjv, hlow2, ?_⟩
  have herr := roundTiesEven_error (ms * 2 ^ j) 1000 (by norm_num)
  have hTP : (2 : ℚ) ^ e0 * (2 : ℚ) ^ j = 2 ^ 52 := by
    rw [← zpow_natCast, ← zpow_add₀ (by norm_num : (2 : ℚ) ≠ 0), hjv]
    have : e0 + (52 - e0) = ((52 : ℕ) : Int) := by push_cast; ring
    rw [this, zpow_natCast]
  have hPq : (0 : ℚ) < (2 : ℚ) ^ j := by positivity
  have h2 : (ms : ℚ) / 1000 * 2 ^ j < 2 ^ 53 := by
    have h3 : (ms : ℚ) / (1000 : ℕ) * 2 ^ j < (2 : ℚ) ^ (e0 + 1) * 2 ^ j :=
      mul_lt_mul_of_pos_right he2 hPq
    rw [zpow_add_one₀ (by norm_num : (2 : ℚ) ≠ 0)] at h3
    have h4 : (2 : ℚ) ^ e0 * 2 * 2 ^ j = 2 ^ 53 := by
      calc (2 : ℚ) ^ e0 * 2 * 2 ^ j = 2 * ((2 : ℚ) ^ e0 * 2 ^ j) := by ring
        _ = 2 ^ 53 := by rw [hTP]; norm_num
    rw [h4] at h3
    simpa using h3
  have h5 := (abs_le.mp herr).2
  push_cast at h5
  have h6 : (ms : ℚ) * 2 ^ j / 1000 = (ms : ℚ) / 1000 * 2 ^ j := by ring
  rw [h6] at h5
  linarith

/-- Dividing the double `M * 2 ^ (-j)` of `seconds_shape` by 60: the significand `M'` and
exponent `-j'` of the result give the whole minutes as `M' / 2 ^ j'`. -/
theorem minutes_shape (M j : Nat) (e0 : Int) (hM : 0 < M) (hj : (j : Int) = 52 - e0)
    (he0 : -10 ≤ e0) (hlt : (M : ℚ) < 2 ^ 53 + 1) :
    ∃ (M' j' : Nat), roundQuotient M (60 * 2 ^ j) = ⟨(M' : Int), -(j' : Int)⟩ ∧
      M' / 2 ^ j' = M / (60 * 2 ^ j) := by
  have hdpos : 0 < 60 * 2 ^ j := by positivity
  obtain ⟨e1, he1, -, hshape⟩ := roundQuotient_shape M (60 * 2 ^ j) hM hdpos
  have hPq : (0 : ℚ) < (2 : ℚ) ^ j := by positivity
  have hT : (0 : ℚ) < (2 : ℚ) ^ e0 := zpow_pos (by norm_num) _
  have hTP : (2 : ℚ) ^ e0 * (2 : ℚ) ^ j = 2 ^ 52 := by
    rw [← zpow_natCast, ← zpow_add₀ (by norm_num : (2 : ℚ) ≠ 0), hj]
    have : e0 + (52 - e0) = ((52 : ℕ) : Int) := by push_cast; ring
    rw [this, zpow_natCast]
  have hup : e1 < e0 - 4 := by
    have h1 : (2 : ℚ) ^ e1 < (2 : ℚ) ^ (e0 - 4) := by
      rw [zpow_sub₀ (by norm_num : (2 : ℚ) ≠ 0)]
      have ha : (2 : ℚ) ^ e1 * (60 * 2 ^ j) ≤ M := by
        have := he1
        push_cast at this
        rwa [le_div_iff₀ (by positivity)] at this
      rw [lt_div_iff₀ (by norm_num)]
      by_contra hcon
      have hcon2 : (2 : ℚ) ^ e0 ≤ (2 : ℚ) ^ e1 * 2 ^ (4 : Int) := not_lt.mp hcon
      have h3 : (2 : ℚ) ^ e0 * 2 ^ j ≤ (2 : ℚ) ^ e1 * 2 ^ (4 : Int) * 2 ^ j :=
        mul_le_mul_of_nonneg_right hcon2 (le_of_lt hPq)
      rw [hTP] at h3
      have h4 : (2 : ℚ) ^ e1 * 2 ^ (4 : Int) * 2 ^ j = (2 : ℚ) ^ e1 * (60 * 2 ^ j) * (16 / 60) := by
        norm_num; ring
      rw [h4] at h3
      have h5 : (2 : ℚ) ^ e1 * (60 * 2 ^ j) * (16 / 60) ≤ (M : ℚ) * (16 / 60) :=
        mul_le_mul_of_nonneg_right ha (by norm_num)
      have h6 : (M : ℚ) * (16 / 60) < (2 ^ 53 + 1) * (16 / 60) :=
        mul_lt_mul_of_pos_right hlt (by norm_num)
      have h7 : ((2 : ℚ) ^ 53 + 1) * (16 / 60) < 2 ^ 52 := by norm_num
      linarith
    exact (zpow_lt_zpow_iff_right₀ (by norm_num : (1 : ℚ) < 2)).mp h1
  obtain ⟨j', hj'⟩ : ∃ j' : Nat, max (e1 - 52) (-1074) = -(j' : Int) ∧ j + 5 ≤ j' := by
    refine ⟨(-(max (e1 - 52) (-1074))).toNat, ?_, ?_⟩
    · rw [Int.toNat_of_nonneg]
      · ring
      · have : max (e1 - 52) (-1074) ≤ 0 := max_le (by omega) (by omega)
        omega
    · have : max (e1 - 52) (-1074) ≤ -(j : Int) - 5 := max_le (by omega) (by omega)
      omega
  rw [hj'.1] at hshape
  simp only [neg_neg, Int.toNat_natCast, Int.toNat_neg_nat, pow_zero, mul_one] at hshape
  have hP : 60 * 2 ^ j < 2 * 2 ^ j' := by
    have h1 : 2 ^ (j + 5) ≤ 2 ^ j' := Nat.pow_le_pow_right (by norm_num) hj'.2
    have h2 : 2 ^ (j + 5) = 32 * 2 ^ j := by rw [pow_add]; ring
    have h3 : 0 < 2 ^ j := by positivity
    omega
  exact ⟨_, j', hshape, roundTiesEven_div M (60 * 2 ^ j) (2 ^ j') hdpos hP⟩

theorem F64.floor_mk (M j : Nat) : F64.floor ⟨(M : Int), -(j : Int)⟩ = ((M / 2 ^ j : ℕ) : Int) := by
  simp [F64.floor]

/-- The three whole numbers `calculateAndUpdateStats` takes from the double `ms / 1000`:
its floor is `ms / 1000`, the floor of its quotient by 60 is `ms / 60000`, and the floor of
its remainder modulo 60 is `ms / 1000 % 60`, in integer arithmetic. -/
theorem time_parts (ms : Nat) (hlt : ms < 2 ^ 53) :
    F64.floor (F64.div ⟨(ms : Int), 0⟩ ⟨((1000 : ℕ) : Int), 0⟩) = ((ms / 1000 : ℕ) : Int) ∧
    F64.floor (F64.div (F64.div ⟨(ms : Int), 0⟩ ⟨((1000 : ℕ) : Int), 0⟩) ⟨((60 : ℕ) : Int), 0⟩)
      = ((ms / 60000 : ℕ) : Int) ∧
    F64.floor (F64.rem (F64.div ⟨(ms : Int), 0⟩ ⟨((1000 : ℕ) : Int), 0⟩) ⟨((60 : ℕ) : Int), 0⟩)
      = ((ms / 1000 % 60 : ℕ) : Int) := by
  rcases Nat.eq_zero_or_pos ms with h0 | hpos
  · subst h0
    decide
  · have hx : F64.div ⟨(ms : Int), 0⟩ ⟨((1000 : ℕ) : Int), 0⟩ = roundQuotient ms 1000 := by
      have hne : ms ≠ 0 := by omega
      simp [F64.div, F64.ofQuotient, hne]
    obtain ⟨M, j, e0, hshape, hsec, hj, he0, hMlt⟩ := seconds_shape ms hpos hlt
    rw [hx, hshape]
    refine ⟨?_, ?_, ?_⟩
    · rw [F64.floor_mk, hsec]
    · have hdiv : F64.div ⟨(M : Int), -(j : Int)⟩ ⟨((60 : ℕ) : Int), 0⟩
          = if M = 0 then ⟨0, 0⟩ else roundQuotient M (60 * 2 ^ j) := by
        have hnn : ¬ ((M : Int) < 0) := by omega
        simp [F64.div, F64.ofQuotient, hnn]
      rw [hdiv]
      have h60 : ms / 60000 = ms / 1000 / 60 := by
        rw [Nat.div_div_eq_div_mul]
      by_cases hM : M = 0
      · rw [if_pos hM]
        have : ms / 1000 = 0 := by rw [← hsec, hM]; simp
        rw [h60, this]
        decide
      · rw [if_neg hM]
        obtain ⟨M', j', hshape', hmin⟩ :=
          minutes_shape M j e0 (Nat.pos_of_ne_zero hM) hj he0 hMlt
        rw [hshape', F64.floor_mk, hmin, h60, ← hsec, Nat.div_div_eq_div_mul,
          Nat.mul_comm (2 ^ j) 60]
    · have hrem : F64.rem ⟨(M : Int), -(j : Int)⟩ ⟨((60 : ℕ) : Int), 0⟩
          = ⟨((M % (60 * 2 ^ j) : ℕ) : Int), -(j : Int)⟩ := by
        simp [F64.rem]
        exact Int.tmod_eq_emod (by positivity) (by positivity)
      rw [hrem, F64.floor_mk, Nat.mod_mul_left_div_self, hsec]

theorem timeElapsedSeconds_eq (start now : Nat) (h1 : start ≤ now) (h2 : now < 2 ^ 53) :
    timeElapsedSeconds start now
      = F64.div ⟨((now - start : ℕ) : Int), 0⟩ ⟨((1000 : ℕ) : Int), 0⟩ := by
  have hs53 : start < 2 ^ 53 := by omega
  rw [timeElapsedSeconds, F64.ofNat_of_lt now h2, F64.ofNat_of_lt start hs53,
    F64.sub_natCast now start h2 hs53, F64.ofNat_of_lt 1000 (by norm_num)]
  congr 2
  omega

/-- C14. For a start and a clock reading that are whole milliseconds below `2 ^ 53` (every
value of `Date.now()` is), the clock not before the start, and `ms = now - start`: the
minutes `calculateAndUpdateStats` computes are `floor(ms / 60000)`, the seconds are
`floor(ms / 1000) mod 60`, the formatted time is the decimal minutes, a colon and the
seconds written with exactly two digits; the seconds are between 0 and 59, and
`minutes * 60 + seconds` is `floor(ms / 1000)`, the floor of the elapsed seconds the
source holds. -/
theorem C14_formatted_time (start now : Nat) (h1 : start ≤ now) (h2 : now < 2 ^ 53) :
    F64.floor (F64.div (timeElapsedSeconds start now) (F64.ofNat 60))
      = (((now - start) / 60000 : ℕ) : Int) ∧
    F64.floor (F64.rem (timeElapsedSeconds start now) (F64.ofNat 60))
      = (((now - start) / 1000 % 60 : ℕ) : Int) ∧
    formattedTime start now
      = toString ((now - start) / 60000) ++ ":" ++ twoDigits ((now - start) / 1000 % 60) ∧
    (now - start) / 1000 % 60 < 60 ∧
    F64.floor (F64.div (timeElapsedSeconds start now) (F64.ofNat 60)) * 60
        + F64.floor (F64.rem (timeElapsedSeconds start now) (F64.ofNat 60))
      = F64.floor (timeElapsedSeconds start now) ∧
    F64.floor (timeElapsedSeconds start now) = (((now - start) / 1000 : ℕ) : Int) := by
  have hms : now - start < 2 ^ 53 := by omega
  obtain ⟨p1, p2, p3⟩ := time_parts (now - start) hms
  have hsec := timeElapsedSeconds_eq start now h1 h2
  have h60 : F64.ofNat 60 = ⟨((60 : ℕ) : Int), 0⟩ := F64.ofNat_of_lt 60 (by norm_num)
  have hlt60 : (now - start) / 1000 % 60 < 60 := Nat.mod_lt _ (by norm_num)
  refine ⟨?_, ?_, ?_, hlt60, ?_, ?_⟩
  · rw [hsec, h60, p2]
  · rw [hsec, h60, p3]
  · simp only [formattedTime]
    rw [hsec, h60, p2, p3, toString_natCast, toString_natCast, padStart2_twoDigits _ hlt60]
  · rw [hsec, h60, p1, p2, p3]
    have := Nat.div_add_mod ((now - start) / 1000) 60
    rw [Nat.div_div_eq_div_mul] at this
    norm_num at this
    omega
  · rw [hsec, p1]

/-- Witness of C14: 125.5 seconds after the start the time reads 2:05. -/
theorem C14_formatted_time_witness :
    1000 ≤ 126500 ∧ 126500 < 2 ^ 53 ∧ formattedTime 1000 126500 = "2:05" :=
  ⟨by decide, by decide,
   (C14_formatted_time 1000 126500 (by decide) (by decide)).2.2.1.trans (by decide)⟩

/-! ## C13: the count of the word service -/

theorem isDecimalDigit_not_space (u : Nat) (h : isDecimalDigit u = true) :
    isStrWhiteSpaceChar u = false ∧ u ≠ 45 ∧ u ≠ 43 := by
  simp only [isDecimalDigit, Bool.and_eq_true, decide_eq_true_eq] at h
  obtain ⟨h1, h2⟩ := h
  refine ⟨?_, by omega, by omega⟩
  interval_cases u <;> rfl

/-- On a plain decimal integer `parseInt` reads the whole text. -/
theorem parseInt10_plain (value : JSString) (h : isPlainInteger value = true) :
    parseInt10 value = some (decimalValue value : Int) := by
  simp only [isPlainInteger, Bool.and_eq_true, Bool.not_eq_true', List.all_eq_true] at h
  obtain ⟨hne, hall⟩ := h
  cases value with
  | nil => simp at hne
  | cons u rest =>
    obtain ⟨h1, h2, h3⟩ := isDecimalDigit_not_space u (hall u (List.mem_cons_self _ _))
    have htake : List.takeWhile isDecimalDigit (u :: rest) = u :: rest :=
      List.takeWhile_eq_self_iff.mpr hall
    simp [parseInt10, List.dropWhile, h1, h2, h3, htake]

/-- What follows the digits is ignored by `parseInt`: the plain integer `digits` followed by
a text that does not start with a digit reads as `digits`. -/
theorem parseInt10_append (digits rest : JSString) (h : isPlainInteger digits = true)
    (hrest : ∀ u, rest.head? = some u → isDecimalDigit u = false) :
    parseInt10 (digits ++ rest) = some (decimalValue digits : Int) := by
  simp only [isPlainInteger, Bool.and_eq_true, Bool.not_eq_true', List.all_eq_true] at h
  obtain ⟨hne, hall⟩ := h
  cases digits with
  | nil => simp at hne
  | cons u ds =>
    obtain ⟨h1, h2, h3⟩ := isDecimalDigit_not_space u (hall u (List.mem_cons_self _ _))
    have htake : List.takeWhile isDecimalDigit (u :: ds ++ rest) = u :: ds := by
      have h4 : List.takeWhile isDecimalDigit ((u :: ds) ++ rest)
          = (u :: ds) ++ List.takeWhile isDecimalDigit rest :=
        List.takeWhile_append_of_pos hall
      have h5 : List.takeWhile isDecimalDigit rest = [] := by
        cases rest with
        | nil => rfl
        | cons r rs => simp [List.takeWhile, hrest r rfl]
      rw [h5, List.append_nil] at h4
      exact h4
    have hd : (u :: (ds ++ rest)).dropWhile isStrWhiteSpaceChar = u :: (ds ++ rest) := by
      simp [List.dropWhile, h1]
    simp only [parseInt10, List.cons_append] at htake ⊢
    simp only [hd]
    simp [h2, h3, htake]

/-- The 400 answer of line 46 is given exactly when `wordCount` is not set. -/
theorem handler_invalidCount (countParam : Option QueryValue) (upstream : Nat → Extraction) :
    handler (utf16 "GET") countParam upstream = invalidCount ↔ wordCount countParam = none := by
  have h1 : utf16 "GET" ≠ utf16 "OPTIONS" := by decide
  simp only [handler, h1, if_false, ne_eq, not_true_eq_false]
  cases hc : wordCount countParam with
  | none => simp
  | some count =>
    simp only []
    cases upstream count with
    | words ws => simp [invalidCount]
    | thrown status message => simp [invalidCount]

/-- When `wordCount` is not set: a truthy `count` whose `parseInt` is `NaN` or outside 1
to 50. -/
theorem wordCount_eq_none (countParam : Option QueryValue) :
    wordCount countParam = none ↔
      ∃ value, countParam = some value ∧ value.isTruthy = true ∧
        ¬ ∃ n : Int, parseInt10 value.toJSString = some n ∧ 1 ≤ n ∧ n ≤ 50 := by
  cases countParam with
  | none => simp [wordCount]
  | some value =>
    simp only [wordCount, Option.some.injEq, exists_eq_left']
    cases ht : value.isTruthy with
    | false => simp
    | true =>
      cases hp : parseInt10 value.toJSString with
      | none => simp
      | some n =>
        simp only [if_true, Option.some.injEq, exists_eq_left', true_and]
        by_cases hr : 0 < n ∧ n ≤ 50
        · rw [if_pos hr]
          simp
          omega
        · rw [if_neg hr]
          simp
          omega

/-- When `wordCount` is set, it is 20 or a count between 1 and 50 read by `parseInt`. -/
theorem wordCount_eq_some (countParam : Option QueryValue) (count : Nat)
    (h : wordCount countParam = some count) :
    1 ≤ count ∧ count ≤ 50 ∧
    (count = 20 ∨ ∃ value, countParam = some value ∧
      parseInt10 value.toJSString = some (count : Int)) := by
  cases countParam with
  | none =>
    simp only [wordCount, Option.some.injEq] at h
    omega
  | some value =>
    simp only [wordCount] at h
    split_ifs at h with ht
    · cases hp : parseInt10 value.toJSString with
      | none => rw [hp] at h; simp at h
      | some n =>
        rw [hp] at h
        simp only [] at h
        split_ifs at h with hr
        simp only [Option.some.injEq] at h
        refine ⟨by omega, by omega, Or.inr ⟨value, rfl, ?_⟩⟩
        rw [← h, Int.toNat_of_nonneg (by omega)]
        exact hp
    · simp only [Option.some.injEq] at h
      omega

/-- C13 (amended). For a GET request, whatever the model answers: the handler gives the 400
answer 'Invalid count parameter. Must be between 1 and 50.' exactly when `count` is supplied,
is not the empty string, and `parseInt(count, 10)` is `NaN` or not between 1 and 50; for a
`count` that is a plain decimal integer this is exactly when the integer is not between 1 and
50, and text after the digits does not change the answer.  With no `count`, or an empty one,
`wordCount` is 20.  Every response that carries a `words` array has status 200, `wordCount`
is set and between 1 and 50, and the array is the first `wordCount` words extracted, so it has
at most `wordCount` words. -/
theorem C13_get_word_count (countParam : Option QueryValue) (upstream : Nat → Extraction) :
    (handler (utf16 "GET") countParam upstream = invalidCount ↔
      ∃ value, countParam = some value ∧ value.isTruthy = true ∧
        ¬ ∃ n : Int, parseInt10 value.toJSString = some n ∧ 1 ≤ n ∧ n ≤ 50) ∧
    (∀ digits rest : JSString, isPlainInteger digits = true →
      (∀ u, rest.head? = some u → isDecimalDigit u = false) →
      (handler (utf16 "GET") (some (QueryValue.single (digits ++ rest))) upstream = invalidCount
        ↔ ¬ (1 ≤ decimalValue digits ∧ decimalValue digits ≤ 50))) ∧
    wordCount none = some 20 ∧
    wordCount (some (QueryValue.single [])) = some 20 ∧
    (∀ ws, (handler (utf16 "GET") countParam upstream).body = ResponseBody.words ws →
      (handler (utf16 "GET") countParam upstream).status = 200 ∧
      ∃ count extracted, wordCount countParam = some count ∧ 1 ≤ count ∧ count ≤ 50 ∧
        upstream count = Extraction.words extracted ∧ ws = extracted.take count ∧
        ws.length ≤ count) := by
  refine ⟨?_, ?_, rfl, rfl, ?_⟩
  · rw [handler_invalidCount, wordCount_eq_none]
  · intro digits rest hd hrest
    rw [handler_invalidCount, wordCount_eq_none]
    have hp := parseInt10_append digits rest hd hrest
    have hne : digits ≠ [] := by
      intro h0
      rw [h0] at hd
      simp [isPlainInteger] at hd
    have ht : (QueryValue.single (digits ++ rest)).isTruthy = true := by
      cases digits with
      | nil => exact absurd rfl hne
      | cons u ds => rfl
    constructor
    · rintro ⟨value, hv, -, hn⟩ hr
      injection hv with hv
      subst hv
      exact hn ⟨_, hp, by exact_mod_cast hr.1, by exact_mod_cast hr.2⟩
    · intro hr
      refine ⟨_, rfl, ht, ?_⟩
      rintro ⟨n, hn, h1, h2⟩
      simp only [QueryValue.toJSString] at hn
      rw [hp] at hn
      injection hn with hn
      subst hn
      exact hr ⟨by exact_mod_cast h1, by exact_mod_cast h2⟩
  · intro ws hws
    have h1 : utf16 "GET" ≠ utf16 "OPTIONS" := by decide
    simp only [handler, h1, if_false, ne_eq, not_true_eq_false] at hws ⊢
    cases hc : wordCount countParam with
    | none =>
      rw [hc] at hws
      simp [invalidCount] at hws
    | some count =>
      rw [hc] at hws
      simp only [] at hws ⊢
      obtain ⟨c1, c2, -⟩ := wordCount_eq_some countParam count hc
      cases hu : upstream count with
      | thrown status message =>
        rw [hu] at hws
        simp at hws
      | words extracted =>
        rw [hu] at hws
        simp only [ResponseBody.words.injEq] at hws
        refine ⟨rfl, count, extracted, rfl, c1, c2, hu, hws.symm, ?_⟩
        rw [← hws, List.length_take]
        exact Nat.min_le_left _ _

/-- C13 fails on a count that only starts with an integer, and on an empty count.  With a
model answering three words: `count=5abc`, `count=7.9` and `count= 12` are not integers, yet
the answer is 200 with the words; `count=` is supplied and is no integer, and is answered like
a missing count; `count=5abc` with a model answering six words gets five of them. -/
theorem C13_counterexample :
    (handler (utf16 "GET") (some (QueryValue.single (utf16 "5abc")))
      (fun _ => Extraction.words [utf16 "apple", utf16 "banana", utf16 "cherry"]))
      = ⟨200, ResponseBody.words [utf16 "apple", utf16 "banana", utf16 "cherry"]⟩ ∧
    (handler (utf16 "GET") (some (QueryValue.single (utf16 "7.9")))
      (fun _ => Extraction.words [utf16 "apple", utf16 "banana", utf16 "cherry"])).status
      = 200 ∧
    (handler (utf16 "GET") (some (QueryValue.single (utf16 " 12")))
      (fun _ => Extraction.words [utf16 "apple", utf16 "banana", utf16 "cherry"])).status
      = 200 ∧
    (handler (utf16 "GET") (some (QueryValue.single (utf16 "")))
      (fun _ => Extraction.words [utf16 "apple", utf16 "banana", utf16 "cherry"])).status
      = 200 ∧
    wordCount (some (QueryValue.single (utf16 "5abc"))) = some 5 ∧
    wordCount (some (QueryValue.single (utf16 "7.9"))) = some 7 ∧
    wordCount (some (QueryValue.single (utf16 ""))) = some 20 ∧
    (handler (utf16 "GET") (some (QueryValue.single (utf16 "5abc")))
      (fun _ => Extraction.words
        [utf16 "apple", utf16 "banana", utf16 "cherry", utf16 "date", utf16 "elder",
         utf16 "fig"]))
      = ⟨200, ResponseBody.words
          [utf16 "apple", utf16 "banana", utf16 "cherry", utf16 "date", utf16 "elder"]⟩ := by
  decide

/-- The count as the page sends it, and counts that are refused: `count=30` asks for 30
words; `count=0`, `count=51`, `count=-3`, `count=abc` and a repeated `count` whose first
value is empty get the 400 answer; a repeated `count=5&count=9` reads as 5. -/
theorem count_scenario :
    wordCount (some (QueryValue.single (utf16 "30"))) = some 30 ∧
    wordCount (some (QueryValue.single (utf16 "0"))) = none ∧
    wordCount (some (QueryValue.single (utf16 "51"))) = none ∧
    wordCount (some (QueryValue.single (utf16 "-3"))) = none ∧
    wordCount (some (QueryValue.single (utf16 "abc"))) = none ∧
    wordCount (some (QueryValue.multiple [utf16 "", utf16 "4"])) = none ∧
    wordCount (some (QueryValue.multiple [utf16 "5", utf16 "9"])) = some 5 ∧
    handler (utf16 "GET") (some (QueryValue.single (utf16 "51")))
      (fun _ => Extraction.words [utf16 "apple"]) = invalidCount ∧
    handler (utf16 "POST") none (fun _ => Extraction.words [utf16 "apple"])
      = ⟨405, ResponseBody.failure "Method Not Allowed" none⟩ ∧
    handler (utf16 "GET") none (fun _ => Extraction.thrown none (some "timeout"))
      = ⟨500, ResponseBody.failure "Failed to fetch words from AI service." (some "timeout")⟩ := by
  decide

end SpellingPractice
